import Mathlib

/-!
# saferotp: the raw facade, the virtualized OTP shadow and the encoding engines

A shallow embedding of `saferotp_rw.c`.

* Machine integers are `Nat`; a `uint32_t` word is a `Nat` below `2^32`, and the places
  where C truncates (`(uint16_t)`, `uint8_t` complement) are written out with `%`.
* A buffer of `uint32_t` words is a function from the word index to the word.
* The global shadow `g_virtual_otp`, the flag `g_virtual_otp_initialized` and the state behind
  the boot-ROM entry point are threaded through every call as an `OtpState`.
* The boot-ROM primitive `rom_func_otp_access` and the ECC codec
  (`saferotp_calculate_ecc`, `saferotp_decode_raw`) are external to `saferotp_rw.c`;
  they are parameters of the embedding.
* `g_WaitForKey_otp_rw` is a file-local flag that is never assigned, so `WAIT_FOR_KEY()` does
  nothing; the `PRINT_*` macros produce no state change.  Both are left out.
* A local that the source passes uninitialised as an output buffer starts as zero here; the
  source reads it only after the read has succeeded.
-/

namespace SaferOtp

/-! ## Constants and row words -/

/-- The number of OTP rows; the source asserts `NUM_OTP_ROWS == 0x1000u`. -/
def NUM_OTP_ROWS : Nat := 0x1000

/-- Modelled from the spec: the union `SAFEROTP_RAW_READ_RESULT` is declared in `saferotp.h`,
which is not among the sources at hand.  Its view `as_bytes[k]` of the 32-bit word is byte `k`
in little-endian order; the spec places the three data bytes at bits 0-7, 8-15 and 16-23. -/
def as_bytes (w k : Nat) : Nat := w / 2 ^ (8 * k) % 256

/-- Modelled from the spec: the member `is_error` of `SAFEROTP_RAW_READ_RESULT` (header
`saferotp.h`, not among the sources at hand).  The source fixes the size of the union to four
bytes and stores `0xFFFFFFFF` to make a row "an error"; the spec says the upper 8 bits of a raw
word, when nonzero, indicate the error.  So `is_error` is the top byte of the word. -/
def is_error (w : Nat) : Bool := as_bytes w 3 != 0

/-- The statement `x.as_bytes[k] |= v` on the little-endian view of a word. -/
def or_byte (w k v : Nat) : Nat := w ||| (v <<< (8 * k))

/-- The builtin `__builtin_popcount` on a 32-bit unsigned value. -/
def popcount (x : Nat) : Nat := ((List.range 32).filter (fun i => x.testBit i)).length

/-! ## Range validator -/

/-- Embedding of `is_valid_otp_range_raw`. -/
def is_valid_otp_range_raw (starting_row raw_byte_count : Nat) : Bool :=
  if starting_row ≥ NUM_OTP_ROWS then false
  else if raw_byte_count % 4 ≠ 0 then false
  else if raw_byte_count > NUM_OTP_ROWS * 4 then false
  else
    let row_count := (raw_byte_count / 4) % 65536
    if row_count = 0 then false
    else if NUM_OTP_ROWS - row_count < starting_row then false
    else true

/-! ## State and external collaborators -/

/-- The boot-ROM entry point `rom_func_otp_access(buf, buf_len, cmd)`: from the hardware state,
the buffer, its byte length, the row in `cmd.flags` and whether `OTP_CMD_WRITE_BITS` is set,
it yields `r == BOOTROM_OK`, the buffer afterwards and the new hardware state. -/
structure Bootrom (H : Type) where
  rom_func_otp_access : H → (Nat → Nat) → Nat → Nat → Bool → Bool × (Nat → Nat) × H

/-- The ECC codec of `saferotp_ecc.h`: the encoder of a 16-bit value into a 24-bit row and the
decoder, whose result has a nonzero upper byte when decoding failed. -/
structure EccCodec where
  saferotp_calculate_ecc : Nat → Nat
  saferotp_decode_raw : Nat → Nat

/-- The state the functions of `saferotp_rw.c` act on.  `rows i` is
`g_virtual_otp.rows[i].as_uint32`, `initialized` is `g_virtual_otp_initialized`, `hw` is
whatever lies behind the boot-ROM primitive.  `raw_writes` is a ghost call log: every call of
`write_raw_wrapper` prepends its starting row and the words of its buffer. -/
structure OtpState (H : Type) where
  rows : Nat → Nat
  initialized : Bool
  hw : H
  raw_writes : List (Nat × List Nat)

/-! ## Hardware wrappers -/

/-- Embedding of `hw_write_raw_otp_wrapper`. -/
def hw_write_raw_otp_wrapper {H : Type} (rom : Bootrom H) (s : OtpState H)
    (starting_row : Nat) (buffer : Nat → Nat) (buffer_size : Nat) : Bool × OtpState H :=
  let r := rom.rom_func_otp_access s.hw buffer buffer_size starting_row true
  (r.1, { s with hw := r.2.2 })

/-- Embedding of `hw_read_raw_otp_wrapper`. -/
def hw_read_raw_otp_wrapper {H : Type} (rom : Bootrom H) (s : OtpState H)
    (starting_row : Nat) (buffer : Nat → Nat) (buffer_size : Nat) :
    Bool × (Nat → Nat) × OtpState H :=
  let r := rom.rom_func_otp_access s.hw buffer buffer_size starting_row false
  (r.1, r.2.1, { s with hw := r.2.2 })

/-! ## Shadow store -/

/-- Embedding of `virt_override_restore`: after the range check, a `memcpy` of the buffer over
the shadow rows. -/
def virt_override_restore {H : Type} (s : OtpState H)
    (starting_row : Nat) (buffer : Nat → Nat) (buffer_size : Nat) : Bool × OtpState H :=
  if !is_valid_otp_range_raw starting_row buffer_size then (false, s)
  else
    let copied : Nat → Nat := fun r =>
      if starting_row ≤ r ∧ r < starting_row + buffer_size / 4 then buffer (r - starting_row)
      else s.rows r
    (true, { s with rows := copied })

/-- The row loop of `virt_write_raw_otp_wrapper`: `n` rows remain, `i` is the loop index. -/
def virt_write_loop (starting_row : Nat) (buffer : Nat → Nat) :
    Nat → Nat → (Nat → Nat) → Bool × (Nat → Nat)
  | 0, _, rows => (true, rows)
  | n + 1, i, rows =>
    let current := rows (starting_row + i)
    if is_error current then (false, rows)
    else
      let new_value := buffer i
      if (current ||| new_value) ≠ new_value then (false, rows)
      else virt_write_loop starting_row buffer n (i + 1)
        (Function.update rows (starting_row + i) new_value)

/-- Embedding of `virt_write_raw_otp_wrapper`. -/
def virt_write_raw_otp_wrapper {H : Type} (s : OtpState H)
    (starting_row : Nat) (buffer : Nat → Nat) (buffer_size : Nat) : Bool × OtpState H :=
  if !s.initialized then (false, s)
  else if !is_valid_otp_range_raw starting_row buffer_size then (false, s)
  else
    let r := virt_write_loop starting_row buffer (buffer_size / 4) 0 s.rows
    (r.1, { s with rows := r.2 })

/-- The row loop of `virt_read_raw_otp_wrapper`. -/
def virt_read_loop (rows : Nat → Nat) (starting_row : Nat) :
    Nat → Nat → (Nat → Nat) → Bool × (Nat → Nat)
  | 0, _, buffer => (true, buffer)
  | n + 1, i, buffer =>
    let current := rows (starting_row + i)
    if is_error current then (false, buffer)
    else virt_read_loop rows starting_row n (i + 1) (Function.update buffer i current)

/-- Embedding of `virt_read_raw_otp_wrapper`. -/
def virt_read_raw_otp_wrapper {H : Type} (s : OtpState H)
    (starting_row : Nat) (buffer : Nat → Nat) (buffer_size : Nat) : Bool × (Nat → Nat) :=
  if !s.initialized then (false, buffer)
  else if !is_valid_otp_range_raw starting_row buffer_size then (false, buffer)
  else virt_read_loop s.rows starting_row (buffer_size / 4) 0 buffer

/-- Embedding of `virt_override_save`: after the range check, a `memcpy` of the shadow rows
into the buffer.  The shadow is not changed. -/
def virt_override_save {H : Type} (s : OtpState H)
    (starting_row : Nat) (buffer : Nat → Nat) (buffer_size : Nat) : Bool × (Nat → Nat) :=
  if !is_valid_otp_range_raw starting_row buffer_size then (false, buffer)
  else
    let copied : Nat → Nat := fun i =>
      if i < buffer_size / 4 then s.rows (starting_row + i) else buffer i
    (true, copied)

/-- Modelled from the spec: `NUM_OTP_PAGES` comes from the header `saferotp.h`, which is not
among the sources at hand; the spec gives 64 pages. -/
def NUM_OTP_PAGES : Nat := 64

/-- Modelled from the spec: `NUM_OTP_PAGE_ROWS` comes from the header `saferotp.h`, which is
not among the sources at hand; the spec gives 64 rows per page. -/
def NUM_OTP_PAGE_ROWS : Nat := 64

/-- The inner loop of `virt_initialize`, `for (i = 0; i < NUM_OTP_PAGE_ROWS; ++i, ++row)`: `n`
rows of the page remain, `row` is the current row.  The buffer of the hardware read is the
shadow entry `&g_virtual_otp.rows[row]` itself; a failed read stores `0xFFFFFFFF`. -/
def virt_initialize_rows {H : Type} (rom : Bootrom H) : Nat → Nat → OtpState H → OtpState H
  | 0, _, s => s
  | n + 1, row, s =>
    let rd := hw_read_raw_otp_wrapper rom s row (fun k => s.rows (row + k)) 4
    let read_into : OtpState H :=
      { rd.2.2 with rows := Function.update rd.2.2.rows row (rd.2.1 0) }
    let stored : OtpState H :=
      if !rd.1 then { read_into with rows := Function.update read_into.rows row 0xFFFFFFFF }
      else read_into
    virt_initialize_rows rom n (row + 1) stored

/-- The outer loop of `virt_initialize`, `for (; page < NUM_OTP_PAGES; ++page)`: `n` pages
remain at `page`; a page whose bit is set in `ignored_pages_mask` is skipped. -/
def virt_initialize_pages {H : Type} (rom : Bootrom H) (ignored_pages_mask : Nat) :
    Nat → Nat → OtpState H → OtpState H
  | 0, _, s => s
  | n + 1, page, s =>
    let tst_mask := 1 <<< page
    if ignored_pages_mask &&& tst_mask ≠ 0 then
      virt_initialize_pages rom ignored_pages_mask n (page + 1) s
    else
      virt_initialize_pages rom ignored_pages_mask n (page + 1)
        (virt_initialize_rows rom NUM_OTP_PAGE_ROWS (page * NUM_OTP_PAGE_ROWS) s)

/-- Embedding of `virt_initialize`; the count of failed rows only feeds the warnings. -/
def virt_initialize {H : Type} (rom : Bootrom H) (s : OtpState H) (ignored_pages_mask : Nat) :
    Bool × OtpState H :=
  if s.initialized then (false, s)
  else
    let cleared : OtpState H := { s with rows := fun _ => 0 }
    let primed := virt_initialize_pages rom ignored_pages_mask NUM_OTP_PAGES 0 cleared
    (true, { primed with initialized := true })

/-! ## Raw access facade -/

/-- Embedding of `write_raw_wrapper`.  The first line keeps the ghost call log. -/
def write_raw_wrapper {H : Type} (rom : Bootrom H) (s : OtpState H)
    (starting_row : Nat) (buffer : Nat → Nat) (buffer_size : Nat) : Bool × OtpState H :=
  let s := { s with raw_writes :=
    (starting_row, (List.range (buffer_size / 4)).map buffer) :: s.raw_writes }
  if !is_valid_otp_range_raw starting_row buffer_size then (false, s)
  else if s.initialized then virt_write_raw_otp_wrapper s starting_row buffer buffer_size
  else hw_write_raw_otp_wrapper rom s starting_row buffer buffer_size

/-- Embedding of `read_raw_wrapper`. -/
def read_raw_wrapper {H : Type} (rom : Bootrom H) (s : OtpState H)
    (starting_row : Nat) (buffer : Nat → Nat) (buffer_size : Nat) :
    Bool × (Nat → Nat) × OtpState H :=
  if !is_valid_otp_range_raw starting_row buffer_size then (false, buffer, s)
  else if buffer_size % 4 ≠ 0 then (false, buffer, s)
  else if s.initialized then
    let r := virt_read_raw_otp_wrapper s starting_row buffer buffer_size
    (r.1, r.2, s)
  else hw_read_raw_otp_wrapper rom s starting_row buffer buffer_size

/-! ## ECC row engine -/

/-- Embedding of `read_single_otp_ecc_row`; the middle component is `*data_out`. -/
def read_single_otp_ecc_row {H : Type} (rom : Bootrom H) (codec : EccCodec) (s : OtpState H)
    (row : Nat) : Bool × Nat × OtpState H :=
  let r := read_raw_wrapper rom s row (fun _ => 0) 4
  if !r.1 then (false, 0xFFFF, r.2.2)
  else
    let existing_raw_data := r.2.1 0
    let decode_result := codec.saferotp_decode_raw existing_raw_data
    if decode_result &&& 0xFF000000 ≠ 0 then (false, 0xFFFF, r.2.2)
    else (true, decode_result % 65536, r.2.2)

/-- The enumerator `MASK_BRBP_BITS` of `write_single_otp_ecc_row`. -/
def MASK_BRBP_BITS : Nat := 0xC00000

/-- The enumerator `MASK_NON_BRBP_BITS` of `write_single_otp_ecc_row`. -/
def MASK_NON_BRBP_BITS : Nat := 0x3FFFFF

/-- The enumerator `MASK_ALL_RAW_BITS` of `write_single_otp_ecc_row`. -/
def MASK_ALL_RAW_BITS : Nat := 0xFFFFFF

/-- Step 3 of `write_single_otp_ecc_row` (the `do { ... } while (0)` block): the word to hand
to the raw write, or `none` where the source returns `false`. -/
def ecc_data_to_write (codec : EccCodec) (existing_raw_data data : Nat) : Option Nat :=
  let encoded_new_data := codec.saferotp_calculate_ecc data
  let encoded_new_data_brbp := encoded_new_data ^^^ MASK_ALL_RAW_BITS
  let to_write := existing_raw_data ||| encoded_new_data
  let to_write_brbp := existing_raw_data ||| encoded_new_data_brbp
  let error_bits := encoded_new_data ^^^ to_write
  let error_bits_brbp := encoded_new_data_brbp ^^^ to_write_brbp
  if popcount error_bits = 0 then some to_write
  else if popcount error_bits_brbp = 0 then some to_write_brbp
  else if popcount (error_bits_brbp &&& MASK_BRBP_BITS) ≤ 1 ∧
      popcount (error_bits_brbp &&& MASK_NON_BRBP_BITS) ≤ 1 then some to_write_brbp
  else if popcount (error_bits &&& MASK_BRBP_BITS) ≤ 1 ∧
      popcount (error_bits &&& MASK_NON_BRBP_BITS) ≤ 1 then some to_write
  else none

/-- Embedding of `write_single_otp_ecc_row`. -/
def write_single_otp_ecc_row {H : Type} (rom : Bootrom H) (codec : EccCodec) (s : OtpState H)
    (row data : Nat) : Bool × OtpState H :=
  let r := read_raw_wrapper rom s row (fun _ => 0) 4
  if !r.1 then (false, r.2.2)
  else
    let existing_raw_data := r.2.1 0
    let decode_result := codec.saferotp_decode_raw existing_raw_data
    if decode_result &&& 0xFF000000 = 0 ∧ decode_result % 65536 = data then (true, r.2.2)
    else
      match ecc_data_to_write codec existing_raw_data data with
      | none => (false, r.2.2)
      | some data_to_write =>
        let w := write_raw_wrapper rom r.2.2 row (fun _ => data_to_write) 4
        if !w.1 then (false, w.2)
        else
          let v := read_single_otp_ecc_row rom codec w.2 row
          if !v.1 then (false, v.2.2)
          else (true, v.2.2)

/-! ## Byte-3x engine -/

/-- The three `if (x.as_bytes[k] & mask) { ++count; }` statements. -/
def byte_3x_count (w mask : Nat) : Nat :=
  (if as_bytes w 0 &&& mask ≠ 0 then 1 else 0) +
  (if as_bytes w 1 &&& mask ≠ 0 then 1 else 0) +
  (if as_bytes w 2 &&& mask ≠ 0 then 1 else 0)

/-- The voting loop of `read_otp_byte_3x`, `for (mask = 0x80u; mask; mask >>= 1)`; the first
argument bounds the number of iterations still allowed. -/
def byte_3x_vote_loop (w : Nat) : Nat → Nat → Nat → Nat
  | 0, _, result => result
  | n + 1, mask, result =>
    if mask = 0 then result
    else byte_3x_vote_loop w n (mask / 2)
      (if byte_3x_count w mask ≥ 2 then result ||| mask else result)

/-- Embedding of `read_otp_byte_3x`; the middle component is `*out_data`. -/
def read_otp_byte_3x {H : Type} (rom : Bootrom H) (s : OtpState H) (row : Nat) :
    Bool × Nat × OtpState H :=
  let r := read_raw_wrapper rom s row (fun _ => 0) 4
  if !r.1 then (false, 0xFF, r.2.2)
  else (true, byte_3x_vote_loop (r.2.1 0) 9 0x80 0, r.2.2)

/-- Step 2 of `write_otp_byte_3x`, the loop `for (i = 0; i < 8u; ++i)`: `n` iterations remain
at index `i`; the result is `false` where the source returns `false` from inside the loop. -/
def byte_3x_clear_check (old_raw_data check_if_voted_set : Nat) : Nat → Nat → Bool
  | 0, _ => true
  | n + 1, i =>
    let mask := (1 <<< i) % 256
    if check_if_voted_set &&& mask ≠ 0 ∧ byte_3x_count old_raw_data mask ≥ 2 then false
    else byte_3x_clear_check old_raw_data check_if_voted_set n (i + 1)

/-- Embedding of `write_otp_byte_3x`; `new_value` is a `uint8_t`. -/
def write_otp_byte_3x {H : Type} (rom : Bootrom H) (s : OtpState H) (row new_value : Nat) :
    Bool × OtpState H :=
  let r := read_raw_wrapper rom s row (fun _ => 0) 4
  if !r.1 then (false, r.2.2)
  else
    let old_raw_data := r.2.1 0
    let check_if_voted_set := (0xFF ^^^ new_value) % 256
    if !byte_3x_clear_check old_raw_data check_if_voted_set 8 0 then (false, r.2.2)
    else if as_bytes old_raw_data 0 &&& new_value = new_value ∧
        as_bytes old_raw_data 1 &&& new_value = new_value ∧
        as_bytes old_raw_data 2 &&& new_value = new_value then (true, r.2.2)
    else
      let to_write := or_byte (or_byte (or_byte old_raw_data 0 new_value) 1 new_value) 2 new_value
      let w := write_raw_wrapper rom r.2.2 row (fun _ => to_write) 4
      if !w.1 then (false, w.2)
      else
        let v := read_otp_byte_3x rom w.2 row
        if !v.1 then (false, v.2.2)
        else if v.2.1 ≠ new_value then (false, v.2.2)
        else (true, v.2.2)

/-! ## Raw row engine -/

/-- Embedding of `write_single_otp_raw_row`. -/
def write_single_otp_raw_row {H : Type} (rom : Bootrom H) (s : OtpState H) (row data : Nat) :
    Bool × OtpState H :=
  let r := read_raw_wrapper rom s row (fun _ => 0) 4
  if !r.1 then (false, r.2.2)
  else
    let existing_data := r.2.1 0
    if existing_data = data then (true, r.2.2)
    else
      let incompatible_bits := existing_data &&& (0xFFFFFFFF ^^^ data)
      if incompatible_bits ≠ 0 then (false, r.2.2)
      else
        let w := write_raw_wrapper rom r.2.2 row (fun _ => data) 4
        if !w.1 then (false, w.2)
        else
          let r2 := read_raw_wrapper rom w.2 row (fun _ => existing_data) 4
          if !r2.1 then (false, r2.2.2)
          else if r2.2.1 0 ≠ data then (false, r2.2.2)
          else (true, r2.2.2)

/-! ## N-of-M voting engine -/

/-- The result of the first loop of `read_single_otp_value_N_of_M`: the state, the arrays `v`
and `r`, and the counters `successful_reads` and `failed_reads`. -/
structure NofMReads (H : Type) where
  state : OtpState H
  v : Nat → Nat
  r : Nat → Bool
  successful_reads : Nat
  failed_reads : Nat

/-- The first loop of `read_single_otp_value_N_of_M`, `for (i = 0; i < M; ++i)`: `n` rows
remain at index `i`.  The row passed to `read_raw_wrapper` is `start_row + i` cut to 16 bits,
the buffer is `&v[i]`. -/
def n_of_m_read_loop {H : Type} (rom : Bootrom H) (start_row : Nat) :
    Nat → Nat → NofMReads H → NofMReads H
  | 0, _, acc => acc
  | n + 1, i, acc =>
    let rd := read_raw_wrapper rom acc.state ((start_row + i) % 65536) (fun k => acc.v (i + k)) 4
    let tmp := rd.1
    n_of_m_read_loop rom start_row n (i + 1)
      { state := rd.2.2,
        v := Function.update acc.v i (rd.2.1 0),
        r := Function.update acc.r i tmp,
        successful_reads := if tmp then acc.successful_reads + 1 else acc.successful_reads,
        failed_reads := if tmp then acc.failed_reads else acc.failed_reads + 1 }

/-- The inner loop `for (j = 0; j < 24u; ++j)` adding the votes of one row word `tmp`.  The
counters are `uint_fast8_t`, taken as 8 bits wide: `++votes[j]` wraps from `0xFF` to 0. -/
def n_of_m_vote_bits (tmp : Nat) : Nat → Nat → (Nat → Nat) → (Nat → Nat)
  | 0, _, votes => votes
  | n + 1, j, votes =>
    let mask := 1 <<< j
    n_of_m_vote_bits tmp n (j + 1)
      (if tmp &&& mask ≠ 0 then Function.update votes j ((votes j + 1) % 256) else votes)

/-- The second loop of `read_single_otp_value_N_of_M`, which skips the rows that failed to
read and counts the votes of the others. -/
def n_of_m_vote_rows (v : Nat → Nat) (r : Nat → Bool) : Nat → Nat → (Nat → Nat) → (Nat → Nat)
  | 0, _, votes => votes
  | n + 1, i, votes =>
    if !r i then n_of_m_vote_rows v r n (i + 1) votes
    else n_of_m_vote_rows v r n (i + 1) (n_of_m_vote_bits (v i) 24 0 votes)

/-- The third loop of `read_single_otp_value_N_of_M`, `for (i = 0; i < 24u; ++i)`: `none` where
the source returns `false` from inside the loop, otherwise the local `result`. -/
def n_of_m_decide (N failed_reads : Nat) (votes : Nat → Nat) : Nat → Nat → Nat → Option Nat
  | 0, _, result => some result
  | n + 1, i, result =>
    if votes i ≥ N then
      let mask := 1 <<< i
      n_of_m_decide N failed_reads votes n (i + 1) (result ||| mask)
    else if failed_reads ≥ N - votes i then none
    else n_of_m_decide N failed_reads votes n (i + 1) result

/-- Embedding of `read_single_otp_value_N_of_M`; the middle component is `*out_data`.

The source declares `uint_fast8_t votes[24];` without an initializer, so the counters start
from whatever the stack holds: `votes0` is that content, read as the 8-bit counters
`votes0 k % 256`, and every increment wraps at 256.

The source sets `*out_data = 0xFFFFFFFFu` on entry and does not assign it again: the local
`result` of the third loop is computed and dropped. -/
def read_single_otp_value_N_of_M {H : Type} (rom : Bootrom H) (s : OtpState H)
    (start_row N M : Nat) (votes0 : Nat → Nat) : Bool × Nat × OtpState H :=
  if M > 8 then (false, 0xFFFFFFFF, s)
  else if ¬ ((N = 2 ∧ M = 3) ∨ (N = 3 ∧ M = 8)) then (false, 0xFFFFFFFF, s)
  else
    let reads := n_of_m_read_loop rom start_row M 0 ⟨s, fun _ => 0, fun _ => false, 0, 0⟩
    let votes := n_of_m_vote_rows reads.v reads.r M 0 (fun k => votes0 k % 256)
    if reads.successful_reads < N then (false, 0xFFFFFFFF, reads.state)
    else
      match n_of_m_decide N reads.failed_reads votes 24 0 0 with
      | none => (false, 0xFFFFFFFF, reads.state)
      | some _ => (true, 0xFFFFFFFF, reads.state)

/-- Step 2 of `write_single_otp_value_N_of_M`, `for (uint16_t i = 0; i < M; ++i)`: the
read-modify-write of each row, every failure being skipped over. -/
def n_of_m_write_loop {H : Type} (rom : Bootrom H) (start_row new_value : Nat) :
    Nat → Nat → OtpState H → OtpState H
  | 0, _, s => s
  | n + 1, i, s =>
    let rd := read_raw_wrapper rom s ((start_row + i) % 65536) (fun _ => 0) 4
    if !rd.1 then n_of_m_write_loop rom start_row new_value n (i + 1) rd.2.2
    else
      let old_data := rd.2.1 0
      if old_data &&& new_value = new_value then
        n_of_m_write_loop rom start_row new_value n (i + 1) rd.2.2
      else
        let to_write := old_data ||| new_value
        let w := write_raw_wrapper rom rd.2.2 ((start_row + i) % 65536) (fun _ => to_write) 4
        n_of_m_write_loop rom start_row new_value n (i + 1) w.2

/-- Embedding of `write_single_otp_value_N_of_M`.  `votes0` and `votes1` are the leftover
contents of the uninitialized counters in its two calls of the voting read. -/
def write_single_otp_value_N_of_M {H : Type} (rom : Bootrom H) (s : OtpState H)
    (start_row N M new_value : Nat) (votes0 votes1 : Nat → Nat) : Bool × OtpState H :=
  let o := read_single_otp_value_N_of_M rom s start_row N M votes0
  if !o.1 then (false, o.2.2)
  else
    let old_voted_bits := o.2.1
    let incompatible_bits := old_voted_bits &&& (0xFFFFFFFF ^^^ new_value)
    if incompatible_bits ≠ 0 then (false, o.2.2)
    else
      let s1 := n_of_m_write_loop rom start_row new_value M 0 o.2.2
      let nv := read_single_otp_value_N_of_M rom s1 start_row N M votes1
      if !nv.1 then (false, nv.2.2)
      else if nv.2.1 ≠ new_value then (false, nv.2.2)
      else (true, nv.2.2)

/-! ## Public functions -/

/-- Embedding of `saferotp_write_single_value_raw_unsafe`. -/
def saferotp_write_single_value_raw_unsafe {H : Type} (rom : Bootrom H) (s : OtpState H)
    (row new_value : Nat) : Bool × OtpState H :=
  write_single_otp_raw_row rom s row new_value

/-- Embedding of `saferotp_write_single_value_rbit3`. -/
def saferotp_write_single_value_rbit3 {H : Type} (rom : Bootrom H) (s : OtpState H)
    (start_row new_value : Nat) (votes0 votes1 : Nat → Nat) : Bool × OtpState H :=
  write_single_otp_value_N_of_M rom s start_row 2 3 new_value votes0 votes1

/-- Embedding of `saferotp_read_single_value_rbit3`. -/
def saferotp_read_single_value_rbit3 {H : Type} (rom : Bootrom H) (s : OtpState H)
    (start_row : Nat) (votes0 : Nat → Nat) : Bool × Nat × OtpState H :=
  read_single_otp_value_N_of_M rom s start_row 2 3 votes0

/-- Embedding of `saferotp_write_single_value_rbit8`. -/
def saferotp_write_single_value_rbit8 {H : Type} (rom : Bootrom H) (s : OtpState H)
    (start_row new_value : Nat) (votes0 votes1 : Nat → Nat) : Bool × OtpState H :=
  write_single_otp_value_N_of_M rom s start_row 3 8 new_value votes0 votes1

/-- Embedding of `saferotp_read_single_value_rbit8`. -/
def saferotp_read_single_value_rbit8 {H : Type} (rom : Bootrom H) (s : OtpState H)
    (start_row : Nat) (votes0 : Nat → Nat) : Bool × Nat × OtpState H :=
  read_single_otp_value_N_of_M rom s start_row 3 8 votes0

/-- The loop of `saferotp_write_data_raw_unsafe` over the `count_of_uint32` words of the
buffer: `false` where the source returns `false` because a top byte is not zero. -/
def raw_words_top_byte_check (p : Nat → Nat) : Nat → Nat → Bool
  | 0, _ => true
  | n + 1, i =>
    if p i &&& 0xFF000000 ≠ 0 then false
    else raw_words_top_byte_check p n (i + 1)

/-- Embedding of `saferotp_write_data_raw_unsafe`; `data` is the buffer seen as words. -/
def saferotp_write_data_raw_unsafe {H : Type} (rom : Bootrom H) (s : OtpState H)
    (start_row : Nat) (data : Nat → Nat) (count_of_bytes : Nat) : Bool × OtpState H :=
  if count_of_bytes = 0 then (false, s)
  else if count_of_bytes % 4 ≠ 0 then (false, s)
  else if !raw_words_top_byte_check data (count_of_bytes / 4) 0 then (false, s)
  else write_raw_wrapper rom s start_row data count_of_bytes

/-- Embedding of `saferotp_virtualization_init_pages`: the result of `virt_initialize` is
dropped and `true` returned. -/
def saferotp_virtualization_init_pages {H : Type} (rom : Bootrom H) (s : OtpState H)
    (ignored_pages_mask : Nat) : Bool × OtpState H :=
  let r := virt_initialize rom s ignored_pages_mask
  (true, r.2)

/-- Embedding of `saferotp_virtualization_restore`. -/
def saferotp_virtualization_restore {H : Type} (s : OtpState H)
    (starting_row : Nat) (buffer : Nat → Nat) (buffer_size : Nat) : Bool × OtpState H :=
  virt_override_restore s starting_row buffer buffer_size

/-- Embedding of `saferotp_virtualization_save`. -/
def saferotp_virtualization_save {H : Type} (s : OtpState H)
    (starting_row : Nat) (buffer : Nat → Nat) (buffer_size : Nat) : Bool × (Nat → Nat) :=
  virt_override_save s starting_row buffer buffer_size

/-- Embedding of `saferotp_read_single_value_raw_unsafe`; `out_data` is the caller's word. -/
def saferotp_read_single_value_raw_unsafe {H : Type} (rom : Bootrom H) (s : OtpState H)
    (row : Nat) (out_data : Nat → Nat) : Bool × (Nat → Nat) × OtpState H :=
  read_raw_wrapper rom s row out_data 4

/-- Embedding of `saferotp_write_single_value_ecc`. -/
def saferotp_write_single_value_ecc {H : Type} (rom : Bootrom H) (codec : EccCodec)
    (s : OtpState H) (row new_value : Nat) : Bool × OtpState H :=
  write_single_otp_ecc_row rom codec s row new_value

/-- Embedding of `saferotp_read_single_value_ecc`. -/
def saferotp_read_single_value_ecc {H : Type} (rom : Bootrom H) (codec : EccCodec)
    (s : OtpState H) (row : Nat) : Bool × Nat × OtpState H :=
  read_single_otp_ecc_row rom codec s row

/-- Embedding of `saferotp_write_single_value_byte3x`. -/
def saferotp_write_single_value_byte3x {H : Type} (rom : Bootrom H) (s : OtpState H)
    (row new_value : Nat) : Bool × OtpState H :=
  write_otp_byte_3x rom s row new_value

/-- Embedding of `saferotp_read_single_value_byte3x`. -/
def saferotp_read_single_value_byte3x {H : Type} (rom : Bootrom H) (s : OtpState H)
    (row : Nat) : Bool × Nat × OtpState H :=
  read_otp_byte_3x rom s row

/-- The loop of `saferotp_write_data_ecc` over the full rows: `n` rows remain at index `i`.
`data` is the buffer seen as bytes; `((const uint16_t*)data)[i]` is read little-endian; the
row handed on is `start_row + i` cut to 16 bits. -/
def write_data_ecc_loop {H : Type} (rom : Bootrom H) (codec : EccCodec) (start_row : Nat)
    (data : Nat → Nat) : Nat → Nat → OtpState H → Bool × OtpState H
  | 0, _, s => (true, s)
  | n + 1, i, s =>
    let tmp := data (2 * i) ||| (data (2 * i + 1) <<< 8)
    let w := saferotp_write_single_value_ecc rom codec s ((start_row + i) % 65536) tmp
    if !w.1 then (false, w.2)
    else write_data_ecc_loop rom codec start_row data n (i + 1) w.2

/-- Embedding of `saferotp_write_data_ecc`. -/
def saferotp_write_data_ecc {H : Type} (rom : Bootrom H) (codec : EccCodec) (s : OtpState H)
    (start_row : Nat) (data : Nat → Nat) (count_of_bytes : Nat) : Bool × OtpState H :=
  let loop_count := count_of_bytes / 2
  let l := write_data_ecc_loop rom codec start_row data loop_count 0 s
  if !l.1 then (false, l.2)
  else if count_of_bytes % 2 ≠ 0 then
    let tmp := data (count_of_bytes - 1)
    let w := saferotp_write_single_value_ecc rom codec l.2
      ((start_row + loop_count) % 65536) tmp
    if !w.1 then (false, w.2) else (true, w.2)
  else (true, l.2)

/-- The loop of `saferotp_read_data_ecc` over the full rows.  `out_data` is the buffer seen as
bytes; each row is read straight into the two bytes `2 * i` and `2 * i + 1`, which so take the
`0xFFFF` that `read_single_otp_ecc_row` stores when it fails. -/
def read_data_ecc_loop {H : Type} (rom : Bootrom H) (codec : EccCodec) (start_row : Nat) :
    Nat → Nat → OtpState H → (Nat → Nat) → Bool × (Nat → Nat) × OtpState H
  | 0, _, s, out_data => (true, out_data, s)
  | n + 1, i, s, out_data =>
    let rd := saferotp_read_single_value_ecc rom codec s ((start_row + i) % 65536)
    let stored := Function.update (Function.update out_data (2 * i) (rd.2.1 % 256))
      (2 * i + 1) (rd.2.1 / 256)
    if !rd.1 then (false, stored, rd.2.2)
    else read_data_ecc_loop rom codec start_row n (i + 1) rd.2.2 stored

/-- Embedding of `saferotp_read_data_ecc`. -/
def saferotp_read_data_ecc {H : Type} (rom : Bootrom H) (codec : EccCodec) (s : OtpState H)
    (start_row : Nat) (out_data : Nat → Nat) (count_of_bytes : Nat) :
    Bool × (Nat → Nat) × OtpState H :=
  if count_of_bytes ≥ 0x1000 * 2 then (false, out_data, s)
  else
    let loop_count := count_of_bytes / 2
    let l := read_data_ecc_loop rom codec start_row loop_count 0 s out_data
    if !l.1 then (false, l.2.1, l.2.2)
    else if count_of_bytes % 2 ≠ 0 then
      let rd := saferotp_read_single_value_ecc rom codec l.2.2
        ((start_row + loop_count) % 65536)
      if !rd.1 then (false, l.2.1, rd.2.2)
      else (true, Function.update l.2.1 (count_of_bytes - 1) (rd.2.1 % 256), rd.2.2)
    else (true, l.2.1, l.2.2)

/-- The call `memset(out_data, 0, count_of_bytes)` on a buffer seen as words: the words wholly
inside the count become zero, and of a word only partly inside it the low bytes do. -/
def memset_zero_words (out_data : Nat → Nat) (count_of_bytes : Nat) : Nat → Nat := fun i =>
  if i < count_of_bytes / 4 then 0
  else if i = count_of_bytes / 4 then
    out_data i / 2 ^ (8 * (count_of_bytes % 4)) * 2 ^ (8 * (count_of_bytes % 4))
  else out_data i

/-- Embedding of `saferotp_read_data_raw_unsafe`; `out_data` is the buffer seen as words. -/
def saferotp_read_data_raw_unsafe {H : Type} (rom : Bootrom H) (s : OtpState H)
    (start_row : Nat) (out_data : Nat → Nat) (count_of_bytes : Nat) :
    Bool × (Nat → Nat) × OtpState H :=
  if count_of_bytes = 0 then (false, out_data, s)
  else
    let zeroed := memset_zero_words out_data count_of_bytes
    if count_of_bytes ≥ 0x1000 * 4 then (false, zeroed, s)
    else if count_of_bytes % 4 ≠ 0 then (false, zeroed, s)
    else read_raw_wrapper rom s start_row zeroed count_of_bytes

/-! ## Sequences of raw-facade writes -/

/-- One call `write_raw_wrapper(starting_row, buffer, buffer_size)`. -/
structure RawWrite where
  starting_row : Nat
  buffer : Nat → Nat
  buffer_size : Nat

/-- The state after a sequence of raw-facade writes, whatever each call returned. -/
def run_raw_writes {H : Type} (rom : Bootrom H) : List RawWrite → OtpState H → OtpState H
  | [], s => s
  | c :: cs, s =>
    run_raw_writes rom cs (write_raw_wrapper rom s c.starting_row c.buffer c.buffer_size).2

/-- The shadow accepts word `i` of a request: the range is valid, `i` lies in the request, and
every row of the request up to and including `i` has its error flag clear and loses no bit.
The rows of one request are distinct, so each is judged on its value before the call. -/
def accepts (rows : Nat → Nat) (c : RawWrite) (i : Nat) : Bool :=
  is_valid_otp_range_raw c.starting_row c.buffer_size && decide (i < c.buffer_size / 4) &&
  (List.range (i + 1)).all (fun j =>
    !is_error (rows (c.starting_row + j)) &&
    decide (rows (c.starting_row + j) ||| c.buffer j = c.buffer j))

/-- The candidate word a request carries for row `r`, when the shadow accepts it. -/
def accepted_word (rows : Nat → Nat) (c : RawWrite) (r : Nat) : Option Nat :=
  if c.starting_row ≤ r ∧ accepts rows c (r - c.starting_row) = true then
    some (c.buffer (r - c.starting_row))
  else none

/-- Every candidate word accepted for row `r` in the course of a sequence of raw-facade writes,
each request judged on the state the preceding requests left. -/
def accepted_words {H : Type} (rom : Bootrom H) : List RawWrite → OtpState H → Nat → List Nat
  | [], _, _ => []
  | c :: cs, s, r =>
    (accepted_word s.rows c r).toList ++
      accepted_words rom cs (write_raw_wrapper rom s c.starting_row c.buffer c.buffer_size).2 r

/-! ## The byte-3x vote, stated directly -/

/-- The byte-3x decode as the spec words it: bit `i` of the result is set when at least two
of the three data bytes of the row have bit `i` set. -/
def byte_3x_majority (w : Nat) : Nat :=
  (as_bytes w 0 &&& as_bytes w 1) ||| (as_bytes w 0 &&& as_bytes w 2) |||
    (as_bytes w 1 &&& as_bytes w 2)

/-! ## Counting the rows and votes of a voting read -/

/-- The engine can read shadow row `r`: it is in range and its error flag is clear. -/
def row_readable {H : Type} (s : OtpState H) (r : Nat) : Bool :=
  decide (r < 4096) && !is_error (s.rows r)

/-- The number `S` of rows, among the `M` rows the voting read addresses from `start_row`,
that the shadow lets it read. -/
def n_of_m_successes {H : Type} (s : OtpState H) (start_row M : Nat) : Nat :=
  (List.range M).countP (fun i => row_readable s ((start_row + i) % 65536))

/-- The number `F` of rows, among the `M` rows, that fail to read. -/
def n_of_m_failures {H : Type} (s : OtpState H) (start_row M : Nat) : Nat :=
  (List.range M).countP (fun i => !row_readable s ((start_row + i) % 65536))

/-- The number of successfully read rows, among the `M` rows, that have bit `k` set. -/
def n_of_m_votes {H : Type} (s : OtpState H) (start_row M k : Nat) : Nat :=
  (List.range M).countP (fun i =>
    row_readable s ((start_row + i) % 65536) && (s.rows ((start_row + i) % 65536)).testBit k)

/-! ## Shadow initialization, stated directly -/

/-- Modelled from the spec: the hardware state just before `virtualization_init` comes to row
`r`, when it started from `hw0`: the rows of an ignored page are passed over, every other row
is read once, in ascending order, into a zeroed entry. -/
def init_hw_before {H : Type} (rom : Bootrom H) (mask : Nat) (hw0 : H) : Nat → H
  | 0 => hw0
  | r + 1 =>
    if mask.testBit (r / 64) then init_hw_before rom mask hw0 r
    else (rom.rom_func_otp_access (init_hw_before rom mask hw0 r) (fun _ => 0) 4 r false).2.2

/-- Modelled from the spec: what row `r` holds after `virtualization_init`: zero in an ignored
page, else the word the primitive returned, or `0xFFFFFFFF` when its read failed. -/
def init_expected_row {H : Type} (rom : Bootrom H) (mask : Nat) (hw0 : H) (r : Nat) : Nat :=
  if mask.testBit (r / 64) then 0
  else if (rom.rom_func_otp_access (init_hw_before rom mask hw0 r) (fun _ => 0) 4 r false).1
  then (rom.rom_func_otp_access (init_hw_before rom mask hw0 r) (fun _ => 0) 4 r false).2.1 0
  else 0xFFFFFFFF

/-! ## The single-row writes of an ECC data write -/

/-- Modelled from the spec: the single-row ECC writes of `write_data_ecc(start_row, data, n)`,
as pairs of row and 16-bit value in the order they are made: a little-endian pair of bytes per
full row, then the last byte alone when `n` is odd. -/
def ecc_write_plan (start_row : Nat) (data : Nat → Nat) (n : Nat) : List (Nat × Nat) :=
  (List.range (n / 2)).map (fun i => (start_row + i, data (2 * i) ||| (data (2 * i + 1) <<< 8)))
    ++ (if n % 2 = 1 then [(start_row + n / 2, data (n - 1))] else [])

/-- Modelled from the spec: single-row ECC writes made one after the other, stopping at the
first that fails and reporting it. -/
def run_ecc_writes {H : Type} (rom : Bootrom H) (codec : EccCodec) :
    List (Nat × Nat) → OtpState H → Bool × OtpState H
  | [], s => (true, s)
  | p :: rest, s =>
    let w := write_single_otp_ecc_row rom codec s p.1 p.2
    if !w.1 then (false, w.2) else run_ecc_writes rom codec rest w.2

/-! ## Rows of a voting group inside the range -/

/-- Modelled from the spec: how many of the `M` rows `(start_row + i) mod 65536` that a voting
operation addresses lie among the 4096 rows. -/
def n_of_m_rows_in_range (start_row M : Nat) : Nat :=
  (List.range M).countP (fun i => decide ((start_row + i) % 65536 < 4096))

/-! ## Replaying the raw writes of an engine -/

/-- Modelled from the spec: raw-facade calls, oldest first, replayed on the rows of an
initialized shadow.  Each call must hand one word to a row of the array whose error flag is
clear, and the word must be a bitwise superset of what the row holds at that moment; the row
then holds the word.  The result is the rows after the last call, or `none` if a call is not
of that kind. -/
def replay_supersets (rows : Nat → Nat) : List (Nat × List Nat) → Option (Nat → Nat)
  | [] => some rows
  | (row, [w]) :: rest =>
    if row < 4096 ∧ is_error (rows row) = false ∧ rows row ||| w = w then
      replay_supersets (Function.update rows row w) rest
    else none
  | _ :: _ => none

/-! ## Concrete instances used to exercise the theorems -/

/-- A boot-ROM primitive that fails every access and changes nothing. -/
def no_hardware : Bootrom Unit := ⟨fun h buf _ _ _ => (false, buf, h)⟩

/-- An initialized shadow whose 4096 rows all hold zero, with an empty call log. -/
def zero_shadow : OtpState Unit := ⟨fun _ => 0, true, (), []⟩

/-- A codec without redundancy: the codeword of `v` is `v` itself in the low 16 bits, and a
24-bit row whose bits 22 and 23 are both set is read inverted.  It decodes every codeword
and every inverted codeword to its value, and reports an error only for words above 24 bits. -/
def plain_codec : EccCodec :=
  ⟨fun v => v % 65536,
   fun x =>
     if x ≥ 2 ^ 24 then 0xFF000000
     else if x / 2 ^ 22 = 3 then (0xFFFFFF - x) % 65536
     else x % 65536⟩

/-- An initialized shadow, otherwise zero, whose row `0x010` holds raw `0x000003`. -/
def shadow_row_0x010_holds_3 : OtpState Unit :=
  (virt_override_restore zero_shadow 0x010 (fun _ => 0x000003) 4).2

/-- An initialized shadow, otherwise zero, whose rows `0x100`, `0x101`, `0x102` hold
`0x0000FF`, `0x00000F`, `0x0000FF`. -/
def shadow_rbit3_votes_0xFF : OtpState Unit :=
  (virt_override_restore zero_shadow 0x100
    (fun i => if i = 1 then 0x00000F else 0x0000FF) 12).2

/-- An initialized all-zero shadow but for row `0x101`, which is an error row. -/
def shadow_row_0x101_error : OtpState Unit :=
  (virt_override_restore zero_shadow 0x101 (fun _ => 0xFFFFFFFF) 4).2

/-- An initialized all-zero shadow but for rows `0x203 .. 0x207`, which are error rows: of the
eight rows from `0x200`, exactly three are readable. -/
def shadow_rbit8_three_readable : OtpState Unit :=
  (virt_override_restore zero_shadow 0x200
    (fun i => if i < 3 then 0 else 0xFFFFFFFF) 32).2

/-- Vote counters that start from zero. -/
def zero_votes : Nat → Nat := fun _ => 0

/-- A boot-ROM primitive that succeeds on every access, leaves the buffer alone and counts
its calls in the hardware state. -/
def counting_hardware : Bootrom Nat := ⟨fun h buf _ _ _ => (true, buf, h + 1)⟩

/-- An initialized all-zero shadow over the counting primitive, no call counted yet. -/
def zero_shadow_counting : OtpState Nat := ⟨fun _ => 0, true, 0, []⟩

/-- A boot-ROM primitive that counts its calls; a read of an even row succeeds with the word
`row + 0x100`, a read of an odd row fails. -/
def even_rows_hardware : Bootrom Nat :=
  ⟨fun h buf _ row _ => (decide (row % 2 = 0), Function.update buf 0 (row + 0x100), h + 1)⟩

/-- A state before initialization: the shadow holds leftovers and is not marked. -/
def blank_state : OtpState Nat := ⟨fun _ => 7, false, 0, []⟩

/-- The three bytes `0xAA, 0xBB, 0xCC`, followed by zeros. -/
def bytes_AA_BB_CC : Nat → Nat := fun k =>
  if k = 0 then 0xAA else if k = 1 then 0xBB else if k = 2 then 0xCC else 0

/-- The two bytes `0x02, 0x00`, followed by zeros. -/
def bytes_02_00 : Nat → Nat := fun k => if k = 0 then 0x02 else 0

/-- An output buffer whose bytes all hold `0x55`. -/
def bytes_0x55 : Nat → Nat := fun _ => 0x55

/-- An initialized shadow whose 4096 rows hold zero, with other content past the array. -/
def zero_shadow_beyond : OtpState Unit :=
  ⟨fun r => if r < 4096 then 0 else 0xDEAD, true, (), []⟩

/-- An initialized all-zero shadow but for rows `0x100`, which holds `0x000001`, and `0x102`,
which is an error row: of the three rows from `0x100` two are readable and one has bit 0. -/
def shadow_rbit3_one_vote : OtpState Unit :=
  (virt_override_restore zero_shadow 0x100
    (fun i => if i = 0 then 0x000001 else if i = 1 then 0 else 0xFFFFFFFF) 12).2

/-- An initialized all-zero shadow but for rows `0x202 .. 0x207`, which are error rows: of the
eight rows from `0x200`, two are readable. -/
def shadow_rbit8_two_readable : OtpState Unit :=
  (virt_override_restore zero_shadow 0x200
    (fun i => if i < 2 then 0 else 0xFFFFFFFF) 32).2

/-- Vote counters that start from 2, as leftover stack content may have them. -/
def leftover_votes : Nat → Nat := fun _ => 2

/-- An initialized all-zero shadow but for rows `0x100` and `0x101`, which hold `0x000001`, and
`0x102`, which is an error row. -/
def shadow_rbit3_two_votes : OtpState Unit :=
  (virt_override_restore zero_shadow 0x100
    (fun i => if i < 2 then 0x000001 else 0xFFFFFFFF) 12).2

/-- Vote counters that all start from `0xFF`, one increment away from wrapping. -/
def votes_0xFF : Nat → Nat := fun _ => 0xFF

/-- An initialized shadow, otherwise zero, whose row `0x030` holds `0x01000000`, a word with a
nonzero upper byte. -/
def shadow_row_0x030_holds_0x01000000 : OtpState Unit :=
  (virt_override_restore zero_shadow 0x030 (fun _ => 0x01000000) 4).2

/-! ## Lemmas -/

/-! ### Single-row behaviour of the raw facade on the shadow -/

theorem is_valid_otp_range_raw_single (row : Nat) :
    is_valid_otp_range_raw row 4 = decide (row < 4096) := by
  simp only [is_valid_otp_range_raw, NUM_OTP_ROWS]
  by_cases h : row < 4096
  · simp [h]; omega
  · simp [h]

theorem read_raw_wrapper_shadow_single {H : Type} (rom : Bootrom H) (s : OtpState H)
    (hinit : s.initialized = true) (row : Nat) (buf : Nat → Nat) :
    read_raw_wrapper rom s row buf 4 =
      if row < 4096 ∧ is_error (s.rows row) = false then
        (true, Function.update buf 0 (s.rows row), s)
      else (false, buf, s) := by
  simp only [read_raw_wrapper, virt_read_raw_otp_wrapper, is_valid_otp_range_raw_single, hinit,
    virt_read_loop]
  by_cases h : row < 4096
  · by_cases e : is_error (s.rows row) = true
    · simp [h, e]
    · simp [h, e]
  · simp [h]

theorem write_raw_wrapper_shadow_single {H : Type} (rom : Bootrom H) (s : OtpState H)
    (hinit : s.initialized = true) (row : Nat) (buf : Nat → Nat) :
    write_raw_wrapper rom s row buf 4 =
      if row < 4096 ∧ is_error (s.rows row) = false ∧ s.rows row ||| buf 0 = buf 0 then
        (true, { s with rows := Function.update s.rows row (buf 0),
                        raw_writes := (row, [buf 0]) :: s.raw_writes })
      else (false, { s with raw_writes := (row, [buf 0]) :: s.raw_writes }) := by
  simp only [write_raw_wrapper, virt_write_raw_otp_wrapper, is_valid_otp_range_raw_single, hinit,
    virt_write_loop]
  by_cases h : row < 4096
  · by_cases e : is_error (s.rows row) = true
    · simp [h, e, List.range_succ]
    · by_cases m : s.rows row ||| buf 0 = buf 0
      · simp [h, e, m, List.range_succ]
      · simp [h, e, m, List.range_succ]
  · simp [h, List.range_succ]

/-! ### Bit-level facts -/

theorem testBit_lt_of_lt {x n i : Nat} (hx : x < 2 ^ n) (hi : n ≤ i) : x.testBit i = false :=
  Nat.testBit_lt_two_pow (Nat.lt_of_lt_of_le hx (Nat.pow_le_pow_right (by decide) hi))

theorem testBit_0xFFFFFFFF (i : Nat) : (0xFFFFFFFF : Nat).testBit i = decide (i < 32) := by
  have h : (0xFFFFFFFF : Nat) = 2 ^ 32 - 1 := by norm_num
  rw [h, Nat.testBit_two_pow_sub_one]

/-- On 32-bit words, `E & ~W == 0` says the same as `(E | W) == W`. -/
theorem and_not_eq_zero_iff_or_eq (E W : Nat) (hE : E < 2 ^ 32) :
    E &&& (0xFFFFFFFF ^^^ W) = 0 ↔ E ||| W = W := by
  constructor
  · intro h
    apply Nat.eq_of_testBit_eq
    intro i
    have hi := congrArg (fun x => x.testBit i) h
    simp only [Nat.testBit_and, Nat.testBit_xor, testBit_0xFFFFFFFF, Nat.zero_testBit] at hi
    rw [Nat.testBit_or]
    by_cases h32 : i < 32
    · simp only [h32, decide_True] at hi
      cases hE' : E.testBit i <;> cases hW' : W.testBit i <;> simp_all
    · rw [testBit_lt_of_lt hE (Nat.le_of_not_lt h32)]
      simp
  · intro h
    apply Nat.eq_of_testBit_eq
    intro i
    have hi := congrArg (fun x => x.testBit i) h
    simp only [Nat.testBit_or] at hi
    simp only [Nat.testBit_and, Nat.testBit_xor, testBit_0xFFFFFFFF, Nat.zero_testBit]
    by_cases h32 : i < 32
    · simp only [h32, decide_True]
      cases hE' : E.testBit i <;> cases hW' : W.testBit i <;> simp_all
    · rw [testBit_lt_of_lt hE (Nat.le_of_not_lt h32)]
      simp

theorem and_two_pow_ne_zero_iff (x k : Nat) : x &&& 2 ^ k ≠ 0 ↔ x.testBit k = true := by
  constructor
  · intro h
    obtain ⟨i, hi⟩ := Nat.ne_zero_implies_bit_true h
    rw [Nat.testBit_and, Nat.testBit_two_pow] at hi
    simp only [Bool.and_eq_true, decide_eq_true_eq] at hi
    rw [hi.2]
    exact hi.1
  · intro h h0
    have := congrArg (fun y => y.testBit k) h0
    simp [Nat.testBit_two_pow_self, h] at this

theorem as_bytes_lt (w k : Nat) : as_bytes w k < 256 := by
  unfold as_bytes
  omega

theorem as_bytes_testBit (w k i : Nat) :
    (as_bytes w k).testBit i = (decide (i < 8) && w.testBit (8 * k + i)) := by
  have h : as_bytes w k = (w >>> (8 * k)) % 2 ^ 8 := by
    simp [as_bytes, Nat.shiftRight_eq_div_pow]
  rw [h, Nat.testBit_mod_two_pow, Nat.testBit_shiftRight]

theorem testBit_or_byte (w k v j : Nat) :
    (or_byte w k v).testBit j = (w.testBit j || (decide (8 * k ≤ j) && v.testBit (j - 8 * k))) := by
  simp [or_byte, Nat.testBit_or, Nat.testBit_shiftLeft]

theorem as_bytes_or_byte_same (w k v : Nat) (hv : v < 256) :
    as_bytes (or_byte w k v) k = as_bytes w k ||| v := by
  apply Nat.eq_of_testBit_eq
  intro i
  rw [as_bytes_testBit, testBit_or_byte, Nat.testBit_or, as_bytes_testBit]
  by_cases hi : i < 8
  · simp [hi]
  · have : v.testBit i = false :=
      testBit_lt_of_lt (show v < 2 ^ 8 by simpa using hv) (Nat.le_of_not_lt hi)
    simp [hi, this]

theorem as_bytes_or_byte_other (w k v k' : Nat) (hv : v < 256) (hk : k ≠ k') :
    as_bytes (or_byte w k v) k' = as_bytes w k' := by
  apply Nat.eq_of_testBit_eq
  intro i
  rw [as_bytes_testBit, testBit_or_byte, as_bytes_testBit]
  by_cases hi : i < 8
  · by_cases hle : 8 * k ≤ 8 * k' + i
    · have : v.testBit (8 * k' + i - 8 * k) = false :=
        testBit_lt_of_lt (show v < 2 ^ 8 by simpa using hv) (by omega)
      simp [this]
    · simp [hle]
  · simp [hi]

/-! ### Byte-3x voting -/

theorem byte_3x_count_ge_two_iff (w i : Nat) :
    byte_3x_count w (2 ^ i) ≥ 2 ↔
      (((as_bytes w 0).testBit i && (as_bytes w 1).testBit i) ||
        ((as_bytes w 0).testBit i && (as_bytes w 2).testBit i) ||
        ((as_bytes w 1).testBit i && (as_bytes w 2).testBit i)) = true := by
  simp only [byte_3x_count, and_two_pow_ne_zero_iff]
  cases (as_bytes w 0).testBit i <;> cases (as_bytes w 1).testBit i <;>
    cases (as_bytes w 2).testBit i <;> simp

theorem byte_3x_majority_testBit (w i : Nat) :
    (byte_3x_majority w).testBit i =
      (((as_bytes w 0).testBit i && (as_bytes w 1).testBit i) ||
        ((as_bytes w 0).testBit i && (as_bytes w 2).testBit i) ||
        ((as_bytes w 1).testBit i && (as_bytes w 2).testBit i)) := by
  simp [byte_3x_majority, Nat.testBit_or, Nat.testBit_and]

theorem byte_3x_majority_lt (w : Nat) : byte_3x_majority w < 256 := by
  have h0 := as_bytes_lt w 0
  have h1 := as_bytes_lt w 1
  have h : ∀ a b : Nat, b < 2 ^ 8 → a &&& b < 2 ^ 8 := fun a b hb => Nat.and_lt_two_pow a hb
  exact Nat.or_lt_two_pow (Nat.or_lt_two_pow (h _ _ (as_bytes_lt w 1)) (h _ _ (as_bytes_lt w 2)))
    (h _ _ (as_bytes_lt w 2))

/-- Started at mask `2^k` with enough iterations left, the voting loop adds to `result` the
masks `2^i`, `i ≤ k`, that gather two votes. -/
theorem byte_3x_vote_loop_testBit (w : Nat) (k : Nat) :
    ∀ (n result i : Nat), k + 2 ≤ n →
      (byte_3x_vote_loop w n (2 ^ k) result).testBit i =
        (result.testBit i || (decide (i ≤ k) && decide (byte_3x_count w (2 ^ i) ≥ 2))) := by
  induction k with
  | zero =>
    intro n result i hn
    obtain ⟨m, rfl⟩ : ∃ m, n = m + 2 := ⟨n - 2, by omega⟩
    simp only [byte_3x_vote_loop, pow_zero, one_ne_zero, if_false, Nat.reduceDiv, if_true]
    by_cases hc : byte_3x_count w 1 ≥ 2
    · rw [if_pos hc, Nat.testBit_or]
      by_cases hi : i = 0
      · subst hi; simp [hc]
      · have : Nat.testBit 1 i = false := by
          have := @Nat.testBit_two_pow_of_ne 0 i (fun h => hi h.symm)
          simpa using this
        simp [this, hi]
    · rw [if_neg hc]
      by_cases hi : i = 0
      · subst hi; simp [hc]
      · simp [hi]
  | succ k ih =>
    intro n result i hn
    obtain ⟨m, rfl⟩ : ∃ m, n = m + 1 := ⟨n - 1, by omega⟩
    have hpos : (2 : Nat) ^ (k + 1) ≠ 0 := by positivity
    have hhalf : (2 : Nat) ^ (k + 1) / 2 = 2 ^ k := by
      rw [pow_succ]; exact Nat.mul_div_cancel _ (by decide)
    simp only [byte_3x_vote_loop, hpos, if_false, hhalf]
    rw [ih m _ i (by omega)]
    by_cases hc : byte_3x_count w (2 ^ (k + 1)) ≥ 2
    · rw [if_pos hc, Nat.testBit_or, Nat.testBit_two_pow]
      by_cases hi : k + 1 = i
      · subst hi
        simp [hc]
      · by_cases hle : i ≤ k
        · simp [hi, hle, show i ≤ k + 1 by omega]
        · simp [hi, hle, show ¬ i ≤ k + 1 by omega]
    · rw [if_neg hc]
      by_cases hi : k + 1 = i
      · subst hi
        simp [hc]
      · by_cases hle : i ≤ k
        · simp [hle, show i ≤ k + 1 by omega]
        · simp [hle, show ¬ i ≤ k + 1 by omega]

/-- The voting loop of `read_otp_byte_3x` computes the per-bit majority of the three bytes. -/
theorem byte_3x_vote_loop_eq_majority (w : Nat) :
    byte_3x_vote_loop w 9 0x80 0 = byte_3x_majority w := by
  apply Nat.eq_of_testBit_eq
  intro i
  have h := byte_3x_vote_loop_testBit w 7 9 0 i (by decide)
  have h80 : (0x80 : Nat) = 2 ^ 7 := by norm_num
  rw [h80, h, byte_3x_majority_testBit]
  by_cases hi : i ≤ 7
  · have := byte_3x_count_ge_two_iff w i
    simp only [Nat.zero_testBit, Bool.false_or, hi, decide_True, Bool.true_and]
    rw [Bool.eq_iff_iff, decide_eq_true_iff]
    exact this
  · have hb : ∀ k, (as_bytes w k).testBit i = false := fun k =>
      testBit_lt_of_lt (show as_bytes w k < 2 ^ 8 from as_bytes_lt w k) (by omega)
    simp [hi, hb]

/-- Embedded `read_otp_byte_3x` on an initialized shadow. -/
theorem read_otp_byte_3x_shadow {H : Type} (rom : Bootrom H) (s : OtpState H)
    (hinit : s.initialized = true) (row : Nat) :
    read_otp_byte_3x rom s row =
      if row < 4096 ∧ is_error (s.rows row) = false then
        (true, byte_3x_majority (s.rows row), s)
      else (false, 0xFF, s) := by
  by_cases h : row < 4096 ∧ is_error (s.rows row) = false
  · simp [read_otp_byte_3x, read_raw_wrapper_shadow_single rom s hinit, h,
      byte_3x_vote_loop_eq_majority]
  · simp [read_otp_byte_3x, read_raw_wrapper_shadow_single rom s hinit, h]

/-! ### Byte-3x write -/

theorem byte_3x_clear_check_iff (old chk : Nat) (n : Nat) :
    ∀ i, i + n ≤ 8 →
      (byte_3x_clear_check old chk n i = true ↔
        ∀ j, i ≤ j → j < i + n → ¬ (chk.testBit j = true ∧ byte_3x_count old (2 ^ j) ≥ 2)) := by
  induction n with
  | zero =>
    intro i _
    simp only [byte_3x_clear_check, true_iff]
    intro j h1 h2
    omega
  | succ n ih =>
    intro i hi
    have hmask : (1 <<< i) % 256 = 2 ^ i := by
      rw [Nat.one_shiftLeft]
      apply Nat.mod_eq_of_lt
      calc 2 ^ i ≤ 2 ^ 7 := Nat.pow_le_pow_right (by decide) (by omega)
        _ < 256 := by decide
    simp only [byte_3x_clear_check, hmask, and_two_pow_ne_zero_iff]
    by_cases hc : chk.testBit i = true ∧ byte_3x_count old (2 ^ i) ≥ 2
    · rw [if_pos hc]
      simp only [Bool.false_eq_true, false_iff]
      intro h
      exact h i (le_refl i) (by omega) hc
    · rw [if_neg hc, ih (i + 1) (by omega)]
      constructor
      · intro h j h1 h2
        rcases Nat.eq_or_lt_of_le h1 with hEq | hlt
        · subst hEq; exact hc
        · exact h j (by omega) (by omega)
      · intro h j h1 h2
        exact h j (by omega) (by omega)

/-- The vote-clear check of `write_otp_byte_3x` passes exactly when every bit of the voted
value of the row is set in the new value. -/
theorem byte_3x_clear_check_passes_iff (old v : Nat) :
    byte_3x_clear_check old ((0xFF ^^^ v) % 256) 8 0 = true ↔
      ∀ j, j < 8 → (byte_3x_majority old).testBit j = true → v.testBit j = true := by
  rw [byte_3x_clear_check_iff old _ 8 0 (by decide)]
  have hchk : ∀ j, j < 8 → (((0xFF ^^^ v) % 256).testBit j = !v.testBit j) := by
    intro j hj
    have h256 : (256 : Nat) = 2 ^ 8 := by norm_num
    have hff : (0xFF : Nat) = 2 ^ 8 - 1 := by norm_num
    rw [h256, Nat.testBit_mod_two_pow, Nat.testBit_xor, hff, Nat.testBit_two_pow_sub_one]
    simp [hj]
  constructor
  · intro h j hj hm
    have h1 := h j (Nat.zero_le j) (by omega)
    rw [hchk j hj, byte_3x_count_ge_two_iff, ← byte_3x_majority_testBit, hm] at h1
    cases hv : v.testBit j
    · simp [hv] at h1
    · rfl
  · intro h j _ hj
    rw [hchk j (by omega), byte_3x_count_ge_two_iff, ← byte_3x_majority_testBit]
    rintro ⟨h1, h2⟩
    have := h j (by omega) h2
    simp [this] at h1

theorem or_byte_thrice_absorbs (old v : Nat) :
    old ||| or_byte (or_byte (or_byte old 0 v) 1 v) 2 v =
      or_byte (or_byte (or_byte old 0 v) 1 v) 2 v := by
  simp only [or_byte, ← Nat.or_assoc, Nat.or_self]

theorem as_bytes_or_byte_thrice (old v : Nat) (hv : v < 256) :
    as_bytes (or_byte (or_byte (or_byte old 0 v) 1 v) 2 v) 0 = as_bytes old 0 ||| v ∧
    as_bytes (or_byte (or_byte (or_byte old 0 v) 1 v) 2 v) 1 = as_bytes old 1 ||| v ∧
    as_bytes (or_byte (or_byte (or_byte old 0 v) 1 v) 2 v) 2 = as_bytes old 2 ||| v ∧
    as_bytes (or_byte (or_byte (or_byte old 0 v) 1 v) 2 v) 3 = as_bytes old 3 := by
  refine ⟨?_, ?_, ?_, ?_⟩
  · rw [as_bytes_or_byte_other _ 2 v 0 hv (by decide), as_bytes_or_byte_other _ 1 v 0 hv (by decide),
      as_bytes_or_byte_same _ 0 v hv]
  · rw [as_bytes_or_byte_other _ 2 v 1 hv (by decide), as_bytes_or_byte_same _ 1 v hv,
      as_bytes_or_byte_other _ 0 v 1 hv (by decide)]
  · rw [as_bytes_or_byte_same _ 2 v hv, as_bytes_or_byte_other _ 1 v 2 hv (by decide),
      as_bytes_or_byte_other _ 0 v 2 hv (by decide)]
  · rw [as_bytes_or_byte_other _ 2 v 3 hv (by decide), as_bytes_or_byte_other _ 1 v 3 hv (by decide),
      as_bytes_or_byte_other _ 0 v 3 hv (by decide)]

/-- Once the vote-clear check has passed, the word with `v` OR-ed into its three data bytes
votes to `v`. -/
theorem byte_3x_majority_or_byte_thrice (old v : Nat) (hv : v < 256)
    (hclear : ∀ j, j < 8 → (byte_3x_majority old).testBit j = true → v.testBit j = true) :
    byte_3x_majority (or_byte (or_byte (or_byte old 0 v) 1 v) 2 v) = v := by
  obtain ⟨h0, h1, h2, _⟩ := as_bytes_or_byte_thrice old v hv
  apply Nat.eq_of_testBit_eq
  intro i
  rw [byte_3x_majority_testBit, h0, h1, h2]
  simp only [Nat.testBit_or]
  by_cases hi : i < 8
  · have hc := hclear i hi
    rw [byte_3x_majority_testBit] at hc
    cases hvi : v.testBit i
    · rw [hvi] at hc
      cases ha : (as_bytes old 0).testBit i <;> cases hb : (as_bytes old 1).testBit i <;>
        cases hcc : (as_bytes old 2).testBit i <;> simp_all
    · simp
  · have hb : ∀ k, (as_bytes old k).testBit i = false := fun k =>
      testBit_lt_of_lt (show as_bytes old k < 2 ^ 8 from as_bytes_lt old k) (by omega)
    have hvi : v.testBit i = false :=
      testBit_lt_of_lt (show v < 2 ^ 8 by simpa using hv) (by omega)
    simp [hb, hvi]

theorem and_eq_right_iff_or_eq_left (a v : Nat) : a &&& v = v ↔ a ||| v = a := by
  constructor
  · intro h
    apply Nat.eq_of_testBit_eq
    intro i
    have hi := congrArg (fun x => x.testBit i) h
    simp only [Nat.testBit_and] at hi
    rw [Nat.testBit_or]
    cases ha : a.testBit i <;> cases hv : v.testBit i <;> simp_all
  · intro h
    apply Nat.eq_of_testBit_eq
    intro i
    have hi := congrArg (fun x => x.testBit i) h
    simp only [Nat.testBit_or] at hi
    rw [Nat.testBit_and]
    cases ha : a.testBit i <;> cases hv : v.testBit i <;> simp_all

/-- A row whose three data bytes already contain `v` and that passes the vote-clear check
votes to `v`. -/
theorem byte_3x_majority_of_contains (old v : Nat) (hv : v < 256)
    (hclear : ∀ j, j < 8 → (byte_3x_majority old).testBit j = true → v.testBit j = true)
    (h0 : as_bytes old 0 &&& v = v) (h1 : as_bytes old 1 &&& v = v)
    (h2 : as_bytes old 2 &&& v = v) :
    byte_3x_majority old = v := by
  have h := byte_3x_majority_or_byte_thrice old v hv hclear
  obtain ⟨e0, e1, e2, _⟩ := as_bytes_or_byte_thrice old v hv
  rw [(and_eq_right_iff_or_eq_left _ _).1 h0] at e0
  rw [(and_eq_right_iff_or_eq_left _ _).1 h1] at e1
  rw [(and_eq_right_iff_or_eq_left _ _).1 h2] at e2
  rw [← h]
  simp only [byte_3x_majority, e0, e1, e2]

/-- Embedded `write_otp_byte_3x` on an initialized shadow: it fails, changing nothing, unless
the row is readable and the vote-clear check passes; then it succeeds, without a write when
the three bytes already contain `v`, and otherwise after one raw write of the OR-ed word. -/
theorem write_otp_byte_3x_shadow {H : Type} (rom : Bootrom H) (s : OtpState H)
    (hinit : s.initialized = true) (row v : Nat) (hv : v < 256) :
    write_otp_byte_3x rom s row v =
      if row < 4096 ∧ is_error (s.rows row) = false ∧
          byte_3x_clear_check (s.rows row) ((0xFF ^^^ v) % 256) 8 0 = true then
        if as_bytes (s.rows row) 0 &&& v = v ∧ as_bytes (s.rows row) 1 &&& v = v ∧
            as_bytes (s.rows row) 2 &&& v = v then (true, s)
        else
          (true, { s with
            rows := Function.update s.rows row
              (or_byte (or_byte (or_byte (s.rows row) 0 v) 1 v) 2 v),
            raw_writes :=
              (row, [or_byte (or_byte (or_byte (s.rows row) 0 v) 1 v) 2 v]) :: s.raw_writes })
      else (false, s) := by
  by_cases hr : row < 4096 ∧ is_error (s.rows row) = false
  · by_cases hc : byte_3x_clear_check (s.rows row) ((0xFF ^^^ v) % 256) 8 0 = true
    · by_cases hall : as_bytes (s.rows row) 0 &&& v = v ∧ as_bytes (s.rows row) 1 &&& v = v ∧
          as_bytes (s.rows row) 2 &&& v = v
      · simp [write_otp_byte_3x, read_raw_wrapper_shadow_single rom s hinit, hr, hc, hall]
      · have habs := or_byte_thrice_absorbs (s.rows row) v
        have herr : is_error (or_byte (or_byte (or_byte (s.rows row) 0 v) 1 v) 2 v) = false := by
          have := (as_bytes_or_byte_thrice (s.rows row) v hv).2.2.2
          have h2 := hr.2
          simp only [is_error] at h2 ⊢
          rw [this]; exact h2
        have hmaj := byte_3x_majority_or_byte_thrice (s.rows row) v hv
          ((byte_3x_clear_check_passes_iff _ _).1 hc)
        have hw := write_raw_wrapper_shadow_single rom s hinit row
          (fun _ => or_byte (or_byte (or_byte (s.rows row) 0 v) 1 v) 2 v)
        simp only [hr, habs, and_self, if_true] at hw
        have hrd := read_otp_byte_3x_shadow rom
          { s with
            rows := Function.update s.rows row
              (or_byte (or_byte (or_byte (s.rows row) 0 v) 1 v) 2 v),
            raw_writes :=
              (row, [or_byte (or_byte (or_byte (s.rows row) 0 v) 1 v) 2 v]) :: s.raw_writes }
          hinit row
        simp only [Function.update_same, hr.1, herr, and_self, if_true, hmaj] at hrd
        simp only [write_otp_byte_3x, read_raw_wrapper_shadow_single rom s hinit, hr, hc, hall,
          and_self, if_true, Function.update_same, hw, hrd]
        simp
    · simp [write_otp_byte_3x, read_raw_wrapper_shadow_single rom s hinit, hr, hc]
  · have hr' : ¬ (row < 4096 ∧ is_error (s.rows row) = false ∧
        byte_3x_clear_check (s.rows row) ((0xFF ^^^ v) % 256) 8 0 = true) :=
      fun h => hr ⟨h.1, h.2.1⟩
    rw [if_neg hr']
    simp [write_otp_byte_3x, read_raw_wrapper_shadow_single rom s hinit, hr]

/-- What a successful `write_otp_byte_3x` leaves behind on an initialized shadow. -/
theorem write_otp_byte_3x_success_state {H : Type} (rom : Bootrom H) (s : OtpState H)
    (hinit : s.initialized = true) (row v : Nat) (hv : v < 256)
    (hok : (write_otp_byte_3x rom s row v).1 = true) :
    (write_otp_byte_3x rom s row v).2.initialized = true ∧ row < 4096 ∧
    is_error ((write_otp_byte_3x rom s row v).2.rows row) = false ∧
    byte_3x_majority ((write_otp_byte_3x rom s row v).2.rows row) = v ∧
    as_bytes ((write_otp_byte_3x rom s row v).2.rows row) 0 = as_bytes (s.rows row) 0 ||| v ∧
    as_bytes ((write_otp_byte_3x rom s row v).2.rows row) 1 = as_bytes (s.rows row) 1 ||| v ∧
    as_bytes ((write_otp_byte_3x rom s row v).2.rows row) 2 = as_bytes (s.rows row) 2 ||| v ∧
    as_bytes ((write_otp_byte_3x rom s row v).2.rows row) 3 = as_bytes (s.rows row) 3 := by
  rw [write_otp_byte_3x_shadow rom s hinit row v hv] at hok ⊢
  by_cases hr : row < 4096 ∧ is_error (s.rows row) = false ∧
      byte_3x_clear_check (s.rows row) ((0xFF ^^^ v) % 256) 8 0 = true
  · rw [if_pos hr] at hok ⊢
    have hclear := (byte_3x_clear_check_passes_iff _ _).1 hr.2.2
    by_cases hall : as_bytes (s.rows row) 0 &&& v = v ∧ as_bytes (s.rows row) 1 &&& v = v ∧
        as_bytes (s.rows row) 2 &&& v = v
    · rw [if_pos hall]
      refine ⟨hinit, hr.1, hr.2.1,
        byte_3x_majority_of_contains _ v hv hclear hall.1 hall.2.1 hall.2.2, ?_, ?_, ?_, rfl⟩
      · exact ((and_eq_right_iff_or_eq_left _ _).1 hall.1).symm
      · exact ((and_eq_right_iff_or_eq_left _ _).1 hall.2.1).symm
      · exact ((and_eq_right_iff_or_eq_left _ _).1 hall.2.2).symm
    · rw [if_neg hall]
      obtain ⟨e0, e1, e2, e3⟩ := as_bytes_or_byte_thrice (s.rows row) v hv
      simp only [Function.update_same]
      refine ⟨hinit, hr.1, ?_, byte_3x_majority_or_byte_thrice _ v hv hclear, e0, e1, e2, e3⟩
      have h2 := hr.2.1
      simp only [is_error] at h2 ⊢
      rw [e3]; exact h2
  · rw [if_neg hr] at hok
    simp at hok

/-- On an initialized shadow `write_otp_byte_3x` fails and changes nothing when the voted
value of the row has a bit that the new value lacks. -/
theorem write_otp_byte_3x_refuses {H : Type} (rom : Bootrom H) (s : OtpState H)
    (hinit : s.initialized = true) (row v i : Nat) (hv : v < 256) (hi : i < 8)
    (hclear : v.testBit i = false) (hvoted : (byte_3x_majority (s.rows row)).testBit i = true) :
    write_otp_byte_3x rom s row v = (false, s) := by
  rw [write_otp_byte_3x_shadow rom s hinit row v hv]
  have hr : ¬ (row < 4096 ∧ is_error (s.rows row) = false ∧
      byte_3x_clear_check (s.rows row) ((0xFF ^^^ v) % 256) 8 0 = true) := by
    rintro ⟨_, _, hc⟩
    have := (byte_3x_clear_check_passes_iff _ _).1 hc i hi hvoted
    rw [hclear] at this
    exact Bool.false_ne_true this
  rw [if_neg hr]

theorem two_le_toNat_sum_iff (a b c : Bool) :
    2 ≤ a.toNat + b.toNat + c.toNat ↔ ((a && b) || (a && c) || (b && c)) = true := by
  cases a <;> cases b <;> cases c <;> simp

/-! ### ECC row engine on the shadow -/

theorem testBit_0xFFFFFF (i : Nat) : (0xFFFFFF : Nat).testBit i = decide (i < 24) := by
  have h : (0xFFFFFF : Nat) = 2 ^ 24 - 1 := by norm_num
  rw [h, Nat.testBit_two_pow_sub_one]

theorem testBit_0xC00000 (i : Nat) :
    (0xC00000 : Nat).testBit i = (decide (22 = i) || decide (23 = i)) := by
  have h : (0xC00000 : Nat) = 2 ^ 22 ||| 2 ^ 23 := by decide
  rw [h, Nat.testBit_or, Nat.testBit_two_pow, Nat.testBit_two_pow]

theorem testBit_0xFF000000_of_lt (i : Nat) (hi : i < 24) :
    (0xFF000000 : Nat).testBit i = false := by
  have h : (0xFF000000 : Nat) = 2 ^ 24 * 255 := by norm_num
  rw [h, Nat.testBit_mul_pow_two]
  simp [Nat.not_le.2 hi]

theorem and_0xFF000000_of_lt (x : Nat) (hx : x < 2 ^ 24) : x &&& 0xFF000000 = 0 := by
  apply Nat.eq_of_testBit_eq
  intro i
  rw [Nat.testBit_and, Nat.zero_testBit]
  by_cases hi : i < 24
  · rw [testBit_0xFF000000_of_lt i hi]; simp
  · rw [testBit_lt_of_lt hx (Nat.le_of_not_lt hi)]; simp

theorem is_error_of_lt (x : Nat) (hx : x < 2 ^ 24) : is_error x = false := by
  have h : x / 2 ^ (8 * 3) = 0 := Nat.div_eq_of_lt (by simpa using hx)
  simp only [is_error, as_bytes, h]
  rfl

theorem xor_0xFFFFFF_eq_sub (x : Nat) (hx : x < 2 ^ 24) : x ^^^ 0xFFFFFF = 0xFFFFFF - x := by
  apply Nat.eq_of_testBit_eq
  intro i
  have h : (0xFFFFFF : Nat) - x = 2 ^ 24 - (x + 1) := by omega
  rw [h, Nat.testBit_two_pow_sub_succ hx, Nat.testBit_xor, testBit_0xFFFFFF]
  by_cases hi : i < 24
  · simp [hi]
  · rw [testBit_lt_of_lt hx (Nat.le_of_not_lt hi)]; simp [hi]

/-- With bits 22 and 23 of the codeword clear, the plain candidate over `0xC00000` misses
exactly those two bits. -/
theorem brbp_plain_error_bits (C : Nat) (hC : C &&& 0xC00000 = 0) :
    C ^^^ (0xC00000 ||| C) = 0xC00000 := by
  apply Nat.eq_of_testBit_eq
  intro i
  have hi := congrArg (fun x => x.testBit i) hC
  simp only [Nat.testBit_and, Nat.zero_testBit] at hi
  rw [Nat.testBit_xor, Nat.testBit_or]
  cases hc : C.testBit i <;> cases hm : (0xC00000 : Nat).testBit i <;> simp_all

/-- With bits 22 and 23 of the codeword clear, the inverted codeword contains `0xC00000`. -/
theorem brbp_inverted_contains (C : Nat) (hC : C &&& 0xC00000 = 0) :
    0xC00000 ||| (C ^^^ 0xFFFFFF) = C ^^^ 0xFFFFFF := by
  apply Nat.eq_of_testBit_eq
  intro i
  have hi := congrArg (fun x => x.testBit i) hC
  simp only [Nat.testBit_and, Nat.zero_testBit, testBit_0xC00000] at hi
  rw [Nat.testBit_or, Nat.testBit_xor, testBit_0xC00000, testBit_0xFFFFFF]
  by_cases h22 : 22 = i
  · subst h22
    simp at hi
    simp [hi]
  · by_cases h23 : 23 = i
    · subst h23
      simp at hi
      simp [hi]
    · simp [h22, h23]

/-- Embedded `read_single_otp_ecc_row` on an initialized shadow. -/
theorem read_single_otp_ecc_row_shadow {H : Type} (rom : Bootrom H) (codec : EccCodec)
    (s : OtpState H) (hinit : s.initialized = true) (row : Nat) :
    read_single_otp_ecc_row rom codec s row =
      if row < 4096 ∧ is_error (s.rows row) = false ∧
          codec.saferotp_decode_raw (s.rows row) &&& 0xFF000000 = 0 then
        (true, codec.saferotp_decode_raw (s.rows row) % 65536, s)
      else (false, 0xFFFF, s) := by
  by_cases hr : row < 4096 ∧ is_error (s.rows row) = false
  · by_cases hd : codec.saferotp_decode_raw (s.rows row) &&& 0xFF000000 = 0
    · simp [read_single_otp_ecc_row, read_raw_wrapper_shadow_single rom s hinit, hr, hd]
    · simp [read_single_otp_ecc_row, read_raw_wrapper_shadow_single rom s hinit, hr, hd]
  · have hr' : ¬ (row < 4096 ∧ is_error (s.rows row) = false ∧
        codec.saferotp_decode_raw (s.rows row) &&& 0xFF000000 = 0) := fun h => hr ⟨h.1, h.2.1⟩
    rw [if_neg hr']
    simp [read_single_otp_ecc_row, read_raw_wrapper_shadow_single rom s hinit, hr]

/-- Embedded `write_single_otp_ecc_row` on an initialized shadow. -/
theorem write_single_otp_ecc_row_shadow {H : Type} (rom : Bootrom H) (codec : EccCodec)
    (s : OtpState H) (hinit : s.initialized = true) (row v : Nat) :
    write_single_otp_ecc_row rom codec s row v =
      if row < 4096 ∧ is_error (s.rows row) = false then
        if codec.saferotp_decode_raw (s.rows row) &&& 0xFF000000 = 0 ∧
            codec.saferotp_decode_raw (s.rows row) % 65536 = v then (true, s)
        else
          match ecc_data_to_write codec (s.rows row) v with
          | none => (false, s)
          | some w =>
            if s.rows row ||| w = w then
              (decide (is_error w = false ∧ codec.saferotp_decode_raw w &&& 0xFF000000 = 0),
                { s with rows := Function.update s.rows row w,
                         raw_writes := (row, [w]) :: s.raw_writes })
            else (false, { s with raw_writes := (row, [w]) :: s.raw_writes })
      else (false, s) := by
  by_cases hr : row < 4096 ∧ is_error (s.rows row) = false
  · rw [if_pos hr]
    by_cases hd : codec.saferotp_decode_raw (s.rows row) &&& 0xFF000000 = 0 ∧
        codec.saferotp_decode_raw (s.rows row) % 65536 = v
    · rw [if_pos hd]
      simp only [write_single_otp_ecc_row, read_raw_wrapper_shadow_single rom s hinit, if_pos hr,
        Function.update_same, Bool.not_true, Bool.false_eq_true, if_false, if_pos hd]
    · rw [if_neg hd]
      simp only [write_single_otp_ecc_row, read_raw_wrapper_shadow_single rom s hinit, if_pos hr,
        Function.update_same, Bool.not_true, Bool.false_eq_true, if_false, if_neg hd]
      cases hsel : ecc_data_to_write codec (s.rows row) v with
      | none => rfl
      | some w =>
        have hwr := write_raw_wrapper_shadow_single rom s hinit row (fun _ => w)
        have hrd := read_single_otp_ecc_row_shadow rom codec
          { s with rows := Function.update s.rows row w,
                   raw_writes := (row, [w]) :: s.raw_writes } hinit row
        simp only [Function.update_same] at hrd
        by_cases hm : s.rows row ||| w = w
        · rw [if_pos ⟨hr.1, hr.2, hm⟩] at hwr
          by_cases hok : is_error w = false ∧ codec.saferotp_decode_raw w &&& 0xFF000000 = 0
          · rw [if_pos ⟨hr.1, hok⟩] at hrd
            simp [hwr, hrd, hm, hok]
          · have hok' : ¬ (row < 4096 ∧ is_error w = false ∧
                codec.saferotp_decode_raw w &&& 0xFF000000 = 0) := fun h => hok h.2
            rw [if_neg hok'] at hrd
            simp only [hwr, hrd, if_pos hm, hok]
            simp
        · have : ¬ (row < 4096 ∧ is_error (s.rows row) = false ∧ s.rows row ||| w = w) :=
            fun h => hm h.2.2
          rw [if_neg this] at hwr
          simp [hwr, hm]
  · rw [if_neg hr]
    simp only [write_single_otp_ecc_row, read_raw_wrapper_shadow_single rom s hinit, if_neg hr,
      Bool.not_false, if_true]

/-- The codec without redundancy has the two properties the engine relies on: a codeword and
its inversion both decode to the value. -/
theorem plain_codec_decodes (v : Nat) (hv : v < 65536) :
    plain_codec.saferotp_decode_raw (plain_codec.saferotp_calculate_ecc v) = v ∧
    plain_codec.saferotp_decode_raw (plain_codec.saferotp_calculate_ecc v ^^^ 0xFFFFFF) = v := by
  have henc : plain_codec.saferotp_calculate_ecc v = v := Nat.mod_eq_of_lt hv
  have hxor : v ^^^ 0xFFFFFF = 0xFFFFFF - v :=
    xor_0xFFFFFF_eq_sub v (Nat.lt_of_lt_of_le hv (by norm_num))
  rw [henc, hxor]
  simp only [plain_codec]
  norm_num
  constructor
  · have h1 : ¬ (16777216 ≤ v) := by omega
    have h2 : ¬ (v / 4194304 = 3) := by omega
    simp only [h1, h2, if_false]
    omega
  · have h1 : ¬ (16777216 ≤ 16777215 - v) := by omega
    have h2 : (16777215 - v) / 4194304 = 3 := by omega
    simp only [h1, h2, if_true, if_false]
    omega

/-! ### The row loop of the shadow write -/

/-- Rows outside the part of the request still to be processed are not touched. -/
theorem virt_write_loop_frame (start : Nat) (buf : Nat → Nat) (n : Nat) :
    ∀ (i : Nat) (rows : Nat → Nat) (r : Nat), (r < start + i ∨ start + i + n ≤ r) →
      (virt_write_loop start buf n i rows).2 r = rows r := by
  induction n with
  | zero => intro i rows r _; rfl
  | succ n ih =>
    intro i rows r hr
    simp only [virt_write_loop]
    split_ifs with h1 h2
    · rfl
    · rfl
    · rw [ih (i + 1) _ r (by omega)]
      exact Function.update_noteq (by omega) _ _

/-- Row `start + k` of the request ends holding the buffer word `k` exactly when every row from
the loop index up to `k` passed both tests; otherwise it keeps its value. -/
theorem virt_write_loop_row (start : Nat) (buf : Nat → Nat) (n : Nat) :
    ∀ (i : Nat) (rows : Nat → Nat) (k : Nat), i ≤ k → k < i + n →
      (virt_write_loop start buf n i rows).2 (start + k) =
        if ∀ j, i ≤ j → j ≤ k →
            (is_error (rows (start + j)) = false ∧ rows (start + j) ||| buf j = buf j)
        then buf k else rows (start + k) := by
  induction n with
  | zero => intro i rows k h1 h2; omega
  | succ n ih =>
    intro i rows k hik hk
    simp only [virt_write_loop]
    by_cases he : is_error (rows (start + i)) = true
    · have : ¬ ∀ j, i ≤ j → j ≤ k →
          (is_error (rows (start + j)) = false ∧ rows (start + j) ||| buf j = buf j) := by
        intro h
        have := (h i (le_refl i) hik).1
        simp [he] at this
      simp [he, this]
    · by_cases hm : rows (start + i) ||| buf i = buf i
      · simp only [he, hm, ne_eq, not_true_eq_false, if_false, Bool.false_eq_true]
        rcases Nat.eq_or_lt_of_le hik with hEq | hlt
        · subst hEq
          rw [virt_write_loop_frame start buf n (i + 1) _ (start + i) (by omega)]
          have : ∀ j, i ≤ j → j ≤ i →
              (is_error (rows (start + j)) = false ∧ rows (start + j) ||| buf j = buf j) := by
            intro j h1 h2
            have : j = i := by omega
            subst this
            exact ⟨by simpa using he, hm⟩
          rw [if_pos this]
          simp
        · rw [ih (i + 1) _ k (by omega) (by omega)]
          have hupd : ∀ j, i + 1 ≤ j →
              Function.update rows (start + i) (buf i) (start + j) = rows (start + j) := by
            intro j hj
            exact Function.update_noteq (by omega) _ _
          have hiff : (∀ j, i + 1 ≤ j → j ≤ k →
              (is_error (Function.update rows (start + i) (buf i) (start + j)) = false ∧
                Function.update rows (start + i) (buf i) (start + j) ||| buf j = buf j)) ↔
              (∀ j, i ≤ j → j ≤ k →
              (is_error (rows (start + j)) = false ∧ rows (start + j) ||| buf j = buf j)) := by
            constructor
            · intro h j h1 h2
              rcases Nat.eq_or_lt_of_le h1 with hEq | hlt2
              · subst hEq
                exact ⟨by simpa using he, hm⟩
              · have := h j (by omega) h2
                rwa [hupd j (by omega)] at this
            · intro h j h1 h2
              rw [hupd j h1]
              exact h j (by omega) h2
          rw [hupd k (by omega)]
          by_cases hall : ∀ j, i ≤ j → j ≤ k →
              (is_error (rows (start + j)) = false ∧ rows (start + j) ||| buf j = buf j)
          · rw [if_pos (hiff.2 hall), if_pos hall]
          · rw [if_neg (fun h => hall (hiff.1 h)), if_neg hall]
      · have : ¬ ∀ j, i ≤ j → j ≤ k →
            (is_error (rows (start + j)) = false ∧ rows (start + j) ||| buf j = buf j) := by
          intro h
          exact hm (h i (le_refl i) hik).2
        simp [he, hm, this]

/-! ### One raw-facade write on the shadow, row by row -/

theorem accepts_iff (rows : Nat → Nat) (c : RawWrite) (i : Nat) :
    accepts rows c i = true ↔
      is_valid_otp_range_raw c.starting_row c.buffer_size = true ∧ i < c.buffer_size / 4 ∧
      ∀ j, 0 ≤ j → j ≤ i → (is_error (rows (c.starting_row + j)) = false ∧
        rows (c.starting_row + j) ||| c.buffer j = c.buffer j) := by
  simp only [accepts, Bool.and_eq_true, decide_eq_true_eq, List.all_eq_true, List.mem_range,
    Bool.not_eq_true', and_assoc]
  constructor
  · rintro ⟨h1, h2, h3⟩
    exact ⟨h1, h2, fun j _ hj => h3 j (by omega)⟩
  · rintro ⟨h1, h2, h3⟩
    exact ⟨h1, h2, fun j hj => h3 j (Nat.zero_le j) (by omega)⟩

theorem write_raw_wrapper_initialized {H : Type} (rom : Bootrom H) (s : OtpState H)
    (start : Nat) (buf : Nat → Nat) (size : Nat) :
    (write_raw_wrapper rom s start buf size).2.initialized = s.initialized := by
  simp only [write_raw_wrapper, virt_write_raw_otp_wrapper, hw_write_raw_otp_wrapper]
  split_ifs <;> rfl

/-- After one raw-facade write on an initialized shadow, a row holds its old value OR-ed with
the word accepted for it, or its old value when none was accepted. -/
theorem write_raw_wrapper_shadow_row {H : Type} (rom : Bootrom H) (s : OtpState H)
    (hinit : s.initialized = true) (c : RawWrite) (r : Nat) :
    (write_raw_wrapper rom s c.starting_row c.buffer c.buffer_size).2.rows r =
      match accepted_word s.rows c r with
      | some w => s.rows r ||| w
      | none => s.rows r := by
  by_cases hv : is_valid_otp_range_raw c.starting_row c.buffer_size = true
  · have hrows : (write_raw_wrapper rom s c.starting_row c.buffer c.buffer_size).2.rows =
        (virt_write_loop c.starting_row c.buffer (c.buffer_size / 4) 0 s.rows).2 := by
      simp [write_raw_wrapper, virt_write_raw_otp_wrapper, hv, hinit]
    rw [hrows]
    by_cases hin : c.starting_row ≤ r ∧ r - c.starting_row < c.buffer_size / 4
    · obtain ⟨h1, h2⟩ := hin
      have hr : r = c.starting_row + (r - c.starting_row) := by omega
      have hrow := virt_write_loop_row c.starting_row c.buffer (c.buffer_size / 4) 0 s.rows
        (r - c.starting_row) (Nat.zero_le _) (by omega)
      rw [← hr] at hrow
      rw [hrow]
      by_cases hall : ∀ j, 0 ≤ j → j ≤ r - c.starting_row →
          (is_error (s.rows (c.starting_row + j)) = false ∧
            s.rows (c.starting_row + j) ||| c.buffer j = c.buffer j)
      · have hacc : accepts s.rows c (r - c.starting_row) = true :=
          (accepts_iff _ _ _).2 ⟨hv, h2, hall⟩
        have hk := (hall (r - c.starting_row) (Nat.zero_le _) (le_refl _)).2
        rw [← hr] at hk
        rw [if_pos hall]
        simp [accepted_word, h1, hacc, hk]
      · have hacc : ¬ accepts s.rows c (r - c.starting_row) = true :=
          fun h => hall ((accepts_iff _ _ _).1 h).2.2
        rw [if_neg hall]
        simp [accepted_word, hacc]
    · have hacc : ¬ (c.starting_row ≤ r ∧ accepts s.rows c (r - c.starting_row) = true) := by
        rintro ⟨h1, h2⟩
        exact hin ⟨h1, ((accepts_iff _ _ _).1 h2).2.1⟩
      rw [virt_write_loop_frame _ _ _ 0 _ r (by omega)]
      simp [accepted_word, hacc]
  · have hacc : ¬ (c.starting_row ≤ r ∧ accepts s.rows c (r - c.starting_row) = true) := by
      rintro ⟨_, h2⟩
      exact hv ((accepts_iff _ _ _).1 h2).1
    simp [write_raw_wrapper, hv, accepted_word, hacc]

theorem testBit_foldl_or (ws : List Nat) :
    ∀ (a b : Nat), a.testBit b = true → (ws.foldl (fun x w => x ||| w) a).testBit b = true := by
  induction ws with
  | nil => intro a b h; exact h
  | cons w ws ih =>
    intro a b h
    exact ih (a ||| w) b (by simp [h])

/-! ### Results of the shadow loops, raw row engine -/

theorem virt_write_loop_ok_iff (start : Nat) (buf : Nat → Nat) (n : Nat) :
    ∀ (i : Nat) (rows : Nat → Nat),
      (virt_write_loop start buf n i rows).1 = true ↔
        ∀ j, i ≤ j → j < i + n →
          (is_error (rows (start + j)) = false ∧ rows (start + j) ||| buf j = buf j) := by
  induction n with
  | zero =>
    intro i rows
    simp only [virt_write_loop, true_iff]
    intro j h1 h2
    omega
  | succ n ih =>
    intro i rows
    simp only [virt_write_loop]
    by_cases he : is_error (rows (start + i)) = true
    · simp only [he, if_true, Bool.false_eq_true, false_iff]
      intro h
      have := (h i (le_refl i) (by omega)).1
      rw [he] at this
      exact Bool.noConfusion this
    · by_cases hm : rows (start + i) ||| buf i = buf i
      · simp only [he, hm, ne_eq, not_true_eq_false, if_false, Bool.false_eq_true]
        rw [ih (i + 1)]
        have hupd : ∀ j, i + 1 ≤ j →
            Function.update rows (start + i) (buf i) (start + j) = rows (start + j) := by
          intro j hj
          exact Function.update_noteq (by omega) _ _
        constructor
        · intro h j h1 h2
          rcases Nat.eq_or_lt_of_le h1 with hEq | hlt
          · subst hEq
            exact ⟨by simpa using he, hm⟩
          · have := h j (by omega) (by omega)
            rwa [hupd j (by omega)] at this
        · intro h j h1 h2
          rw [hupd j h1]
          exact h j (by omega) (by omega)
      · simp only [he, hm, ne_eq, not_false_eq_true, if_true, if_false, Bool.false_eq_true,
          false_iff]
        intro h
        exact hm (h i (le_refl i) (by omega)).2

theorem virt_read_loop_ok_iff (rows : Nat → Nat) (start : Nat) (n : Nat) :
    ∀ (i : Nat) (buf : Nat → Nat),
      (virt_read_loop rows start n i buf).1 = true ↔
        ∀ j, i ≤ j → j < i + n → is_error (rows (start + j)) = false := by
  induction n with
  | zero =>
    intro i buf
    simp only [virt_read_loop, true_iff]
    intro j h1 h2
    omega
  | succ n ih =>
    intro i buf
    simp only [virt_read_loop]
    by_cases he : is_error (rows (start + i)) = true
    · simp only [he, if_true, Bool.false_eq_true, false_iff]
      intro h
      have := h i (le_refl i) (by omega)
      rw [he] at this
      exact Bool.noConfusion this
    · simp only [he, if_false, Bool.false_eq_true]
      rw [ih (i + 1)]
      constructor
      · intro h j h1 h2
        rcases Nat.eq_or_lt_of_le h1 with hEq | hlt
        · subst hEq
          simpa using he
        · exact h j (by omega) (by omega)
      · intro h j h1 h2
        exact h j (by omega) (by omega)

theorem and_0xFF000000_eq_zero_iff (w : Nat) : w &&& 0xFF000000 = 0 ↔ is_error w = false := by
  have hmask : ∀ i, (0xFF000000 : Nat).testBit i = (decide (24 ≤ i) && decide (i < 32)) := by
    intro i
    have h : (0xFF000000 : Nat) = 2 ^ 24 * (2 ^ 8 - 1) := by norm_num
    rw [h, Nat.testBit_mul_pow_two, Nat.testBit_two_pow_sub_one]
    by_cases h24 : 24 ≤ i
    · by_cases h32 : i < 32
      · simp [h24, h32]; omega
      · simp [h24, h32]; omega
    · simp [h24]
  have hbyte : ∀ i, (as_bytes w 3).testBit i = (decide (i < 8) && w.testBit (24 + i)) := by
    intro i
    rw [as_bytes_testBit]
  simp only [is_error, bne_eq_false_iff_eq, beq_iff_eq]
  constructor
  · intro h
    apply Nat.eq_of_testBit_eq
    intro i
    rw [hbyte, Nat.zero_testBit]
    by_cases hi : i < 8
    · have := congrArg (fun x => x.testBit (24 + i)) h
      simp only [Nat.testBit_and, hmask, Nat.zero_testBit] at this
      have h1 : (24 ≤ 24 + i) := by omega
      have h2 : (24 + i < 32) := by omega
      simp only [h1, h2, decide_True, Bool.and_true] at this
      simp [hi, this]
    · simp [hi]
  · intro h
    apply Nat.eq_of_testBit_eq
    intro i
    rw [Nat.testBit_and, hmask, Nat.zero_testBit]
    by_cases h24 : 24 ≤ i
    · by_cases h32 : i < 32
      · have := congrArg (fun x => x.testBit (i - 24)) h
        simp only [hbyte, Nat.zero_testBit] at this
        have h1 : i - 24 < 8 := by omega
        have h2 : 24 + (i - 24) = i := by omega
        simp only [h1, h2, decide_True, Bool.true_and] at this
        simp [this]
      · simp [h32]
    · simp [h24]

theorem raw_words_top_byte_check_iff (p : Nat → Nat) (n : Nat) :
    ∀ i, raw_words_top_byte_check p n i = true ↔
      ∀ k, i ≤ k → k < i + n → is_error (p k) = false := by
  induction n with
  | zero =>
    intro i
    simp only [raw_words_top_byte_check, true_iff]
    intro k h1 h2
    omega
  | succ n ih =>
    intro i
    simp only [raw_words_top_byte_check, ne_eq, and_0xFF000000_eq_zero_iff]
    by_cases he : is_error (p i) = false
    · simp only [he, not_true_eq_false, if_false]
      rw [ih (i + 1)]
      constructor
      · intro h k h1 h2
        rcases Nat.eq_or_lt_of_le h1 with hEq | hlt
        · subst hEq; exact he
        · exact h k (by omega) (by omega)
      · intro h k h1 h2
        exact h k (by omega) (by omega)
    · have he' : is_error (p i) = true := by simpa using he
      have hif : (if ¬ is_error (p i) = false then false
          else raw_words_top_byte_check p n (i + 1)) = false := if_pos he
      rw [hif]
      simp only [Bool.false_eq_true, false_iff]
      intro h
      exact he (h i (le_refl i) (by omega))

theorem and_not_self_eq_zero (W : Nat) (hW : W < 2 ^ 32) : W &&& (0xFFFFFFFF ^^^ W) = 0 :=
  (and_not_eq_zero_iff_or_eq W W hW).2 (Nat.or_self W)

/-- Embedded `write_single_otp_raw_row` refuses, without a write, a word that lacks a bit of
the readable row. -/
theorem write_single_otp_raw_row_refuses {H : Type} (rom : Bootrom H) (s : OtpState H)
    (hinit : s.initialized = true) (row W : Nat) (hrow : row < 4096)
    (herr : is_error (s.rows row) = false) (hW : W < 2 ^ 32)
    (hbits : s.rows row &&& (0xFFFFFFFF ^^^ W) ≠ 0) :
    write_single_otp_raw_row rom s row W = (false, s) := by
  have hne : s.rows row ≠ W := by
    intro h
    rw [h] at hbits
    exact hbits (and_not_self_eq_zero W hW)
  simp [write_single_otp_raw_row, read_raw_wrapper_shadow_single rom s hinit, hrow, herr, hne,
    hbits]

theorem or_and_self_right (a v : Nat) : (a ||| v) &&& v = v := by
  rw [and_eq_right_iff_or_eq_left, Nat.or_assoc, Nat.or_self]

/-- Embedded `write_single_otp_raw_row` lets a word with a nonzero top byte through to the
shadow: when the word contains the bits of the readable row, the row takes it and becomes an
error row, and the call fails only at its read-back. -/
theorem write_single_otp_raw_row_top_byte {H : Type} (rom : Bootrom H) (s : OtpState H)
    (hinit : s.initialized = true) (row W : Nat) (hrow : row < 4096)
    (herr : is_error (s.rows row) = false) (hE : s.rows row < 2 ^ 32)
    (htop : is_error W = true) (hsup : s.rows row ||| W = W) :
    write_single_otp_raw_row rom s row W =
      (false, { s with rows := Function.update s.rows row W,
                       raw_writes := (row, [W]) :: s.raw_writes }) := by
  have hne : s.rows row ≠ W := by
    intro h
    rw [h, htop] at herr
    exact Bool.noConfusion herr
  have hbits : s.rows row &&& (0xFFFFFFFF ^^^ W) = 0 :=
    (and_not_eq_zero_iff_or_eq _ _ hE).2 hsup
  have hwr := write_raw_wrapper_shadow_single rom s hinit row (fun _ => W)
  rw [if_pos ⟨hrow, herr, hsup⟩] at hwr
  have hrd := read_raw_wrapper_shadow_single rom
    { s with rows := Function.update s.rows row W,
             raw_writes := (row, [W]) :: s.raw_writes } hinit row (fun _ => s.rows row)
  have hno : ¬ (row < 4096 ∧ is_error (Function.update s.rows row W row) = false) := by
    rw [Function.update_same, htop]
    intro h
    exact Bool.noConfusion h.2
  rw [if_neg hno] at hrd
  simp [write_single_otp_raw_row, read_raw_wrapper_shadow_single rom s hinit, hrow, herr, hne,
    hbits, hwr, hrd]

/-! ### N-of-M voting engine -/

/-- Embedded `read_single_otp_value_N_of_M` never stores anything but `0xFFFFFFFF` in
`*out_data`. -/
theorem read_single_otp_value_N_of_M_out {H : Type} (rom : Bootrom H) (s : OtpState H)
    (start_row N M : Nat) (votes0 : Nat → Nat) :
    (read_single_otp_value_N_of_M rom s start_row N M votes0).2.1 = 0xFFFFFFFF := by
  simp only [read_single_otp_value_N_of_M]
  split_ifs <;> first | rfl | (split <;> rfl)

theorem all_ones_and_not_ne_zero (v : Nat) (hv : v < 2 ^ 24) :
    0xFFFFFFFF &&& (0xFFFFFFFF ^^^ v) ≠ 0 := by
  intro h
  have h24 := congrArg (fun x => x.testBit 24) h
  simp only [Nat.testBit_and, Nat.testBit_xor, testBit_0xFFFFFFFF, Nat.zero_testBit,
    testBit_lt_of_lt hv (le_refl 24)] at h24
  simp at h24

/-- Embedded `write_single_otp_value_N_of_M` returns failure for every 24-bit value, leaving
the state as its first voting read left it: the "old voted bits" it gets are `0xFFFFFFFF`. -/
theorem write_single_otp_value_N_of_M_fails {H : Type} (rom : Bootrom H) (s : OtpState H)
    (start_row N M v : Nat) (votes0 votes1 : Nat → Nat) (hv : v < 2 ^ 24) :
    write_single_otp_value_N_of_M rom s start_row N M v votes0 votes1 =
      (false, (read_single_otp_value_N_of_M rom s start_row N M votes0).2.2) := by
  unfold write_single_otp_value_N_of_M
  by_cases h : (read_single_otp_value_N_of_M rom s start_row N M votes0).1 = true
  · simp only [h, Bool.not_true, Bool.false_eq_true, if_false,
      read_single_otp_value_N_of_M_out, ne_eq]
    rw [if_pos (all_ones_and_not_ne_zero v hv)]
  · simp [h]

/-- On an initialized shadow the reads of the first loop leave the state alone. -/
theorem n_of_m_read_loop_state {H : Type} (rom : Bootrom H) (start : Nat) (n : Nat) :
    ∀ (i : Nat) (acc : NofMReads H), acc.state.initialized = true →
      (n_of_m_read_loop rom start n i acc).state = acc.state := by
  induction n with
  | zero => intro i acc _; rfl
  | succ n ih =>
    intro i acc hinit
    simp only [n_of_m_read_loop]
    rw [ih]
    · rw [read_raw_wrapper_shadow_single rom acc.state hinit]
      split_ifs <;> rfl
    · rw [read_raw_wrapper_shadow_single rom acc.state hinit]
      split_ifs <;> exact hinit

theorem read_single_otp_value_N_of_M_state {H : Type} (rom : Bootrom H) (s : OtpState H)
    (hinit : s.initialized = true) (start_row N M : Nat) (votes0 : Nat → Nat) :
    (read_single_otp_value_N_of_M rom s start_row N M votes0).2.2 = s := by
  have hst := n_of_m_read_loop_state rom start_row M 0
    ⟨s, fun _ => 0, fun _ => false, 0, 0⟩ hinit
  simp only at hst
  simp only [read_single_otp_value_N_of_M]
  split_ifs <;> first | rfl | exact hst | (split <;> exact hst)

theorem read_raw_wrapper_shadow_readable {H : Type} (rom : Bootrom H) (s : OtpState H)
    (hinit : s.initialized = true) (row : Nat) (buf : Nat → Nat) :
    read_raw_wrapper rom s row buf 4 =
      (row_readable s row,
        if row_readable s row = true then Function.update buf 0 (s.rows row) else buf, s) := by
  rw [read_raw_wrapper_shadow_single rom s hinit]
  by_cases h : row < 4096 ∧ is_error (s.rows row) = false
  · have hr : row_readable s row = true := by simp [row_readable, h.1, h.2]
    rw [if_pos h, hr]
    simp
  · have hr : row_readable s row = false := by
      simp only [row_readable, Bool.and_eq_false_iff, decide_eq_false_iff_not,
        Bool.not_eq_false']
      by_cases h1 : row < 4096
      · right
        cases he : is_error (s.rows row)
        · exact absurd ⟨h1, he⟩ h
        · rfl
      · left; exact h1
    rw [if_neg h, hr]
    simp

/-- The first loop of the voting read on an initialized shadow: the state is untouched, the
counters grow by the numbers of readable and unreadable rows, `r` records which rows were
readable and `v` holds the words of the readable ones. -/
theorem n_of_m_read_loop_shadow {H : Type} (rom : Bootrom H) (start : Nat) (n : Nat) :
    ∀ (i : Nat) (acc : NofMReads H), acc.state.initialized = true →
      (n_of_m_read_loop rom start n i acc).state = acc.state ∧
      (n_of_m_read_loop rom start n i acc).successful_reads = acc.successful_reads +
        (List.range' i n).countP (fun a => row_readable acc.state ((start + a) % 65536)) ∧
      (n_of_m_read_loop rom start n i acc).failed_reads = acc.failed_reads +
        (List.range' i n).countP (fun a => !row_readable acc.state ((start + a) % 65536)) ∧
      (∀ k, (n_of_m_read_loop rom start n i acc).r k =
        if i ≤ k ∧ k < i + n then row_readable acc.state ((start + k) % 65536) else acc.r k) ∧
      (∀ k, i ≤ k → k < i + n → row_readable acc.state ((start + k) % 65536) = true →
        (n_of_m_read_loop rom start n i acc).v k = acc.state.rows ((start + k) % 65536)) ∧
      (∀ k, (k < i ∨ i + n ≤ k) → (n_of_m_read_loop rom start n i acc).v k = acc.v k) := by
  induction n with
  | zero =>
    intro i acc _
    refine ⟨rfl, rfl, rfl, ?_, ?_, ?_⟩
    · intro k
      have : ¬ (i ≤ k ∧ k < i + 0) := by omega
      rw [if_neg this]
      rfl
    · intro k h1 h2; omega
    · intro k _; rfl
  | succ n ih =>
    intro i acc hinit
    simp only [n_of_m_read_loop, read_raw_wrapper_shadow_readable rom acc.state hinit]
    obtain ⟨h1, h2, h3, h4, h5, h6⟩ := ih (i + 1)
      { state := acc.state,
        v := Function.update acc.v i
          ((if row_readable acc.state ((start + i) % 65536) = true then
            Function.update (fun k => acc.v (i + k)) 0 (acc.state.rows ((start + i) % 65536))
            else fun k => acc.v (i + k)) 0),
        r := Function.update acc.r i (row_readable acc.state ((start + i) % 65536)),
        successful_reads :=
          if row_readable acc.state ((start + i) % 65536) = true then acc.successful_reads + 1
          else acc.successful_reads,
        failed_reads :=
          if row_readable acc.state ((start + i) % 65536) = true then acc.failed_reads
          else acc.failed_reads + 1 } hinit
    simp only at h1 h2 h3 h4 h5 h6
    refine ⟨h1, ?_, ?_, ?_, ?_, ?_⟩
    · rw [h2, List.range'_succ, List.countP_cons]
      cases row_readable acc.state ((start + i) % 65536) <;> first | (simp; omega) | simp
    · rw [h3, List.range'_succ, List.countP_cons]
      cases row_readable acc.state ((start + i) % 65536) <;> first | (simp; omega) | simp
    · intro k
      rw [h4 k]
      by_cases hk : i + 1 ≤ k ∧ k < i + 1 + n
      · rw [if_pos hk, if_pos (by omega)]
      · rw [if_neg hk]
        by_cases hki : k = i
        · subst hki
          rw [Function.update_same, if_pos (by omega)]
        · rw [Function.update_noteq hki, if_neg (by omega)]
    · intro k hk1 hk2 hr
      rcases Nat.eq_or_lt_of_le hk1 with hEq | hlt
      · subst hEq
        rw [h6 i (by omega), Function.update_same, if_pos hr, Function.update_same]
      · exact h5 k (by omega) (by omega) hr
    · intro k hk
      rw [h6 k (by omega), Function.update_noteq (by omega)]

theorem and_one_shiftLeft_ne_zero_iff (x j : Nat) : x &&& (1 <<< j) ≠ 0 ↔ x.testBit j = true := by
  rw [Nat.one_shiftLeft]
  exact and_two_pow_ne_zero_iff x j

/-- The inner vote loop adds one vote, wrapping at 256, at each bit position it visits where
the word has the bit set. -/
theorem n_of_m_vote_bits_apply (tmp : Nat) (n : Nat) :
    ∀ (j : Nat) (votes : Nat → Nat) (k : Nat),
      n_of_m_vote_bits tmp n j votes k =
        if j ≤ k ∧ k < j + n ∧ tmp.testBit k = true then (votes k + 1) % 256 else votes k := by
  induction n with
  | zero =>
    intro j votes k
    have : ¬ (j ≤ k ∧ k < j + 0 ∧ tmp.testBit k = true) := by omega
    rw [if_neg this]
    rfl
  | succ n ih =>
    intro j votes k
    simp only [n_of_m_vote_bits, and_one_shiftLeft_ne_zero_iff]
    rw [ih (j + 1)]
    by_cases hkj : k = j
    · subst hkj
      have h1 : ¬ (k + 1 ≤ k ∧ k < k + 1 + n ∧ tmp.testBit k = true) := by omega
      rw [if_neg h1]
      by_cases hb : tmp.testBit k = true
      · rw [if_pos hb, Function.update_same, if_pos ⟨le_refl k, by omega, hb⟩]
      · rw [if_neg hb, if_neg (fun h => hb h.2.2)]
    · have hsame : (if tmp.testBit j = true then Function.update votes j ((votes j + 1) % 256)
          else votes) k = votes k := by
        split_ifs
        · exact Function.update_noteq hkj _ _
        · rfl
      rw [hsame]
      by_cases hc : j + 1 ≤ k ∧ k < j + 1 + n ∧ tmp.testBit k = true
      · rw [if_pos hc, if_pos ⟨by omega, by omega, hc.2.2⟩]
      · rw [if_neg hc, if_neg]
        rintro ⟨h1, h2, h3⟩
        exact hc ⟨by omega, by omega, h3⟩

/-- The second loop adds to each 8-bit counter, wrapping at 256, the number of rows read
successfully that have the bit set; counters beyond the 24 bit positions are not touched. -/
theorem n_of_m_vote_rows_apply (v : Nat → Nat) (r : Nat → Bool) (n : Nat) :
    ∀ (i : Nat) (votes : Nat → Nat) (k : Nat), votes k < 256 →
      n_of_m_vote_rows v r n i votes k =
        (votes k + (List.range' i n).countP
          (fun a => r a && (decide (k < 24) && (v a).testBit k))) % 256 := by
  induction n with
  | zero =>
    intro i votes k hk
    simp only [n_of_m_vote_rows, List.range'_zero, List.countP_nil, Nat.add_zero]
    exact (Nat.mod_eq_of_lt hk).symm
  | succ n ih =>
    intro i votes k hlt
    simp only [n_of_m_vote_rows]
    rw [List.range'_succ, List.countP_cons]
    cases hr : r i
    · simp only [Bool.not_false, if_true, Bool.false_and, Bool.false_eq_true, if_false,
        Nat.add_zero]
      rw [ih (i + 1) votes k hlt]
    · simp only [Bool.not_true, Bool.false_eq_true, if_false, Bool.true_and]
      have hstep := n_of_m_vote_bits_apply (v i) 24 0 votes k
      have hlt2 : n_of_m_vote_bits (v i) 24 0 votes k < 256 := by
        rw [hstep]
        split_ifs
        · exact Nat.mod_lt _ (by norm_num)
        · exact hlt
      rw [ih (i + 1) _ k hlt2, hstep]
      by_cases hk : k < 24
      · cases hb : (v i).testBit k
        · simp [hk, hb]
        · simp [hk, hb]; omega
      · simp [hk]

/-- The third loop gives a result exactly when no bit position it visits is undecided, that
is has fewer than `N` votes while the failed reads could make up the difference. -/
theorem n_of_m_decide_isSome_iff (N F : Nat) (votes : Nat → Nat) (n : Nat) :
    ∀ (i result : Nat),
      (n_of_m_decide N F votes n i result).isSome = true ↔
        ∀ k, i ≤ k → k < i + n → (N ≤ votes k ∨ F < N - votes k) := by
  induction n with
  | zero =>
    intro i result
    simp only [n_of_m_decide, Option.isSome_some, true_iff]
    intro k h1 h2
    omega
  | succ n ih =>
    intro i result
    simp only [n_of_m_decide]
    by_cases h1 : votes i ≥ N
    · rw [if_pos h1, ih (i + 1)]
      constructor
      · intro h k hk1 hk2
        rcases Nat.eq_or_lt_of_le hk1 with hEq | hlt
        · subst hEq; exact Or.inl h1
        · exact h k (by omega) (by omega)
      · intro h k hk1 hk2
        exact h k (by omega) (by omega)
    · rw [if_neg h1]
      by_cases h2 : F ≥ N - votes i
      · rw [if_pos h2]
        simp only [Option.isSome_none, Bool.false_eq_true, false_iff]
        intro h
        rcases h i (le_refl i) (by omega) with h3 | h3
        · exact h1 h3
        · omega
      · rw [if_neg h2, ih (i + 1)]
        constructor
        · intro h k hk1 hk2
          rcases Nat.eq_or_lt_of_le hk1 with hEq | hlt
          · subst hEq; exact Or.inr (by omega)
          · exact h k (by omega) (by omega)
        · intro h k hk1 hk2
          exact h k (by omega) (by omega)

/-- On an initialized shadow, for a supported pair, the voting read reports success exactly
when at least `N` rows were readable and no bit position is undecided.  The counters are the
leftover content `votes0` plus the votes of the readable rows, as 8-bit numbers. -/
theorem read_single_otp_value_N_of_M_shadow_ok_iff {H : Type} (rom : Bootrom H)
    (s : OtpState H) (hinit : s.initialized = true) (start_row N M : Nat)
    (votes0 : Nat → Nat) (hNM : (N = 2 ∧ M = 3) ∨ (N = 3 ∧ M = 8)) :
    (read_single_otp_value_N_of_M rom s start_row N M votes0).1 = true ↔
      (N ≤ n_of_m_successes s start_row M ∧
        ∀ k, k < 24 →
          (N ≤ (votes0 k + n_of_m_votes s start_row M k) % 256 ∨
            n_of_m_failures s start_row M <
              N - (votes0 k + n_of_m_votes s start_row M k) % 256)) := by
  have hM : ¬ M > 8 := by rcases hNM with h | h <;> omega
  obtain ⟨_, h2, h3, h4, h5, _⟩ := n_of_m_read_loop_shadow rom start_row M 0
    ⟨s, fun _ => 0, fun _ => false, 0, 0⟩ hinit
  simp only [Nat.zero_add, ← List.range_eq_range'] at h2 h3 h4 h5
  have hvotes : ∀ k, k < 24 →
      n_of_m_vote_rows
        (n_of_m_read_loop rom start_row M 0 ⟨s, fun _ => 0, fun _ => false, 0, 0⟩).v
        (n_of_m_read_loop rom start_row M 0 ⟨s, fun _ => 0, fun _ => false, 0, 0⟩).r
        M 0 (fun k => votes0 k % 256) k = (votes0 k + n_of_m_votes s start_row M k) % 256 := by
    intro k hk
    have happ := n_of_m_vote_rows_apply
      (n_of_m_read_loop rom start_row M 0 ⟨s, fun _ => 0, fun _ => false, 0, 0⟩).v
      (n_of_m_read_loop rom start_row M 0 ⟨s, fun _ => 0, fun _ => false, 0, 0⟩).r
      M 0 (fun k => votes0 k % 256) k (Nat.mod_lt _ (by norm_num))
    rw [happ, ← List.range_eq_range', n_of_m_votes, Nat.mod_add_mod]
    congr 2
    apply List.countP_congr
    intro a ha
    have haM : a < M := List.mem_range.1 ha
    rw [h4 a, if_pos ⟨Nat.zero_le a, haM⟩]
    cases hr : row_readable s ((start_row + a) % 65536)
    · simp
    · rw [h5 a (Nat.zero_le a) haM hr]
      simp [hk]
  simp only [read_single_otp_value_N_of_M, hM, if_false, hNM, not_true_eq_false, h2, h3]
  rw [← n_of_m_successes, ← n_of_m_failures]
  generalize hT : n_of_m_vote_rows
      (n_of_m_read_loop rom start_row M 0 ⟨s, fun _ => 0, fun _ => false, 0, 0⟩).v
      (n_of_m_read_loop rom start_row M 0 ⟨s, fun _ => 0, fun _ => false, 0, 0⟩).r
      M 0 (fun k => votes0 k % 256) = T at hvotes ⊢
  by_cases hS : n_of_m_successes s start_row M < N
  · rw [if_pos hS]
    simp only [Bool.false_eq_true, false_iff]
    intro h
    omega
  · rw [if_neg hS]
    have hd := n_of_m_decide_isSome_iff N (n_of_m_failures s start_row M) T 24 0 0
    have hiff : (∀ k, 0 ≤ k → k < 0 + 24 →
        (N ≤ T k ∨ n_of_m_failures s start_row M < N - T k)) ↔
        (∀ k, k < 24 →
          (N ≤ (votes0 k + n_of_m_votes s start_row M k) % 256 ∨
            n_of_m_failures s start_row M <
              N - (votes0 k + n_of_m_votes s start_row M k) % 256)) := by
      constructor
      · intro h k hk
        have := h k (Nat.zero_le k) (by omega)
        rwa [hvotes k hk] at this
      · intro h k _ hk
        rw [hvotes k (by omega)]
        exact h k (by omega)
    rw [← hiff, ← hd]
    cases n_of_m_decide N (n_of_m_failures s start_row M) T 24 0 0 with
    | none => simp
    | some x => simp; omega

theorem countP_add_countP_not {α : Type} (p : α → Bool) (l : List α) :
    l.countP p + l.countP (fun a => !p a) = l.length := by
  induction l with
  | nil => rfl
  | cons a l ih =>
    rw [List.countP_cons, List.countP_cons, List.length_cons]
    cases p a <;> simp <;> omega

theorem n_of_m_successes_add_failures {H : Type} (s : OtpState H) (start_row M : Nat) :
    n_of_m_successes s start_row M + n_of_m_failures s start_row M = M := by
  unfold n_of_m_successes n_of_m_failures
  rw [countP_add_countP_not, List.length_range]

theorem n_of_m_votes_eq_zero {H : Type} (s : OtpState H) (start_row M k : Nat) (hk : k < 24)
    (hzero : ∀ i, i < M → row_readable s ((start_row + i) % 65536) = true →
      s.rows ((start_row + i) % 65536) % 2 ^ 24 = 0) :
    n_of_m_votes s start_row M k = 0 := by
  unfold n_of_m_votes
  rw [List.countP_eq_zero]
  intro a ha
  have haM : a < M := List.mem_range.1 ha
  cases hr : row_readable s ((start_row + a) % 65536)
  · simp
  · have := congrArg (fun x => x.testBit k) (hzero a haM hr)
    simp only [Nat.testBit_mod_two_pow, Nat.zero_testBit, hk, decide_True, Bool.true_and] at this
    simp [this]

/-- On an initialized shadow, a voting read of a supported pair whose `M` rows are all
readable reports success, whatever the counters held at the start. -/
theorem read_single_otp_value_N_of_M_all_readable {H : Type} (rom : Bootrom H)
    (s : OtpState H) (hinit : s.initialized = true) (start_row N M : Nat)
    (votes0 : Nat → Nat) (hNM : (N = 2 ∧ M = 3) ∨ (N = 3 ∧ M = 8))
    (hall : n_of_m_successes s start_row M = M) :
    (read_single_otp_value_N_of_M rom s start_row N M votes0).1 = true := by
  rw [read_single_otp_value_N_of_M_shadow_ok_iff rom s hinit start_row N M votes0 hNM]
  have hF : n_of_m_failures s start_row M = 0 := by
    have := n_of_m_successes_add_failures s start_row M
    omega
  refine ⟨by rcases hNM with h | h <;> omega, fun k _ => ?_⟩
  rw [hF]
  omega

/-! ### Range envelope, whole-range reads, row engines in normal form -/

/-! ### Restore, save and the raw data read -/

theorem is_valid_otp_range_raw_envelope (s b : Nat) :
    is_valid_otp_range_raw s b = true ↔
      (b % 4 = 0 ∧ 4 ≤ b ∧ b ≤ 16384 ∧ s < 4096 ∧ s + b / 4 ≤ 4096) := by
  simp only [is_valid_otp_range_raw, NUM_OTP_ROWS]
  split_ifs <;> simp <;> omega


theorem virt_read_loop_buffer (rows : Nat → Nat) (start : Nat) (n : Nat) :
    ∀ (i : Nat) (buf : Nat → Nat),
      (∀ j, i ≤ j → j < i + n → is_error (rows (start + j)) = false) →
      ∀ k, (virt_read_loop rows start n i buf).2 k =
        if i ≤ k ∧ k < i + n then rows (start + k) else buf k := by
  induction n with
  | zero =>
    intro i buf _ k
    have : ¬ (i ≤ k ∧ k < i + 0) := by omega
    rw [if_neg this]
    rfl
  | succ n ih =>
    intro i buf hall k
    have he : is_error (rows (start + i)) = false := hall i (le_refl i) (by omega)
    simp only [virt_read_loop, he, Bool.false_eq_true, if_false]
    rw [ih (i + 1) _ (fun j h1 h2 => hall j (by omega) (by omega)) k]
    by_cases hk : i + 1 ≤ k ∧ k < i + 1 + n
    · rw [if_pos hk, if_pos (by omega)]
    · rw [if_neg hk]
      by_cases hki : k = i
      · subst hki
        rw [Function.update_same, if_pos (by omega)]
      · rw [Function.update_noteq hki, if_neg (by omega)]

/-- On an initialized shadow a raw-facade read over a valid range of readable rows succeeds
and copies the rows into the buffer. -/
theorem read_raw_wrapper_shadow_all_readable {H : Type} (rom : Bootrom H) (s : OtpState H)
    (hinit : s.initialized = true) (start : Nat) (buf : Nat → Nat) (size : Nat)
    (hvalid : is_valid_otp_range_raw start size = true)
    (hall : ∀ j, j < size / 4 → is_error (s.rows (start + j)) = false) :
    (read_raw_wrapper rom s start buf size).1 = true ∧
    (∀ k, (read_raw_wrapper rom s start buf size).2.1 k =
      if k < size / 4 then s.rows (start + k) else buf k) ∧
    (read_raw_wrapper rom s start buf size).2.2 = s := by
  have h4 : size % 4 = 0 := ((is_valid_otp_range_raw_envelope start size).1 hvalid).1
  have hall' : ∀ j, 0 ≤ j → j < 0 + size / 4 → is_error (s.rows (start + j)) = false :=
    fun j _ h => hall j (by omega)
  simp only [read_raw_wrapper, virt_read_raw_otp_wrapper, hvalid, hinit, h4, Bool.not_true,
    Bool.false_eq_true, if_false, ne_eq, not_true_eq_false, if_true]
  refine ⟨(virt_read_loop_ok_iff s.rows start (size / 4) 0 buf).2 hall', ?_, trivial⟩
  intro k
  rw [virt_read_loop_buffer s.rows start (size / 4) 0 buf hall' k]
  simp

theorem popcount_eq_zero_iff (x : Nat) (hx : x < 2 ^ 32) : popcount x = 0 ↔ x = 0 := by
  constructor
  · intro h
    apply Nat.eq_of_testBit_eq
    intro i
    rw [Nat.zero_testBit]
    by_cases hi : i < 32
    · simp only [popcount, List.length_eq_zero, List.filter_eq_nil_iff, List.mem_range] at h
      simpa using h i hi
    · exact testBit_lt_of_lt hx (Nat.le_of_not_lt hi)
  · intro h
    subst h
    decide

/-- Embedded `write_single_otp_raw_row` on an initialized shadow. -/
theorem write_single_otp_raw_row_shadow {H : Type} (rom : Bootrom H) (s : OtpState H)
    (hinit : s.initialized = true) (row W : Nat) :
    write_single_otp_raw_row rom s row W =
      if row < 4096 ∧ is_error (s.rows row) = false then
        if s.rows row = W then (true, s)
        else if s.rows row &&& (0xFFFFFFFF ^^^ W) ≠ 0 then (false, s)
        else if s.rows row ||| W = W then
          (!is_error W, { s with rows := Function.update s.rows row W,
                                  raw_writes := (row, [W]) :: s.raw_writes })
        else (false, { s with raw_writes := (row, [W]) :: s.raw_writes })
      else (false, s) := by
  by_cases hr : row < 4096 ∧ is_error (s.rows row) = false
  · rw [if_pos hr]
    by_cases he : s.rows row = W
    · subst he
      simp [write_single_otp_raw_row, read_raw_wrapper_shadow_single rom s hinit, hr]
    · rw [if_neg he]
      by_cases hb : s.rows row &&& (0xFFFFFFFF ^^^ W) ≠ 0
      · rw [if_pos hb]
        simp [write_single_otp_raw_row, read_raw_wrapper_shadow_single rom s hinit, hr, he, hb]
      · rw [if_neg hb]
        have hwr := write_raw_wrapper_shadow_single rom s hinit row (fun _ => W)
        by_cases hm : s.rows row ||| W = W
        · rw [if_pos ⟨hr.1, hr.2, hm⟩] at hwr
          rw [if_pos hm]
          have hrd := read_raw_wrapper_shadow_single rom
            { s with rows := Function.update s.rows row W,
                     raw_writes := (row, [W]) :: s.raw_writes } hinit row (fun _ => s.rows row)
          simp only [Function.update_same] at hrd
          cases hW : is_error W
          · rw [if_pos ⟨hr.1, hW⟩] at hrd
            simp [write_single_otp_raw_row, read_raw_wrapper_shadow_single rom s hinit, hr, he,
              hb, hwr, hrd]
          · have hno : ¬ (row < 4096 ∧ is_error W = false) := by
              rw [hW]; intro h; exact Bool.noConfusion h.2
            rw [if_neg hno] at hrd
            simp [write_single_otp_raw_row, read_raw_wrapper_shadow_single rom s hinit, hr, he,
              hb, hwr, hrd]
        · have hno : ¬ (row < 4096 ∧ is_error (s.rows row) = false ∧ s.rows row ||| W = W) :=
            fun h => hm h.2.2
          rw [if_neg hno] at hwr
          rw [if_neg hm]
          simp [write_single_otp_raw_row, read_raw_wrapper_shadow_single rom s hinit, hr, he,
            hb, hwr]
  · rw [if_neg hr]
    simp [write_single_otp_raw_row, read_raw_wrapper_shadow_single rom s hinit, hr]

/-- Step 3 of `write_single_otp_ecc_row` on 32-bit words, with the two empty-error tests
written as equalities. -/
theorem ecc_data_to_write_rule (codec : EccCodec) (E v : Nat) (hE : E < 2 ^ 32)
    (hC : codec.saferotp_calculate_ecc v < 2 ^ 32) :
    ecc_data_to_write codec E v =
      if codec.saferotp_calculate_ecc v ^^^ (E ||| codec.saferotp_calculate_ecc v) = 0 then
        some (E ||| codec.saferotp_calculate_ecc v)
      else if (codec.saferotp_calculate_ecc v ^^^ 0xFFFFFF) ^^^
          (E ||| (codec.saferotp_calculate_ecc v ^^^ 0xFFFFFF)) = 0 then
        some (E ||| (codec.saferotp_calculate_ecc v ^^^ 0xFFFFFF))
      else if popcount (((codec.saferotp_calculate_ecc v ^^^ 0xFFFFFF) ^^^
            (E ||| (codec.saferotp_calculate_ecc v ^^^ 0xFFFFFF))) &&& 0xC00000) ≤ 1 ∧
          popcount (((codec.saferotp_calculate_ecc v ^^^ 0xFFFFFF) ^^^
            (E ||| (codec.saferotp_calculate_ecc v ^^^ 0xFFFFFF))) &&& 0x3FFFFF) ≤ 1 then
        some (E ||| (codec.saferotp_calculate_ecc v ^^^ 0xFFFFFF))
      else if popcount ((codec.saferotp_calculate_ecc v ^^^
            (E ||| codec.saferotp_calculate_ecc v)) &&& 0xC00000) ≤ 1 ∧
          popcount ((codec.saferotp_calculate_ecc v ^^^
            (E ||| codec.saferotp_calculate_ecc v)) &&& 0x3FFFFF) ≤ 1 then
        some (E ||| codec.saferotp_calculate_ecc v)
      else none := by
  have hC' : codec.saferotp_calculate_ecc v ^^^ 0xFFFFFF < 2 ^ 32 :=
    Nat.xor_lt_two_pow hC (by norm_num)
  have h1 : codec.saferotp_calculate_ecc v ^^^ (E ||| codec.saferotp_calculate_ecc v) < 2 ^ 32 :=
    Nat.xor_lt_two_pow hC (Nat.or_lt_two_pow hE hC)
  have h2 : (codec.saferotp_calculate_ecc v ^^^ 0xFFFFFF) ^^^
      (E ||| (codec.saferotp_calculate_ecc v ^^^ 0xFFFFFF)) < 2 ^ 32 :=
    Nat.xor_lt_two_pow hC' (Nat.or_lt_two_pow hE hC')
  simp only [ecc_data_to_write, MASK_ALL_RAW_BITS, MASK_BRBP_BITS, MASK_NON_BRBP_BITS,
    popcount_eq_zero_iff _ h1, popcount_eq_zero_iff _ h2]

/-- What `write_single_otp_ecc_row` hands to the raw write on an initialized shadow, for a
readable row that does not already decode to the value: the selected word, exactly once, or
nothing at all when no word is selected. -/
theorem write_single_otp_ecc_row_hands {H : Type} (rom : Bootrom H) (codec : EccCodec)
    (s : OtpState H) (hinit : s.initialized = true) (row v : Nat) (hrow : row < 4096)
    (herr : is_error (s.rows row) = false)
    (hnot : ¬ (codec.saferotp_decode_raw (s.rows row) &&& 0xFF000000 = 0 ∧
      codec.saferotp_decode_raw (s.rows row) % 65536 = v)) :
    (∀ w, ecc_data_to_write codec (s.rows row) v = some w →
      (write_single_otp_ecc_row rom codec s row v).2.raw_writes = (row, [w]) :: s.raw_writes) ∧
    (ecc_data_to_write codec (s.rows row) v = none →
      write_single_otp_ecc_row rom codec s row v = (false, s)) := by
  rw [write_single_otp_ecc_row_shadow rom codec s hinit row v, if_pos ⟨hrow, herr⟩, if_neg hnot]
  constructor
  · intro w hw
    rw [hw]
    simp only []
    split_ifs <;> rfl
  · intro hn
    rw [hn]

/-! ### Rows outside the range, ECC data loops -/

/-- The read wrapper fails on a row outside the 4096, whatever the state. -/
theorem read_raw_wrapper_row_out {H : Type} (rom : Bootrom H) (s : OtpState H) (row : Nat)
    (buf : Nat → Nat) (hrow : ¬ row < 4096) :
    read_raw_wrapper rom s row buf 4 = (false, buf, s) := by
  have hv : is_valid_otp_range_raw row 4 = false := by
    rw [is_valid_otp_range_raw_single]; exact decide_eq_false hrow
  simp [read_raw_wrapper, hv]

/-- A single-row ECC write that succeeds was to one of the 4096 rows, whatever the state. -/
theorem write_single_otp_ecc_row_ok_row_lt {H : Type} (rom : Bootrom H) (codec : EccCodec)
    (s : OtpState H) (row v : Nat)
    (hok : (write_single_otp_ecc_row rom codec s row v).1 = true) : row < 4096 := by
  by_contra hrow
  have h : write_single_otp_ecc_row rom codec s row v = (false, s) := by
    simp [write_single_otp_ecc_row, read_raw_wrapper_row_out rom s row _ hrow]
  rw [h] at hok
  exact Bool.noConfusion hok

/-- A single-row ECC read that succeeds was of one of the 4096 rows, whatever the state. -/
theorem read_single_otp_ecc_row_ok_row_lt {H : Type} (rom : Bootrom H) (codec : EccCodec)
    (s : OtpState H) (row : Nat)
    (hok : (read_single_otp_ecc_row rom codec s row).1 = true) : row < 4096 := by
  by_contra hrow
  have h : read_single_otp_ecc_row rom codec s row = (false, 0xFFFF, s) := by
    simp [read_single_otp_ecc_row, read_raw_wrapper_row_out rom s row _ hrow]
  rw [h] at hok
  exact Bool.noConfusion hok

/-- The full-row loop of `saferotp_write_data_ecc` is the run of its planned writes: the cut of
the row to 16 bits never matters, since a write must have succeeded for the next to be made. -/
theorem write_data_ecc_loop_eq_run {H : Type} (rom : Bootrom H) (codec : EccCodec)
    (start_row : Nat) (data : Nat → Nat) (rest : List (Nat × Nat)) :
    ∀ (n i : Nat) (s : OtpState H), start_row + i < 65536 →
      (let l := write_data_ecc_loop rom codec start_row data n i s
       if !l.1 then (false, l.2) else run_ecc_writes rom codec rest l.2) =
      run_ecc_writes rom codec
        ((List.range' i n).map
          (fun i => (start_row + i, data (2 * i) ||| (data (2 * i + 1) <<< 8))) ++ rest) s := by
  intro n
  induction n with
  | zero => intro i s _; simp [write_data_ecc_loop]
  | succ n ih =>
    intro i s hi
    simp only [write_data_ecc_loop, saferotp_write_single_value_ecc, List.range'_succ,
      List.map_cons, List.cons_append, run_ecc_writes, Nat.mod_eq_of_lt hi]
    cases hw : (write_single_otp_ecc_row rom codec s (start_row + i)
        (data (2 * i) ||| data (2 * i + 1) <<< 8)).1
    · simp
    · have hlt := write_single_otp_ecc_row_ok_row_lt rom codec s _ _ hw
      have := ih (i + 1) (write_single_otp_ecc_row rom codec s (start_row + i)
        (data (2 * i) ||| data (2 * i + 1) <<< 8)).2 (by omega)
      simpa using this

/-- When the full-row loop of `saferotp_write_data_ecc` succeeds, its rows were all among the
4096. -/
theorem write_data_ecc_loop_ok_rows {H : Type} (rom : Bootrom H) (codec : EccCodec)
    (start_row : Nat) (data : Nat → Nat) :
    ∀ (n i : Nat) (s : OtpState H), start_row + i < 65536 →
      (write_data_ecc_loop rom codec start_row data n i s).1 = true →
      n = 0 ∨ start_row + i + n ≤ 4096 := by
  intro n
  induction n with
  | zero => intro i s _ _; exact Or.inl rfl
  | succ n ih =>
    intro i s hi hok
    simp only [write_data_ecc_loop, saferotp_write_single_value_ecc, Nat.mod_eq_of_lt hi] at hok
    cases hw : (write_single_otp_ecc_row rom codec s (start_row + i)
        (data (2 * i) ||| data (2 * i + 1) <<< 8)).1
    · rw [hw] at hok
      exact Bool.noConfusion hok
    · have hlt := write_single_otp_ecc_row_ok_row_lt rom codec s _ _ hw
      rw [hw] at hok
      rcases ih (i + 1) _ (by omega) (by simpa using hok) with h | h
      · right; omega
      · right; omega

/-- When the full-row loop of `saferotp_read_data_ecc` succeeds, its rows were all among the
4096. -/
theorem read_data_ecc_loop_ok_rows {H : Type} (rom : Bootrom H) (codec : EccCodec)
    (start_row : Nat) :
    ∀ (n i : Nat) (s : OtpState H) (out : Nat → Nat), start_row + i < 65536 →
      (read_data_ecc_loop rom codec start_row n i s out).1 = true →
      n = 0 ∨ start_row + i + n ≤ 4096 := by
  intro n
  induction n with
  | zero => intro i s out _ _; exact Or.inl rfl
  | succ n ih =>
    intro i s out hi hok
    simp only [read_data_ecc_loop, saferotp_read_single_value_ecc, Nat.mod_eq_of_lt hi] at hok
    cases hw : (read_single_otp_ecc_row rom codec s (start_row + i)).1
    · rw [hw] at hok
      exact Bool.noConfusion hok
    · have hlt := read_single_otp_ecc_row_ok_row_lt rom codec s _ hw
      rw [hw] at hok
      rcases ih (i + 1) _ _ (by omega) (by simpa using hok) with h | h
      · right; omega
      · right; omega

/-- On an initialized shadow whose rows are all zero, the raw data write of zero words
succeeds on every valid range. -/
theorem saferotp_write_data_raw_unsafe_zero_rows {H : Type} (rom : Bootrom H) (s : OtpState H)
    (hinit : s.initialized = true) (hz : ∀ r, s.rows r = 0) (start n : Nat)
    (hv : is_valid_otp_range_raw start n = true) :
    ( saferotp_write_data_raw_unsafe rom s start (fun _ => 0) n).1 = true := by
  have henv := (is_valid_otp_range_raw_envelope start n).1 hv
  have htop : raw_words_top_byte_check (fun _ => 0) (n / 4) 0 = true :=
    (raw_words_top_byte_check_iff (fun _ => 0) (n / 4) 0).2 (fun _ _ _ => rfl)
  have hloop : (virt_write_loop start (fun _ => 0) (n / 4) 0 s.rows).1 = true :=
    (virt_write_loop_ok_iff start (fun _ => 0) (n / 4) 0 s.rows).2
      (fun j _ _ => by rw [hz]; exact ⟨rfl, rfl⟩)
  rw [ saferotp_write_data_raw_unsafe, if_neg (by omega), if_neg (by omega), htop]
  simp only [Bool.not_true, Bool.false_eq_true, if_false, write_raw_wrapper, hv,
    virt_write_raw_otp_wrapper, hinit, if_true]
  exact hloop

/-! ### Voting groups with rows outside the range -/

/-- The first loop of the voting read counts as successful at most the rows among the 4096,
whatever the state. -/
theorem n_of_m_read_loop_successes_le {H : Type} (rom : Bootrom H) (start : Nat) (n : Nat) :
    ∀ (i : Nat) (acc : NofMReads H),
      (n_of_m_read_loop rom start n i acc).successful_reads ≤ acc.successful_reads +
        (List.range' i n).countP (fun a => decide ((start + a) % 65536 < 4096)) := by
  induction n with
  | zero => intro i acc; simp [n_of_m_read_loop]
  | succ n ih =>
    intro i acc
    rw [n_of_m_read_loop, List.range'_succ, List.countP_cons]
    refine (ih (i + 1) _).trans ?_
    by_cases hrow : (start + i) % 65536 < 4096
    · simp only [hrow, decide_True, if_true]
      split_ifs <;> omega
    · rw [read_raw_wrapper_row_out rom acc.state _ _ hrow]
      simp [hrow]

/-- The voting read fails when fewer than `N` of its rows are among the 4096. -/
theorem read_single_otp_value_N_of_M_few_rows {H : Type} (rom : Bootrom H) (s : OtpState H)
    (start_row N M : Nat) (votes0 : Nat → Nat) (hfew : n_of_m_rows_in_range start_row M < N) :
    (read_single_otp_value_N_of_M rom s start_row N M votes0).1 = false := by
  have hle := n_of_m_read_loop_successes_le rom start_row M 0
    ⟨s, fun _ => 0, fun _ => false, 0, 0⟩
  rw [← List.range_eq_range'] at hle
  have hlt : (n_of_m_read_loop rom start_row M 0
      ⟨s, fun _ => 0, fun _ => false, 0, 0⟩).successful_reads < N := by
    rw [n_of_m_rows_in_range] at hfew
    simp only [Nat.zero_add] at hle
    omega
  simp only [read_single_otp_value_N_of_M]
  split_ifs <;> rfl

/-- The voting write fails when fewer than `N` of its rows are among the 4096. -/
theorem write_single_otp_value_N_of_M_few_rows {H : Type} (rom : Bootrom H) (s : OtpState H)
    (start_row N M v : Nat) (votes0 votes1 : Nat → Nat)
    (hfew : n_of_m_rows_in_range start_row M < N) :
    (write_single_otp_value_N_of_M rom s start_row N M v votes0 votes1).1 = false := by
  simp [write_single_otp_value_N_of_M,
    read_single_otp_value_N_of_M_few_rows rom s start_row N M votes0 hfew]

/-! ### The loops of the shadow initialization -/

/-- Across rows of ignored pages the hardware state does not move. -/
theorem init_hw_before_skip {H : Type} (rom : Bootrom H) (mask : Nat) (hw0 : H) (R : Nat) :
    ∀ k, (∀ q, R ≤ q → q < R + k → mask.testBit (q / 64) = true) →
      init_hw_before rom mask hw0 (R + k) = init_hw_before rom mask hw0 R := by
  intro k
  induction k with
  | zero => intro _; rfl
  | succ k ih =>
    intro h
    rw [← Nat.add_assoc, init_hw_before, if_pos (h (R + k) (by omega) (by omega))]
    exact ih (fun q h1 h2 => h q h1 (by omega))

/-- The row loop of `virt_initialize` over rows of a page that is not ignored: it keeps the
rows before it, fills its own rows as expected and leaves the later ones zero. -/
theorem virt_initialize_rows_inv {H : Type} (rom : Bootrom H) (mask : Nat) (hw0 : H) :
    ∀ (n row : Nat) (s : OtpState H),
      (∀ q, row ≤ q → q < row + n → mask.testBit (q / 64) = false) →
      s.hw = init_hw_before rom mask hw0 row →
      (∀ q, q < row → s.rows q = init_expected_row rom mask hw0 q) →
      (∀ q, row ≤ q → s.rows q = 0) →
      (virt_initialize_rows rom n row s).hw = init_hw_before rom mask hw0 (row + n) ∧
      (∀ q, q < row + n →
        (virt_initialize_rows rom n row s).rows q = init_expected_row rom mask hw0 q) ∧
      (∀ q, row + n ≤ q → (virt_initialize_rows rom n row s).rows q = 0) ∧
      (virt_initialize_rows rom n row s).initialized = s.initialized ∧
      (virt_initialize_rows rom n row s).raw_writes = s.raw_writes := by
  intro n
  induction n with
  | zero =>
    intro row s _ hhw hlo hhi
    exact ⟨hhw, hlo, hhi, rfl, rfl⟩
  | succ n ih =>
    intro row s hmask hhw hlo hhi
    have hbuf : (fun k => s.rows (row + k)) = fun _ => 0 := by
      funext k
      exact hhi _ (Nat.le_add_right _ _)
    have hm : mask.testBit (row / 64) = false := hmask row (Nat.le_refl _) (by omega)
    rw [virt_initialize_rows]
    simp only [hw_read_raw_otp_wrapper, hbuf, hhw]
    have hnext := ih (row + 1)
      (if !(rom.rom_func_otp_access (init_hw_before rom mask hw0 row) (fun _ => 0) 4 row
            false).1 then
        { rows := Function.update (Function.update s.rows row
            ((rom.rom_func_otp_access (init_hw_before rom mask hw0 row) (fun _ => 0) 4 row
              false).2.1 0)) row 0xFFFFFFFF,
          initialized := s.initialized,
          hw := (rom.rom_func_otp_access (init_hw_before rom mask hw0 row) (fun _ => 0) 4 row
            false).2.2,
          raw_writes := s.raw_writes }
      else
        { rows := Function.update s.rows row
            ((rom.rom_func_otp_access (init_hw_before rom mask hw0 row) (fun _ => 0) 4 row
              false).2.1 0),
          initialized := s.initialized,
          hw := (rom.rom_func_otp_access (init_hw_before rom mask hw0 row) (fun _ => 0) 4 row
            false).2.2,
          raw_writes := s.raw_writes })
      (fun q h1 h2 => hmask q (by omega) (by omega))
      (by
        rw [init_hw_before, hm]
        simp only [Bool.false_eq_true, if_false]
        split_ifs <;> rfl)
      (by
        intro q hq
        by_cases hqr : q = row
        · subst hqr
          rw [init_expected_row, hm]
          cases hok : (rom.rom_func_otp_access (init_hw_before rom mask hw0 q) (fun _ => 0) 4 q
            false).1 <;> simp
        · have hne : q ≠ row := hqr
          split_ifs <;> simp [Function.update_noteq hne] <;> exact hlo q (by omega))
      (by
        intro q hq
        have hne : q ≠ row := by omega
        split_ifs <;> simp [Function.update_noteq hne] <;> exact hhi q (by omega))
    have hadd : row + (n + 1) = row + 1 + n := by omega
    rw [hadd]
    refine ⟨hnext.1, hnext.2.1, hnext.2.2.1, ?_, ?_⟩
    · rw [hnext.2.2.2.1]; split_ifs <;> rfl
    · rw [hnext.2.2.2.2]; split_ifs <;> rfl

/-- The page loop of `virt_initialize`, from a state whose rows before `page * 64` are as
expected and whose later rows are zero. -/
theorem virt_initialize_pages_inv {H : Type} (rom : Bootrom H) (mask : Nat) (hw0 : H) :
    ∀ (n page : Nat) (s : OtpState H),
      s.hw = init_hw_before rom mask hw0 (page * 64) →
      (∀ q, q < page * 64 → s.rows q = init_expected_row rom mask hw0 q) →
      (∀ q, page * 64 ≤ q → s.rows q = 0) →
      (virt_initialize_pages rom mask n page s).hw =
        init_hw_before rom mask hw0 ((page + n) * 64) ∧
      (∀ q, q < (page + n) * 64 →
        (virt_initialize_pages rom mask n page s).rows q = init_expected_row rom mask hw0 q) ∧
      (∀ q, (page + n) * 64 ≤ q → (virt_initialize_pages rom mask n page s).rows q = 0) ∧
      (virt_initialize_pages rom mask n page s).initialized = s.initialized ∧
      (virt_initialize_pages rom mask n page s).raw_writes = s.raw_writes := by
  intro n
  induction n with
  | zero =>
    intro page s hhw hlo hhi
    exact ⟨hhw, hlo, hhi, rfl, rfl⟩
  | succ n ih =>
    intro page s hhw hlo hhi
    have hadd : (page + (n + 1)) * 64 = (page + 1 + n) * 64 := by ring
    have hpage : (page + 1) * 64 = page * 64 + 64 := by ring
    rw [hadd, virt_initialize_pages]
    by_cases hm : mask &&& (1 <<< page) ≠ 0
    · have hbit : mask.testBit page = true := (and_one_shiftLeft_ne_zero_iff mask page).1 hm
      have hq : ∀ q, page * 64 ≤ q → q < page * 64 + 64 → mask.testBit (q / 64) = true := by
        intro q h1 h2
        have : q / 64 = page := by omega
        rw [this]; exact hbit
      simp only [hm, ne_eq, not_false_eq_true, if_true]
      refine ih (page + 1) s ?_ ?_ ?_
      · rw [hpage, init_hw_before_skip rom mask hw0 (page * 64) 64 hq]
        exact hhw
      · intro q hlt
        by_cases hin : q < page * 64
        · exact hlo q hin
        · rw [hhi q (by omega), init_expected_row, if_pos (hq q (by omega) (by omega))]
      · intro q hle
        exact hhi q (by omega)
    · have hbit : mask.testBit page = false := by
        cases hb : mask.testBit page
        · rfl
        · exact absurd ((and_one_shiftLeft_ne_zero_iff mask page).2 hb) hm
      have hq : ∀ q, page * 64 ≤ q → q < page * 64 + 64 → mask.testBit (q / 64) = false := by
        intro q h1 h2
        have : q / 64 = page := by omega
        rw [this]; exact hbit
      have hrows := virt_initialize_rows_inv rom mask hw0 64 (page * 64) s hq hhw hlo hhi
      rw [if_neg hm]
      have hnext := ih (page + 1)
        (virt_initialize_rows rom NUM_OTP_PAGE_ROWS (page * NUM_OTP_PAGE_ROWS) s)
        (by rw [hpage]; exact hrows.1)
        (by rw [hpage]; exact hrows.2.1)
        (by rw [hpage]; exact hrows.2.2.1)
      exact ⟨hnext.1, hnext.2.1, hnext.2.2.1, hnext.2.2.2.1.trans hrows.2.2.2.1,
        hnext.2.2.2.2.trans hrows.2.2.2.2⟩

/-! ### The decision of the voting read; the shadow loops look only at their range -/

/-- The votes counted for a bit are at most the `M` rows. -/
theorem n_of_m_votes_le {H : Type} (s : OtpState H) (start_row M k : Nat) :
    n_of_m_votes s start_row M k ≤ M := by
  unfold n_of_m_votes
  exact (List.countP_le_length _).trans (by rw [List.length_range])

/-- The decision of the voting read on an initialized shadow, for leftover counters small
enough that no increment wraps: what the stack held plus the votes counted. -/
theorem read_single_otp_value_N_of_M_shadow_fails_iff {H : Type} (rom : Bootrom H)
    (s : OtpState H) (hinit : s.initialized = true) (start_row N M : Nat)
    (votes0 : Nat → Nat) (hNM : (N = 2 ∧ M = 3) ∨ (N = 3 ∧ M = 8))
    (hsmall : ∀ i, i < 24 → votes0 i + M < 256) :
    (read_single_otp_value_N_of_M rom s start_row N M votes0).1 = false ↔
      (n_of_m_successes s start_row M < N ∨
        ∃ i, i < 24 ∧ votes0 i + n_of_m_votes s start_row M i < N ∧
          N - (votes0 i + n_of_m_votes s start_row M i) ≤ n_of_m_failures s start_row M) := by
  have h := read_single_otp_value_N_of_M_shadow_ok_iff rom s hinit start_row N M votes0 hNM
  have hmod : ∀ i, i < 24 → (votes0 i + n_of_m_votes s start_row M i) % 256 =
      votes0 i + n_of_m_votes s start_row M i := by
    intro i hi
    have := n_of_m_votes_le s start_row M i
    have := hsmall i hi
    exact Nat.mod_eq_of_lt (by omega)
  rw [← Bool.not_eq_true, h]
  constructor
  · intro hn
    by_cases hS : n_of_m_successes s start_row M < N
    · exact Or.inl hS
    · right
      by_contra hne
      refine hn ⟨by omega, fun k hk => ?_⟩
      rw [hmod k hk]
      by_contra hk2
      exact hne ⟨k, hk, by omega, by omega⟩
  · rintro (hS | ⟨i, hi, h1, h2⟩) ⟨hN, hall⟩
    · omega
    · have := hall i hi
      rw [hmod i hi] at this
      rcases this with h3 | h3 <;> omega

/-- The row loop of the shadow read looks only at the rows `start + k` of its range. -/
theorem virt_read_loop_congr (rows rows' : Nat → Nat) (start : Nat) (n : Nat) :
    ∀ (i : Nat) (buf : Nat → Nat),
      (∀ k, i ≤ k → k < i + n → rows' (start + k) = rows (start + k)) →
      virt_read_loop rows' start n i buf = virt_read_loop rows start n i buf := by
  induction n with
  | zero => intro i buf _; rfl
  | succ n ih =>
    intro i buf h
    simp only [virt_read_loop, h i (Nat.le_refl _) (by omega)]
    split_ifs
    · rfl
    · exact ih (i + 1) _ (fun k h1 h2 => h k (by omega) (by omega))

/-- The row loop of the shadow write looks only at the rows `start + k` of its range. -/
theorem virt_write_loop_congr (rows rows' : Nat → Nat) (start : Nat) (buf : Nat → Nat)
    (n i : Nat) (h : ∀ k, i ≤ k → k < i + n → rows' (start + k) = rows (start + k)) :
    (virt_write_loop start buf n i rows').1 = (virt_write_loop start buf n i rows).1 ∧
    ∀ k, i ≤ k → k < i + n →
      (virt_write_loop start buf n i rows').2 (start + k) =
        (virt_write_loop start buf n i rows).2 (start + k) := by
  constructor
  · rw [Bool.eq_iff_iff, virt_write_loop_ok_iff, virt_write_loop_ok_iff]
    constructor
    · intro hh j h1 h2
      rw [← h j h1 h2]; exact hh j h1 h2
    · intro hh j h1 h2
      rw [h j h1 h2]; exact hh j h1 h2
  · intro k h1 h2
    rw [virt_write_loop_row start buf n i rows' k h1 h2,
      virt_write_loop_row start buf n i rows k h1 h2, h k h1 h2]
    have hc : (∀ j, i ≤ j → j ≤ k →
          (is_error (rows' (start + j)) = false ∧ rows' (start + j) ||| buf j = buf j)) ↔
        (∀ j, i ≤ j → j ≤ k →
          (is_error (rows (start + j)) = false ∧ rows (start + j) ||| buf j = buf j)) := by
      constructor
      · intro hh j h3 h4
        rw [← h j h3 (by omega)]; exact hh j h3 h4
      · intro hh j h3 h4
        rw [h j h3 (by omega)]; exact hh j h3 h4
    simp only [hc]

/-! ### The raw writes the engines hand over -/

/-- Every word step 3 of the ECC write selects is a superset of the existing word. -/
theorem ecc_data_to_write_superset (codec : EccCodec) (E v w : Nat)
    (h : ecc_data_to_write codec E v = some w) : E ||| w = w := by
  have key : ∀ x, E ||| (E ||| x) = E ||| x := fun x => by
    rw [← Nat.lor_assoc, Nat.or_self]
  simp only [ecc_data_to_write] at h
  split_ifs at h <;> (injection h with h; rw [← h]; exact key _)

/-- The ECC write on an initialized shadow hands over at most one word, a superset of the
row, which the shadow takes. -/
theorem write_single_otp_ecc_row_log {H : Type} (rom : Bootrom H) (codec : EccCodec)
    (s : OtpState H) (hinit : s.initialized = true) (row v : Nat) :
    ∃ new, (write_single_otp_ecc_row rom codec s row v).2.raw_writes = new ++ s.raw_writes ∧
      replay_supersets s.rows new.reverse =
        some (write_single_otp_ecc_row rom codec s row v).2.rows := by
  rw [write_single_otp_ecc_row_shadow rom codec s hinit row v]
  by_cases hr : row < 4096 ∧ is_error (s.rows row) = false
  · rw [if_pos hr]
    split_ifs with hdec
    · exact ⟨[], rfl, rfl⟩
    · cases hw : ecc_data_to_write codec (s.rows row) v with
      | none => exact ⟨[], rfl, rfl⟩
      | some w =>
        have hsup := ecc_data_to_write_superset codec (s.rows row) v w hw
        simp only [hsup, if_true]
        refine ⟨[(row, [w])], rfl, ?_⟩
        simp [replay_supersets, hr.1, hr.2, hsup]
  · rw [if_neg hr]
    exact ⟨[], rfl, rfl⟩

/-- The byte-3x read leaves an initialized shadow as it is. -/
theorem read_otp_byte_3x_state {H : Type} (rom : Bootrom H) (s : OtpState H)
    (hinit : s.initialized = true) (row : Nat) : (read_otp_byte_3x rom s row).2.2 = s := by
  rw [read_otp_byte_3x_shadow rom s hinit row]
  split_ifs <;> rfl

/-- The state the byte-3x write leaves on an initialized shadow: the one it found, or that
state with its one word, a superset of the row, written and logged. -/
theorem write_otp_byte_3x_state {H : Type} (rom : Bootrom H) (s : OtpState H)
    (hinit : s.initialized = true) (row v : Nat) :
    (write_otp_byte_3x rom s row v).2 = s ∨
    (row < 4096 ∧ is_error (s.rows row) = false ∧
      (write_otp_byte_3x rom s row v).2 =
        { s with
          rows := Function.update s.rows row
            (or_byte (or_byte (or_byte (s.rows row) 0 v) 1 v) 2 v),
          raw_writes :=
            (row, [or_byte (or_byte (or_byte (s.rows row) 0 v) 1 v) 2 v]) :: s.raw_writes }) := by
  rw [write_otp_byte_3x, read_raw_wrapper_shadow_single rom s hinit]
  by_cases hr : row < 4096 ∧ is_error (s.rows row) = false
  · rw [if_pos hr]
    simp only [Bool.not_true, Bool.false_eq_true, if_false, Function.update_same]
    by_cases h1 : (!byte_3x_clear_check (s.rows row) ((0xFF ^^^ v) % 256) 8 0) = true
    · rw [if_pos h1]; exact Or.inl rfl
    · rw [if_neg h1]
      by_cases h2 : as_bytes (s.rows row) 0 &&& v = v ∧ as_bytes (s.rows row) 1 &&& v = v ∧
          as_bytes (s.rows row) 2 &&& v = v
      · rw [if_pos h2]; exact Or.inl rfl
      · rw [if_neg h2, write_raw_wrapper_shadow_single rom s hinit]
        right
        refine ⟨hr.1, hr.2, ?_⟩
        simp only [hr.1, hr.2, or_byte_thrice_absorbs, and_self, if_true, Bool.not_true,
          Bool.false_eq_true, if_false]
        have hst := read_otp_byte_3x_state rom
          { s with
            rows := Function.update s.rows row
              (or_byte (or_byte (or_byte (s.rows row) 0 v) 1 v) 2 v),
            raw_writes :=
              (row, [or_byte (or_byte (or_byte (s.rows row) 0 v) 1 v) 2 v]) :: s.raw_writes }
          hinit row
        split_ifs <;> exact hst
  · rw [if_neg hr]
    exact Or.inl rfl

/-- The byte-3x write on an initialized shadow hands over at most one word, a superset of the
row, which the shadow takes. -/
theorem write_otp_byte_3x_log {H : Type} (rom : Bootrom H) (s : OtpState H)
    (hinit : s.initialized = true) (row v : Nat) :
    ∃ new, (write_otp_byte_3x rom s row v).2.raw_writes = new ++ s.raw_writes ∧
      replay_supersets s.rows new.reverse = some (write_otp_byte_3x rom s row v).2.rows := by
  rcases write_otp_byte_3x_state rom s hinit row v with h | ⟨h1, h2, h⟩
  · rw [h]
    exact ⟨[], rfl, rfl⟩
  · rw [h]
    refine ⟨[(row, [or_byte (or_byte (or_byte (s.rows row) 0 v) 1 v) 2 v])], rfl, ?_⟩
    simp [replay_supersets, h1, h2, or_byte_thrice_absorbs]

/-- The row loop of the voting write on an initialized shadow: every word it hands over is a
superset of the row at that moment, and the shadow takes it. -/
theorem n_of_m_write_loop_log {H : Type} (rom : Bootrom H) (start_row new_value : Nat)
    (n : Nat) :
    ∀ (i : Nat) (s : OtpState H), s.initialized = true →
      (n_of_m_write_loop rom start_row new_value n i s).initialized = true ∧
      ∃ new, (n_of_m_write_loop rom start_row new_value n i s).raw_writes =
          new ++ s.raw_writes ∧
        replay_supersets s.rows new.reverse =
          some (n_of_m_write_loop rom start_row new_value n i s).rows := by
  induction n with
  | zero => intro i s hinit; exact ⟨hinit, [], rfl, rfl⟩
  | succ n ih =>
    intro i s hinit
    rw [n_of_m_write_loop, read_raw_wrapper_shadow_single rom s hinit]
    by_cases hr : (start_row + i) % 65536 < 4096 ∧
        is_error (s.rows ((start_row + i) % 65536)) = false
    · rw [if_pos hr]
      simp only [Bool.not_true, Bool.false_eq_true, if_false, Function.update_same]
      by_cases hhas : s.rows ((start_row + i) % 65536) &&& new_value = new_value
      · rw [if_pos hhas]
        exact ih (i + 1) s hinit
      · rw [if_neg hhas, write_raw_wrapper_shadow_single rom s hinit,
          if_pos ⟨hr.1, hr.2, by rw [← Nat.lor_assoc, Nat.or_self]⟩]
        obtain ⟨hi1, new, hlog, hrep⟩ := ih (i + 1)
          { s with
            rows := Function.update s.rows ((start_row + i) % 65536)
              (s.rows ((start_row + i) % 65536) ||| new_value),
            raw_writes := ((start_row + i) % 65536,
              [s.rows ((start_row + i) % 65536) ||| new_value]) :: s.raw_writes } hinit
        refine ⟨hi1, new ++ [((start_row + i) % 65536,
          [s.rows ((start_row + i) % 65536) ||| new_value])], ?_, ?_⟩
        · rw [hlog]; simp
        · rw [List.reverse_append, List.reverse_singleton, List.singleton_append,
            replay_supersets,
            if_pos ⟨hr.1, hr.2, by rw [← Nat.lor_assoc, Nat.or_self]⟩]
          exact hrep
    · rw [if_neg hr]
      exact ih (i + 1) s hinit

/-- The voting write on an initialized shadow: every word it hands over is a superset of the
row at that moment, and the shadow takes it. -/
theorem write_single_otp_value_N_of_M_log {H : Type} (rom : Bootrom H) (s : OtpState H)
    (hinit : s.initialized = true) (start_row N M new_value : Nat)
    (votes0 votes1 : Nat → Nat) :
    ∃ new, (write_single_otp_value_N_of_M rom s start_row N M new_value votes0
          votes1).2.raw_writes = new ++ s.raw_writes ∧
      replay_supersets s.rows new.reverse =
        some (write_single_otp_value_N_of_M rom s start_row N M new_value votes0
          votes1).2.rows := by
  have hst := read_single_otp_value_N_of_M_state rom s hinit start_row N M votes0
  obtain ⟨hi1, new, hlog, hrep⟩ := n_of_m_write_loop_log rom start_row new_value M 0 s hinit
  have hst1 := read_single_otp_value_N_of_M_state rom
    (n_of_m_write_loop rom start_row new_value M 0 s) hi1 start_row N M votes1
  simp only [write_single_otp_value_N_of_M, hst]
  split_ifs
  · exact ⟨[], rfl, rfl⟩
  · exact ⟨[], rfl, rfl⟩
  all_goals exact ⟨new, by rw [hst1]; exact hlog, by rw [hst1]; exact hrep⟩

/-! ## Main results -/

/-- C1: `is_valid_otp_range_raw s b` is true exactly when `b % 4 = 0`, `4 ≤ b ≤ 16384`,
`s < 4096` and `s + b / 4 ≤ 4096`; `(0, 4)` and `(0xFFF, 4)` are accepted and `(0xFFF, 8)`
is rejected. -/
theorem is_valid_otp_range_raw_iff :
    (∀ s b : Nat, is_valid_otp_range_raw s b = true ↔
      (b % 4 = 0 ∧ 4 ≤ b ∧ b ≤ 16384 ∧ s < 4096 ∧ s + b / 4 ≤ 4096)) ∧
    is_valid_otp_range_raw 0 4 = true ∧
    is_valid_otp_range_raw 0xFFF 4 = true ∧
    is_valid_otp_range_raw 0xFFF 8 = false := by
  refine ⟨?_, by decide, by decide, by decide⟩
  intro s b
  simp only [is_valid_otp_range_raw, NUM_OTP_ROWS]
  split_ifs <;> simp <;> omega

/-- C2: on an initialized shadow, a single-row shadow write of a 32-bit word `W` to an
in-range row holding `E` with the error flag clear is accepted exactly when `E & ~W == 0`,
which says the same as `(E | W) == W`; when accepted the row holds `E | W` afterwards and no
other row changes, and when refused the state is unchanged. -/
theorem virt_write_single_row_accepts_iff {H : Type} (s : OtpState H) (row W : Nat)
    (hinit : s.initialized = true) (hrow : row < 4096)
    (herr : is_error (s.rows row) = false) (hE : s.rows row < 2 ^ 32) :
    ((virt_write_raw_otp_wrapper s row (fun _ => W) 4).1 = true ↔
      s.rows row &&& (0xFFFFFFFF ^^^ W) = 0) ∧
    (s.rows row &&& (0xFFFFFFFF ^^^ W) = 0 ↔ s.rows row ||| W = W) ∧
    ((virt_write_raw_otp_wrapper s row (fun _ => W) 4).1 = true →
      (virt_write_raw_otp_wrapper s row (fun _ => W) 4).2.rows row = s.rows row ||| W ∧
      ∀ i, i ≠ row → (virt_write_raw_otp_wrapper s row (fun _ => W) 4).2.rows i = s.rows i) ∧
    ((virt_write_raw_otp_wrapper s row (fun _ => W) 4).1 = false →
      (virt_write_raw_otp_wrapper s row (fun _ => W) 4).2 = s) := by
  have hiff := and_not_eq_zero_iff_or_eq (s.rows row) W hE
  obtain ⟨rows, ini, hw, log⟩ := s
  simp only at hinit herr hiff
  subst hinit
  by_cases m : rows row ||| W = W
  · simp [virt_write_raw_otp_wrapper, is_valid_otp_range_raw_single, virt_write_loop,
      hrow, herr, m, hiff]
    intro i hi
    exact Function.update_noteq hi _ _
  · simp [virt_write_raw_otp_wrapper, is_valid_otp_range_raw_single, virt_write_loop,
      hrow, herr, m, hiff]

theorem virt_write_single_row_accepts_iff_witness :
    (virt_write_raw_otp_wrapper (virt_override_restore zero_shadow 0x030 (fun _ => 0x000001) 4).2
      0x030 (fun _ => 0x000003) 4).1 = true ∧
    (virt_write_raw_otp_wrapper (virt_override_restore zero_shadow 0x030 (fun _ => 0x000001) 4).2
      0x030 (fun _ => 0x000003) 4).2.rows 0x030 = 0x000003 ∧
    (virt_write_raw_otp_wrapper (virt_override_restore zero_shadow 0x030 (fun _ => 0x000001) 4).2
      0x030 (fun _ => 0x000002) 4).2 =
      (virt_override_restore zero_shadow 0x030 (fun _ => 0x000001) 4).2 := by
  have h3 := virt_write_single_row_accepts_iff
    (virt_override_restore zero_shadow 0x030 (fun _ => 0x000001) 4).2 0x030 0x000003
    rfl (by decide) (by decide) (by decide)
  have h2 := virt_write_single_row_accepts_iff
    (virt_override_restore zero_shadow 0x030 (fun _ => 0x000001) 4).2 0x030 0x000002
    rfl (by decide) (by decide) (by decide)
  exact ⟨h3.1.2 (by decide), (h3.2.2.1 (h3.1.2 (by decide))).1.trans (by decide),
    h2.2.2.2 (by decide)⟩

/-- C3: for every initialized shadow and every finite sequence of raw-facade writes, single-
or multi-row, accepted or refused, each row ends holding its initial raw value OR-ed with
every candidate word that was accepted for it; so every bit set in a row at the start is
still set at the end. -/
theorem run_raw_writes_or_accumulates {H : Type} (rom : Bootrom H) (calls : List RawWrite) :
    ∀ (s : OtpState H), s.initialized = true → ∀ r : Nat,
      (run_raw_writes rom calls s).rows r =
        (accepted_words rom calls s r).foldl (fun x w => x ||| w) (s.rows r) ∧
      ∀ b : Nat, (s.rows r).testBit b = true →
        ((run_raw_writes rom calls s).rows r).testBit b = true := by
  induction calls with
  | nil =>
    intro s _ r
    exact ⟨rfl, fun _ h => h⟩
  | cons c cs ih =>
    intro s hinit r
    have hinit2 : (write_raw_wrapper rom s c.starting_row c.buffer c.buffer_size).2.initialized
        = true := by
      rw [write_raw_wrapper_initialized]; exact hinit
    have hstep := write_raw_wrapper_shadow_row rom s hinit c r
    have hrec := (ih _ hinit2 r).1
    have hacc : (run_raw_writes rom (c :: cs) s).rows r =
        (accepted_words rom (c :: cs) s r).foldl (fun x w => x ||| w) (s.rows r) := by
      simp only [run_raw_writes, accepted_words, List.foldl_append]
      rw [hrec, hstep]
      cases accepted_word s.rows c r <;> rfl
    refine ⟨hacc, fun b hb => ?_⟩
    rw [hacc]
    exact testBit_foldl_or _ _ _ hb

theorem run_raw_writes_or_accumulates_witness :
    (run_raw_writes no_hardware
        [⟨0x030, fun _ => 0x000005, 4⟩, ⟨0x030, fun _ => 0x000002, 4⟩,
         ⟨0x030, fun _ => 0x000007, 8⟩] zero_shadow).rows 0x030 = 0x000007 ∧
    (run_raw_writes no_hardware
        [⟨0x030, fun _ => 0x000005, 4⟩, ⟨0x030, fun _ => 0x000002, 4⟩,
         ⟨0x030, fun _ => 0x000007, 8⟩] zero_shadow).rows 0x031 = 0x000007 := by
  have h30 := (run_raw_writes_or_accumulates no_hardware
    [⟨0x030, fun _ => 0x000005, 4⟩, ⟨0x030, fun _ => 0x000002, 4⟩,
     ⟨0x030, fun _ => 0x000007, 8⟩] zero_shadow rfl 0x030).1
  have h31 := (run_raw_writes_or_accumulates no_hardware
    [⟨0x030, fun _ => 0x000005, 4⟩, ⟨0x030, fun _ => 0x000002, 4⟩,
     ⟨0x030, fun _ => 0x000007, 8⟩] zero_shadow rfl 0x031).1
  exact ⟨h30.trans (by decide), h31.trans (by decide)⟩

/-- C4: the code, evaluated where the claim fails.  With the codec without redundancy, which
decodes every codeword and every inverted codeword to its value, and row `0x010` holding raw
`0x000003`, `write_single_otp_ecc_row 0x010 0x0002` returns success (it writes `0xFFFFFF` on
the one-bit-error branch and only checks that the row decodes), yet the following
`read_single_otp_ecc_row 0x010` succeeds with the value `0x0000`, not `0x0002`. -/
theorem write_single_otp_ecc_row_skips_value_check :
    (∀ v, v < 65536 →
      plain_codec.saferotp_decode_raw (plain_codec.saferotp_calculate_ecc v) = v ∧
      plain_codec.saferotp_decode_raw (plain_codec.saferotp_calculate_ecc v ^^^ 0xFFFFFF) = v) ∧
    (write_single_otp_ecc_row no_hardware plain_codec shadow_row_0x010_holds_3 0x010 0x0002).1
      = true ∧
    (write_single_otp_ecc_row no_hardware plain_codec shadow_row_0x010_holds_3 0x010
      0x0002).2.rows 0x010 = 0xFFFFFF ∧
    (read_single_otp_ecc_row no_hardware plain_codec
      (write_single_otp_ecc_row no_hardware plain_codec shadow_row_0x010_holds_3 0x010 0x0002).2
      0x010).1 = true ∧
    (read_single_otp_ecc_row no_hardware plain_codec
      (write_single_otp_ecc_row no_hardware plain_codec shadow_row_0x010_holds_3 0x010 0x0002).2
      0x010).2.1 = 0x0000 :=
  ⟨plain_codec_decodes, by decide, by decide, by decide, by decide⟩

/-- C5: the code, evaluated where the claim fails.  In the situation of C4 the first
`write_single_otp_ecc_row 0x010 0x0002` succeeds and the second succeeds too and leaves the row
as it was, but the second call does hand a raw write to the facade: the call log grows by the
entry `(0x010, [0xFFFFFF])`.  On the all-zero shadow, by contrast, two calls
`write_single_otp_ecc_row 0x010 0xBEEF` run as the claim says: the first writes the codeword,
the second writes nothing. -/
theorem write_single_otp_ecc_row_second_call_writes :
    (write_single_otp_ecc_row no_hardware plain_codec shadow_row_0x010_holds_3 0x010 0x0002).1
      = true ∧
    (write_single_otp_ecc_row no_hardware plain_codec
      (write_single_otp_ecc_row no_hardware plain_codec shadow_row_0x010_holds_3 0x010 0x0002).2
      0x010 0x0002).1 = true ∧
    (write_single_otp_ecc_row no_hardware plain_codec
      (write_single_otp_ecc_row no_hardware plain_codec shadow_row_0x010_holds_3 0x010 0x0002).2
      0x010 0x0002).2.rows 0x010 = 0xFFFFFF ∧
    (write_single_otp_ecc_row no_hardware plain_codec shadow_row_0x010_holds_3 0x010
      0x0002).2.raw_writes = [(0x010, [0xFFFFFF])] ∧
    (write_single_otp_ecc_row no_hardware plain_codec
      (write_single_otp_ecc_row no_hardware plain_codec shadow_row_0x010_holds_3 0x010 0x0002).2
      0x010 0x0002).2.raw_writes = [(0x010, [0xFFFFFF]), (0x010, [0xFFFFFF])] ∧
    (write_single_otp_ecc_row no_hardware plain_codec zero_shadow 0x010 0xBEEF).1 = true ∧
    (write_single_otp_ecc_row no_hardware plain_codec zero_shadow 0x010 0xBEEF).2.rows 0x010
      = plain_codec.saferotp_calculate_ecc 0xBEEF ∧
    (write_single_otp_ecc_row no_hardware plain_codec zero_shadow 0x010 0xBEEF).2.raw_writes
      = [(0x010, [plain_codec.saferotp_calculate_ecc 0xBEEF])] ∧
    (write_single_otp_ecc_row no_hardware plain_codec
      (write_single_otp_ecc_row no_hardware plain_codec zero_shadow 0x010 0xBEEF).2
      0x010 0xBEEF).1 = true ∧
    (write_single_otp_ecc_row no_hardware plain_codec
      (write_single_otp_ecc_row no_hardware plain_codec zero_shadow 0x010 0xBEEF).2
      0x010 0xBEEF).2.rows 0x010 = plain_codec.saferotp_calculate_ecc 0xBEEF ∧
    (write_single_otp_ecc_row no_hardware plain_codec
      (write_single_otp_ecc_row no_hardware plain_codec zero_shadow 0x010 0xBEEF).2
      0x010 0xBEEF).2.raw_writes = [(0x010, [plain_codec.saferotp_calculate_ecc 0xBEEF])] :=
  ⟨by decide, by decide, by decide, by decide, by decide, by decide, by decide, by decide,
    by decide, by decide, by decide⟩

/-- C6: BRBP reconciliation.  Take an initialized shadow whose row `0x020` was set to
`0x00C00000` by `virt_override_restore`, a 16-bit `v`, and a codec whose codeword for `v` is a
24-bit word with bits 22 and 23 clear, whose inverted codeword decodes to `v`, and for which
`0xC00000` does not decode to `v`.  Then `write_single_otp_ecc_row 0x020 v` succeeds, the word
it hands to the raw write is the inverted codeword, the row ends holding exactly
`enc v XOR 0xFFFFFF`, and `read_single_otp_ecc_row 0x020` then returns `v`. -/
theorem write_single_otp_ecc_row_brbp {H : Type} (rom : Bootrom H) (codec : EccCodec)
    (s : OtpState H) (hinit : s.initialized = true) (v : Nat) (hv : v < 65536)
    (hlt : codec.saferotp_calculate_ecc v < 2 ^ 24)
    (hbrbp : codec.saferotp_calculate_ecc v &&& 0xC00000 = 0)
    (hdec : codec.saferotp_decode_raw (codec.saferotp_calculate_ecc v ^^^ 0xFFFFFF) = v)
    (hnot : ¬ (codec.saferotp_decode_raw 0xC00000 &&& 0xFF000000 = 0 ∧
      codec.saferotp_decode_raw 0xC00000 % 65536 = v)) :
    (write_single_otp_ecc_row rom codec
      (virt_override_restore s 0x020 (fun _ => 0x00C00000) 4).2 0x020 v).1 = true ∧
    ecc_data_to_write codec 0x00C00000 v = some (codec.saferotp_calculate_ecc v ^^^ 0xFFFFFF) ∧
    (write_single_otp_ecc_row rom codec
      (virt_override_restore s 0x020 (fun _ => 0x00C00000) 4).2 0x020 v).2.raw_writes =
      (0x020, [codec.saferotp_calculate_ecc v ^^^ 0xFFFFFF]) :: s.raw_writes ∧
    (write_single_otp_ecc_row rom codec
      (virt_override_restore s 0x020 (fun _ => 0x00C00000) 4).2 0x020 v).2.rows 0x020 =
      codec.saferotp_calculate_ecc v ^^^ 0xFFFFFF ∧
    (read_single_otp_ecc_row rom codec (write_single_otp_ecc_row rom codec
      (virt_override_restore s 0x020 (fun _ => 0x00C00000) 4).2 0x020 v).2 0x020).1 = true ∧
    (read_single_otp_ecc_row rom codec (write_single_otp_ecc_row rom codec
      (virt_override_restore s 0x020 (fun _ => 0x00C00000) 4).2 0x020 v).2 0x020).2.1 = v := by
  have hsel : ecc_data_to_write codec 0x00C00000 v =
      some (codec.saferotp_calculate_ecc v ^^^ 0xFFFFFF) := by
    have h0 : popcount 0 = 0 := by decide
    have h2 : popcount 0xC00000 ≠ 0 := by decide
    simp only [ecc_data_to_write, MASK_ALL_RAW_BITS, brbp_plain_error_bits _ hbrbp,
      brbp_inverted_contains _ hbrbp, Nat.xor_self, h0, h2, if_true, if_false]
  have hinv_lt : codec.saferotp_calculate_ecc v ^^^ 0xFFFFFF < 2 ^ 24 :=
    Nat.xor_lt_two_pow hlt (by norm_num)
  have herr := is_error_of_lt _ hinv_lt
  have hvhigh : v &&& 0xFF000000 = 0 :=
    and_0xFF000000_of_lt v (Nat.lt_of_lt_of_le hv (by norm_num))
  have hvmod : v % 65536 = v := Nat.mod_eq_of_lt hv
  have hok : is_error (codec.saferotp_calculate_ecc v ^^^ 0xFFFFFF) = false ∧
      codec.saferotp_decode_raw (codec.saferotp_calculate_ecc v ^^^ 0xFFFFFF) &&& 0xFF000000 = 0 :=
    ⟨herr, by rw [hdec]; exact hvhigh⟩
  have h1 : (virt_override_restore s 0x020 (fun _ => 0x00C00000) 4).2.initialized = true := by
    simp [virt_override_restore, is_valid_otp_range_raw_single, hinit]
  have hE : (virt_override_restore s 0x020 (fun _ => 0x00C00000) 4).2.rows 0x020 = 0xC00000 := by
    simp [virt_override_restore, is_valid_otp_range_raw_single]
  have hlog : (virt_override_restore s 0x020 (fun _ => 0x00C00000) 4).2.raw_writes =
      s.raw_writes := by
    simp [virt_override_restore, is_valid_otp_range_raw_single]
  generalize (virt_override_restore s 0x020 (fun _ => 0x00C00000) 4).2 = s1 at h1 hE hlog ⊢
  have hcond : (0x020 : Nat) < 4096 ∧ is_error 0xC00000 = false := ⟨by decide, by decide⟩
  have hform := write_single_otp_ecc_row_shadow rom codec s1 h1 0x020 v
  rw [hE, hsel, if_pos hcond, if_neg hnot] at hform
  simp only [] at hform
  rw [if_pos (brbp_inverted_contains _ hbrbp), decide_eq_true hok] at hform
  have hread := read_single_otp_ecc_row_shadow rom codec
    { s1 with
      rows := Function.update s1.rows 0x020 (codec.saferotp_calculate_ecc v ^^^ 0xFFFFFF),
      raw_writes := (0x020, [codec.saferotp_calculate_ecc v ^^^ 0xFFFFFF]) :: s1.raw_writes }
    h1 0x020
  simp only [Function.update_same] at hread
  rw [if_pos ⟨hcond.1, hok⟩, hdec, hvmod] at hread
  rw [hform]
  refine ⟨rfl, hsel, ?_, ?_, ?_, ?_⟩
  · simp only [hlog]
  · simp only [Function.update_same]
  · rw [hread]
  · rw [hread]

theorem write_single_otp_ecc_row_brbp_witness :
    (write_single_otp_ecc_row no_hardware plain_codec
      (virt_override_restore zero_shadow 0x020 (fun _ => 0x00C00000) 4).2 0x020 0x1234).1 = true ∧
    (write_single_otp_ecc_row no_hardware plain_codec
      (virt_override_restore zero_shadow 0x020 (fun _ => 0x00C00000) 4).2 0x020 0x1234).2.rows 0x020
        = 0xFFEDCB ∧
    (read_single_otp_ecc_row no_hardware plain_codec (write_single_otp_ecc_row no_hardware
      plain_codec (virt_override_restore zero_shadow 0x020 (fun _ => 0x00C00000) 4).2
      0x020 0x1234).2 0x020).2.1 = 0x1234 := by
  have h := write_single_otp_ecc_row_brbp no_hardware plain_codec zero_shadow rfl 0x1234
    (by decide) (by decide) (by decide) (by decide) (by decide)
  exact ⟨h.1, h.2.2.2.1.trans (by decide), h.2.2.2.2.2⟩

/-- C7: when the raw read of the row succeeds (the row is in range and readable) and yields a
word with data bytes `b0`, `b1`, `b2`, `read_otp_byte_3x` succeeds and returns
`(b0 & b1) | (b0 & b2) | (b1 & b2)`, the byte whose bit `i` is set exactly when at least two
of the three bytes have bit `i` set. -/
theorem read_otp_byte_3x_majority {H : Type} (rom : Bootrom H) (s : OtpState H) (row : Nat)
    (hread : (read_raw_wrapper rom s row (fun _ => 0) 4).1 = true) :
    (read_otp_byte_3x rom s row).1 = true ∧
    (read_otp_byte_3x rom s row).2.1 =
      (as_bytes ((read_raw_wrapper rom s row (fun _ => 0) 4).2.1 0) 0 &&&
        as_bytes ((read_raw_wrapper rom s row (fun _ => 0) 4).2.1 0) 1) |||
      (as_bytes ((read_raw_wrapper rom s row (fun _ => 0) 4).2.1 0) 0 &&&
        as_bytes ((read_raw_wrapper rom s row (fun _ => 0) 4).2.1 0) 2) |||
      (as_bytes ((read_raw_wrapper rom s row (fun _ => 0) 4).2.1 0) 1 &&&
        as_bytes ((read_raw_wrapper rom s row (fun _ => 0) 4).2.1 0) 2) ∧
    ∀ i, i < 8 →
      (((read_otp_byte_3x rom s row).2.1).testBit i = true ↔
        2 ≤ ((as_bytes ((read_raw_wrapper rom s row (fun _ => 0) 4).2.1 0) 0).testBit i).toNat +
            ((as_bytes ((read_raw_wrapper rom s row (fun _ => 0) 4).2.1 0) 1).testBit i).toNat +
            ((as_bytes ((read_raw_wrapper rom s row (fun _ => 0) 4).2.1 0) 2).testBit i).toNat) := by
  have hval : (read_otp_byte_3x rom s row).2.1 =
      byte_3x_majority ((read_raw_wrapper rom s row (fun _ => 0) 4).2.1 0) := by
    simp [read_otp_byte_3x, hread, byte_3x_vote_loop_eq_majority]
  refine ⟨by simp [read_otp_byte_3x, hread], hval, fun i _ => ?_⟩
  rw [hval, byte_3x_majority_testBit, two_le_toNat_sum_iff]

theorem read_otp_byte_3x_majority_witness :
    (read_otp_byte_3x no_hardware
      (virt_override_restore zero_shadow 0x040 (fun _ => 0x0F3355) 4).2 0x040).1 = true ∧
    (read_otp_byte_3x no_hardware
      (virt_override_restore zero_shadow 0x040 (fun _ => 0x0F3355) 4).2 0x040).2.1 = 0x17 := by
  have h := read_otp_byte_3x_majority no_hardware
    (virt_override_restore zero_shadow 0x040 (fun _ => 0x0F3355) 4).2 0x040 (by decide)
  exact ⟨h.1, h.2.1.trans (by decide)⟩

/-- C8: on an initialized shadow, for every byte `v`, if `write_otp_byte_3x row v` succeeds
then the row holds afterwards `(b0|v, b1|v, b2|v)` in its three data bytes, where
`(b0, b1, b2)` were the bytes before, its upper byte is unchanged, and `read_otp_byte_3x row`
succeeds and returns `v`. -/
theorem write_otp_byte_3x_then_read {H : Type} (rom : Bootrom H) (s : OtpState H)
    (hinit : s.initialized = true) (row v : Nat) (hv : v < 256)
    (hok : (write_otp_byte_3x rom s row v).1 = true) :
    as_bytes ((write_otp_byte_3x rom s row v).2.rows row) 0 = as_bytes (s.rows row) 0 ||| v ∧
    as_bytes ((write_otp_byte_3x rom s row v).2.rows row) 1 = as_bytes (s.rows row) 1 ||| v ∧
    as_bytes ((write_otp_byte_3x rom s row v).2.rows row) 2 = as_bytes (s.rows row) 2 ||| v ∧
    as_bytes ((write_otp_byte_3x rom s row v).2.rows row) 3 = as_bytes (s.rows row) 3 ∧
    read_otp_byte_3x rom (write_otp_byte_3x rom s row v).2 row =
      (true, v, (write_otp_byte_3x rom s row v).2) := by
  obtain ⟨h1, h2, h3, h4, e0, e1, e2, e3⟩ :=
    write_otp_byte_3x_success_state rom s hinit row v hv hok
  refine ⟨e0, e1, e2, e3, ?_⟩
  rw [read_otp_byte_3x_shadow rom _ h1, if_pos ⟨h2, h3⟩, h4]

theorem write_otp_byte_3x_then_read_witness :
    ((write_otp_byte_3x no_hardware
      (virt_override_restore zero_shadow 0x040 (fun _ => 0x010204) 4).2 0x040 0xA0).2.rows 0x040
        = 0xA1A2A4) ∧
    (read_otp_byte_3x no_hardware (write_otp_byte_3x no_hardware
      (virt_override_restore zero_shadow 0x040 (fun _ => 0x010204) 4).2 0x040 0xA0).2 0x040).2.1
        = 0xA0 := by
  have h := write_otp_byte_3x_then_read no_hardware
    (virt_override_restore zero_shadow 0x040 (fun _ => 0x010204) 4).2 rfl 0x040 0xA0
    (by decide) (by decide)
  exact ⟨by decide, by rw [h.2.2.2.2]⟩

/-- C9: on an initialized shadow, `write_otp_byte_3x row v` fails and leaves the state
unchanged whenever some bit `i` that is clear in `v` is set in at least two of the three
stored bytes of the row. -/
theorem write_otp_byte_3x_vote_clear {H : Type} (rom : Bootrom H) (s : OtpState H)
    (hinit : s.initialized = true) (row v i : Nat) (hv : v < 256) (hi : i < 8)
    (hclear : v.testBit i = false)
    (hvoted : 2 ≤ ((as_bytes (s.rows row) 0).testBit i).toNat +
      ((as_bytes (s.rows row) 1).testBit i).toNat + ((as_bytes (s.rows row) 2).testBit i).toNat) :
    write_otp_byte_3x rom s row v = (false, s) := by
  apply write_otp_byte_3x_refuses rom s hinit row v i hv hi hclear
  rw [byte_3x_majority_testBit]
  exact (two_le_toNat_sum_iff _ _ _).1 hvoted

theorem write_otp_byte_3x_vote_clear_witness :
    (write_otp_byte_3x no_hardware
      (virt_override_restore zero_shadow 0x040 (fun _ => 0x000303) 4).2 0x040 0x02).1 = false ∧
    (write_otp_byte_3x no_hardware
      (virt_override_restore zero_shadow 0x040 (fun _ => 0x000303) 4).2 0x040 0x02).2.rows 0x040
        = 0x000303 := by
  have h := write_otp_byte_3x_vote_clear no_hardware
    (virt_override_restore zero_shadow 0x040 (fun _ => 0x000303) 4).2 rfl 0x040 0x02 0
    (by decide) (by decide) (by decide) (by decide)
  rw [h]
  exact ⟨rfl, by decide⟩

/-- C10: on an initialized shadow, for every row and every nonzero byte `v`, after
`write_otp_byte_3x row v` has succeeded, `write_otp_byte_3x row 0x00` fails and leaves the
state, and so the row, unchanged. -/
theorem write_otp_byte_3x_zero_after_nonzero {H : Type} (rom : Bootrom H) (s : OtpState H)
    (hinit : s.initialized = true) (row v : Nat) (hv : v < 256) (hnz : v ≠ 0)
    (hok : (write_otp_byte_3x rom s row v).1 = true) :
    write_otp_byte_3x rom (write_otp_byte_3x rom s row v).2 row 0x00 =
      (false, (write_otp_byte_3x rom s row v).2) := by
  obtain ⟨h1, _, _, h4, _⟩ := write_otp_byte_3x_success_state rom s hinit row v hv hok
  obtain ⟨i, hi⟩ := Nat.ne_zero_implies_bit_true hnz
  have hi8 : i < 8 := by
    by_contra hge
    have := testBit_lt_of_lt (show v < 2 ^ 8 by simpa using hv) (Nat.le_of_not_lt hge)
    rw [hi] at this
    exact Bool.noConfusion this
  exact write_otp_byte_3x_refuses rom _ h1 row 0 i (by decide) hi8 (Nat.zero_testBit i)
    (by rw [h4]; exact hi)

theorem write_otp_byte_3x_zero_after_nonzero_witness :
    (write_otp_byte_3x no_hardware zero_shadow 0x040 0x5A).1 = true ∧
    (write_otp_byte_3x no_hardware
      (write_otp_byte_3x no_hardware zero_shadow 0x040 0x5A).2 0x040 0x00).1 = false ∧
    (write_otp_byte_3x no_hardware
      (write_otp_byte_3x no_hardware zero_shadow 0x040 0x5A).2 0x040 0x00).2.rows 0x040
        = 0x5A5A5A := by
  have h := write_otp_byte_3x_zero_after_nonzero no_hardware zero_shadow rfl 0x040 0x5A
    (by decide) (by decide) (by decide)
  rw [h]
  exact ⟨by decide, rfl, by decide⟩

/-- C11: idempotent byte-3x write.  On an initialized shadow, for every row and byte `v`, if
`write_otp_byte_3x row v` succeeds then a second `write_otp_byte_3x row v` succeeds too and
returns the state as it found it: no shadow row changes and no raw write is issued (the call
log is the same). -/
theorem write_otp_byte_3x_idempotent {H : Type} (rom : Bootrom H) (s : OtpState H)
    (hinit : s.initialized = true) (row v : Nat) (hv : v < 256)
    (hok : (write_otp_byte_3x rom s row v).1 = true) :
    write_otp_byte_3x rom (write_otp_byte_3x rom s row v).2 row v =
      (true, (write_otp_byte_3x rom s row v).2) := by
  obtain ⟨h1, h2, h3, h4, e0, e1, e2, _⟩ :=
    write_otp_byte_3x_success_state rom s hinit row v hv hok
  have hclear : byte_3x_clear_check ((write_otp_byte_3x rom s row v).2.rows row)
      ((0xFF ^^^ v) % 256) 8 0 = true := by
    rw [byte_3x_clear_check_passes_iff, h4]
    intro j _ hj
    exact hj
  have hall : as_bytes ((write_otp_byte_3x rom s row v).2.rows row) 0 &&& v = v ∧
      as_bytes ((write_otp_byte_3x rom s row v).2.rows row) 1 &&& v = v ∧
      as_bytes ((write_otp_byte_3x rom s row v).2.rows row) 2 &&& v = v := by
    rw [e0, e1, e2]
    exact ⟨or_and_self_right _ _, or_and_self_right _ _, or_and_self_right _ _⟩
  rw [write_otp_byte_3x_shadow rom _ h1 row v hv, if_pos ⟨h2, h3, hclear⟩, if_pos hall]

theorem write_otp_byte_3x_idempotent_witness :
    (write_otp_byte_3x no_hardware zero_shadow 0x040 0x5A).2.raw_writes = [(0x040, [0x5A5A5A])] ∧
    (write_otp_byte_3x no_hardware
      (write_otp_byte_3x no_hardware zero_shadow 0x040 0x5A).2 0x040 0x5A).1 = true ∧
    (write_otp_byte_3x no_hardware
      (write_otp_byte_3x no_hardware zero_shadow 0x040 0x5A).2 0x040 0x5A).2.raw_writes
        = [(0x040, [0x5A5A5A])] := by
  have h := write_otp_byte_3x_idempotent no_hardware zero_shadow rfl 0x040 0x5A
    (by decide) (by decide)
  rw [h]
  exact ⟨by decide, rfl, by decide⟩

/-- C12: the code, evaluated where the claim fails.  `read_single_otp_value_N_of_M` sets
`*out_data = 0xFFFFFFFF` on entry and never stores the voted `result`, so whatever the rows
hold the value it returns is `0xFFFFFFFF`.  With all `M` rows readable it does report success
(whatever the uninitialized counters held): on the all-zero shadow `read_single_rbit3 0x100`
and `read_single_rbit8 0x100` succeed with `0xFFFFFFFF` instead of `0`, and with rows
`0x0000FF, 0x00000F, 0x0000FF` the RBIT-3 read succeeds with `0xFFFFFFFF` instead of
`0x0000FF`. -/
theorem read_single_otp_value_N_of_M_drops_result :
    (∀ (H : Type) (rom : Bootrom H) (s : OtpState H) (start_row N M : Nat)
      (votes0 : Nat → Nat),
      (read_single_otp_value_N_of_M rom s start_row N M votes0).2.1 = 0xFFFFFFFF) ∧
    (∀ (H : Type) (rom : Bootrom H) (s : OtpState H) (start_row N M : Nat)
      (votes0 : Nat → Nat), s.initialized = true → ((N = 2 ∧ M = 3) ∨ (N = 3 ∧ M = 8)) →
      n_of_m_successes s start_row M = M →
      (read_single_otp_value_N_of_M rom s start_row N M votes0).1 = true) ∧
    (saferotp_read_single_value_rbit3 no_hardware zero_shadow 0x100 zero_votes).1 = true ∧
    (saferotp_read_single_value_rbit3 no_hardware zero_shadow 0x100 zero_votes).2.1
      = 0xFFFFFFFF ∧
    (saferotp_read_single_value_rbit8 no_hardware zero_shadow 0x100 zero_votes).1 = true ∧
    (saferotp_read_single_value_rbit8 no_hardware zero_shadow 0x100 zero_votes).2.1
      = 0xFFFFFFFF ∧
    (∀ k, k < 24 → (n_of_m_votes shadow_rbit3_votes_0xFF 0x100 3 k ≥ 2 ↔
      (0x0000FF : Nat).testBit k = true)) ∧
    (saferotp_read_single_value_rbit3 no_hardware shadow_rbit3_votes_0xFF 0x100 zero_votes).1
      = true ∧
    (saferotp_read_single_value_rbit3 no_hardware shadow_rbit3_votes_0xFF 0x100 zero_votes).2.1
      = 0xFFFFFFFF := by
  refine ⟨fun H rom s start_row N M votes0 =>
      read_single_otp_value_N_of_M_out rom s start_row N M votes0,
    fun H rom s start_row N M votes0 hinit hNM hall =>
      read_single_otp_value_N_of_M_all_readable rom s hinit start_row N M votes0 hNM hall,
    by decide, by decide,
    by rw [saferotp_read_single_value_rbit8]
       exact read_single_otp_value_N_of_M_all_readable no_hardware zero_shadow rfl 0x100 3 8
         zero_votes (Or.inr ⟨rfl, rfl⟩) (by decide),
    by rw [saferotp_read_single_value_rbit8]
       exact read_single_otp_value_N_of_M_out no_hardware zero_shadow 0x100 3 8 zero_votes,
    by decide, by decide, by decide⟩

/-- C13: where the claim as stated fails.  On the shadow whose rows `0x200 .. 0x202` hold zero
and whose rows `0x203 .. 0x207` are error rows, exactly 3 of the 8 rows read successfully and
each of them is all zero, yet `read_single_rbit8 0x200` (counters starting from zero) returns
failure. -/
theorem read_rbit8_three_zero_rows_fails :
    n_of_m_successes shadow_rbit8_three_readable 0x200 8 = 3 ∧
    (∀ i, i < 8 → row_readable shadow_rbit8_three_readable ((0x200 + i) % 65536) = true →
      shadow_rbit8_three_readable.rows ((0x200 + i) % 65536) % 2 ^ 24 = 0) ∧
    (saferotp_read_single_value_rbit8 no_hardware shadow_rbit8_three_readable 0x200
      zero_votes).1 = false := by
  refine ⟨by decide, by decide, by decide⟩

/-- C13, as amended: on an initialized shadow, with the vote counters starting from zero, a
2-of-3 read in which exactly 2 of the 3 rows read successfully and every successfully read row
has all 24 data bits zero returns success; a 3-of-8 read in which exactly 3 of the 8 rows read
successfully and every one of them is all zero returns failure, the 5 failed reads being
enough to reach 3 votes. -/
theorem n_of_m_read_exactly_N_zero_rows {H : Type} (rom : Bootrom H) (s : OtpState H)
    (hinit : s.initialized = true) (start_row : Nat) :
    (n_of_m_successes s start_row 3 = 2 →
      (∀ i, i < 3 → row_readable s ((start_row + i) % 65536) = true →
        s.rows ((start_row + i) % 65536) % 2 ^ 24 = 0) →
      (saferotp_read_single_value_rbit3 rom s start_row zero_votes).1 = true) ∧
    (n_of_m_successes s start_row 8 = 3 →
      (∀ i, i < 8 → row_readable s ((start_row + i) % 65536) = true →
        s.rows ((start_row + i) % 65536) % 2 ^ 24 = 0) →
      (saferotp_read_single_value_rbit8 rom s start_row zero_votes).1 = false) := by
  constructor
  · intro hS hzero
    have hF : n_of_m_failures s start_row 3 = 1 := by
      have := n_of_m_successes_add_failures s start_row 3
      omega
    rw [saferotp_read_single_value_rbit3,
      read_single_otp_value_N_of_M_shadow_ok_iff rom s hinit start_row 2 3 zero_votes
        (Or.inl ⟨rfl, rfl⟩)]
    refine ⟨by omega, fun k hk => ?_⟩
    rw [n_of_m_votes_eq_zero s start_row 3 k hk hzero, hF]
    right
    simp [zero_votes]
  · intro hS hzero
    have hF : n_of_m_failures s start_row 8 = 5 := by
      have := n_of_m_successes_add_failures s start_row 8
      omega
    cases hres : (saferotp_read_single_value_rbit8 rom s start_row zero_votes).1
    · rfl
    · exfalso
      rw [saferotp_read_single_value_rbit8,
        read_single_otp_value_N_of_M_shadow_ok_iff rom s hinit start_row 3 8 zero_votes
          (Or.inr ⟨rfl, rfl⟩)] at hres
      have h0 := hres.2 0 (by decide)
      rw [n_of_m_votes_eq_zero s start_row 8 0 (by decide) hzero, hF] at h0
      simp [zero_votes] at h0

theorem n_of_m_read_exactly_N_zero_rows_witness :
    (saferotp_read_single_value_rbit3 no_hardware shadow_row_0x101_error 0x100 zero_votes).1
      = true ∧
    (saferotp_read_single_value_rbit8 no_hardware shadow_rbit8_three_readable 0x200
      zero_votes).1 = false :=
  ⟨(n_of_m_read_exactly_N_zero_rows no_hardware shadow_row_0x101_error rfl 0x100).1
      (by decide) (by decide),
   (n_of_m_read_exactly_N_zero_rows no_hardware shadow_rbit8_three_readable rfl 0x200).2
      (by decide) (by decide)⟩

/-- C14: the code, evaluated where the claim fails.  On every initialized shadow whose rows
`0x100` and `0x102` hold zero and whose row `0x101` is an error row,
`write_single_rbit3 0x100 0x0000FF` returns failure and leaves the state unchanged: its first
voting read hands back `0xFFFFFFFF` as the old voted bits, so the "cannot unset" test refuses
before any row is written.  On the shadow where row `0x101` holds `0xFFFFFFFF`: the voting
read succeeds with `0xFFFFFFFF`, the write fails, no raw write is issued and rows `0x100` and
`0x102` still hold zero. -/
theorem write_rbit3_one_bad_row_fails :
    (∀ (H : Type) (rom : Bootrom H) (s : OtpState H) (votes0 votes1 : Nat → Nat),
      s.initialized = true → s.rows 0x100 = 0 → is_error (s.rows 0x101) = true →
      s.rows 0x102 = 0 →
      saferotp_write_single_value_rbit3 rom s 0x100 0x0000FF votes0 votes1 = (false, s)) ∧
    (saferotp_read_single_value_rbit3 no_hardware shadow_row_0x101_error 0x100 zero_votes).1
      = true ∧
    (saferotp_read_single_value_rbit3 no_hardware shadow_row_0x101_error 0x100 zero_votes).2.1
      = 0xFFFFFFFF ∧
    (saferotp_write_single_value_rbit3 no_hardware shadow_row_0x101_error 0x100 0x0000FF
      zero_votes zero_votes).1 = false ∧
    (saferotp_write_single_value_rbit3 no_hardware shadow_row_0x101_error 0x100 0x0000FF
      zero_votes zero_votes).2.raw_writes = [] ∧
    (saferotp_write_single_value_rbit3 no_hardware shadow_row_0x101_error 0x100 0x0000FF
      zero_votes zero_votes).2.rows 0x100 = 0 ∧
    (saferotp_write_single_value_rbit3 no_hardware shadow_row_0x101_error 0x100 0x0000FF
      zero_votes zero_votes).2.rows 0x102 = 0 := by
  refine ⟨?_, by decide, by decide, by decide, by decide, by decide, by decide⟩
  intro H rom s votes0 votes1 hinit _ _ _
  rw [saferotp_write_single_value_rbit3,
    write_single_otp_value_N_of_M_fails rom s 0x100 2 3 0x0000FF votes0 votes1 (by norm_num),
    read_single_otp_value_N_of_M_state rom s hinit]

/-- C15: the code, evaluated where the claim fails.  For every 24-bit value, on every
initialized shadow and whatever the uninitialized counters held, `write_single_rbit3` and
`write_single_rbit8` return failure and leave the state unchanged, because the voting read
hands back `0xFFFFFFFF` as the old voted bits.  On the all-zero shadow, where all rows are
readable and nothing is voted set, `write_single_rbit3 0x100 0x0000FF` fails and writes
nothing. -/
theorem write_single_otp_value_N_of_M_never_succeeds :
    (∀ (H : Type) (rom : Bootrom H) (s : OtpState H) (start_row v : Nat)
      (votes0 votes1 : Nat → Nat), s.initialized = true → v < 2 ^ 24 →
      saferotp_write_single_value_rbit3 rom s start_row v votes0 votes1 = (false, s) ∧
      saferotp_write_single_value_rbit8 rom s start_row v votes0 votes1 = (false, s)) ∧
    n_of_m_successes zero_shadow 0x100 3 = 3 ∧
    (saferotp_write_single_value_rbit3 no_hardware zero_shadow 0x100 0x0000FF
      zero_votes zero_votes).1 = false ∧
    (saferotp_write_single_value_rbit3 no_hardware zero_shadow 0x100 0x0000FF
      zero_votes zero_votes).2.raw_writes = [] ∧
    (saferotp_write_single_value_rbit3 no_hardware zero_shadow 0x100 0x0000FF
      zero_votes zero_votes).2.rows 0x100 = 0 := by
  refine ⟨?_, by decide, by decide, by decide, by decide⟩
  intro H rom s start_row v votes0 votes1 hinit hv
  constructor
  · rw [saferotp_write_single_value_rbit3,
      write_single_otp_value_N_of_M_fails rom s start_row 2 3 v votes0 votes1 hv,
      read_single_otp_value_N_of_M_state rom s hinit]
  · rw [saferotp_write_single_value_rbit8,
      write_single_otp_value_N_of_M_fails rom s start_row 3 8 v votes0 votes1 hv,
      read_single_otp_value_N_of_M_state rom s hinit]

/-- C16: monotonicity refusal through the public raw write.  On an initialized shadow, for
every in-range row with the error flag clear holding `E` and every 32-bit word `W` with
`E & ~W != 0`, `saferotp_write_single_value_raw_unsafe row W` returns failure and the state
is unchanged. -/
theorem saferotp_write_single_value_raw_unsafe_monotonic {H : Type} (rom : Bootrom H)
    (s : OtpState H) (hinit : s.initialized = true) (row W : Nat) (hrow : row < 4096)
    (herr : is_error (s.rows row) = false) (hW : W < 2 ^ 32)
    (hbits : s.rows row &&& (0xFFFFFFFF ^^^ W) ≠ 0) :
    saferotp_write_single_value_raw_unsafe rom s row W = (false, s) :=
  write_single_otp_raw_row_refuses rom s hinit row W hrow herr hW hbits

theorem saferotp_write_single_value_raw_unsafe_monotonic_witness :
    ( saferotp_write_single_value_raw_unsafe no_hardware
      (virt_override_restore zero_shadow 0x030 (fun _ => 0x000001) 4).2 0x030 0x000002).1 = false ∧
    ( saferotp_write_single_value_raw_unsafe no_hardware
      (virt_override_restore zero_shadow 0x030 (fun _ => 0x000001) 4).2 0x030 0x000002).2.rows 0x030
        = 0x000001 := by
  have h := saferotp_write_single_value_raw_unsafe_monotonic no_hardware
    (virt_override_restore zero_shadow 0x030 (fun _ => 0x000001) 4).2 rfl 0x030 0x000002
    (by decide) (by decide) (by decide) (by decide)
  rw [h]
  exact ⟨rfl, by decide⟩

/-- C17: the code, evaluated where the claim fails.  On the all-zero shadow,
`saferotp_write_single_value_raw_unsafe 0x030 0x01000000` does return failure, but only from
its read-back: the word has reached `write_raw_wrapper`, row `0x030` now holds `0x01000000`
and is flagged as an error row.  The same happens on every initialized shadow for every
readable row and every word with a nonzero upper byte that contains the bits of the row.  The
multi-row sibling `saferotp_write_data_raw_unsafe` rejects the same word before any write. -/
theorem saferotp_write_single_value_raw_unsafe_top_byte :
    (∀ (s : OtpState Unit) (row W : Nat), s.initialized = true → row < 4096 →
      is_error (s.rows row) = false → s.rows row < 2 ^ 32 → is_error W = true →
      s.rows row ||| W = W →
      ( saferotp_write_single_value_raw_unsafe no_hardware s row W).2.rows row = W) ∧
    ( saferotp_write_single_value_raw_unsafe no_hardware zero_shadow 0x030 0x01000000).1 = false ∧
    ( saferotp_write_single_value_raw_unsafe no_hardware zero_shadow 0x030 0x01000000).2.raw_writes
      = [(0x030, [0x01000000])] ∧
    ( saferotp_write_single_value_raw_unsafe no_hardware zero_shadow 0x030 0x01000000).2.rows 0x030
      = 0x01000000 ∧
    is_error (( saferotp_write_single_value_raw_unsafe no_hardware zero_shadow 0x030
      0x01000000).2.rows 0x030) = true ∧
    ( saferotp_write_data_raw_unsafe no_hardware zero_shadow 0x030 (fun _ => 0x01000000) 4).1
      = false ∧
    ( saferotp_write_data_raw_unsafe no_hardware zero_shadow 0x030
      (fun _ => 0x01000000) 4).2.raw_writes = [] ∧
    ( saferotp_write_data_raw_unsafe no_hardware zero_shadow 0x030
      (fun _ => 0x01000000) 4).2.rows 0x030 = 0 :=
  ⟨fun s row W hinit hrow herr hE htop hsup => by
      rw [ saferotp_write_single_value_raw_unsafe,
        write_single_otp_raw_row_top_byte no_hardware s hinit row W hrow herr hE htop hsup]
      exact Function.update_same _ _ _,
    by decide, by decide, by decide, by decide, by decide, by decide, by decide⟩

/-- C18: `saferotp_write_data_raw_unsafe start_row data n` returns failure and leaves the
state unchanged, so no shadow row is modified, whenever `n` is 0, `n` is not a multiple of 4,
or one of the `n / 4` input words has a nonzero upper byte, wherever in the buffer. -/
theorem saferotp_write_data_raw_unsafe_rejects {H : Type} (rom : Bootrom H) (s : OtpState H)
    (start_row : Nat) (data : Nat → Nat) (n : Nat)
    (h : n = 0 ∨ n % 4 ≠ 0 ∨ ∃ i, i < n / 4 ∧ as_bytes (data i) 3 ≠ 0) :
    saferotp_write_data_raw_unsafe rom s start_row data n = (false, s) := by
  unfold saferotp_write_data_raw_unsafe
  by_cases h0 : n = 0
  · rw [if_pos h0]
  · rw [if_neg h0]
    by_cases h4 : n % 4 ≠ 0
    · rw [if_pos h4]
    · rw [if_neg h4]
      rcases h with h | h | ⟨i, hi, hb⟩
      · exact absurd h h0
      · exact absurd h h4
      · have hchk : raw_words_top_byte_check data (n / 4) 0 = false := by
          cases hc : raw_words_top_byte_check data (n / 4) 0
          · rfl
          · have := (raw_words_top_byte_check_iff data (n / 4) 0).1 hc i (Nat.zero_le i)
              (by omega)
            simp only [is_error, bne_eq_false_iff_eq, beq_iff_eq] at this
            exact absurd this hb
        simp [hchk]

theorem saferotp_write_data_raw_unsafe_rejects_witness :
    ( saferotp_write_data_raw_unsafe no_hardware zero_shadow 0x030
      (fun i => if i = 2 then 0x80000001 else 0x000001) 12).1 = false ∧
    ( saferotp_write_data_raw_unsafe no_hardware zero_shadow 0x030
      (fun i => if i = 2 then 0x80000001 else 0x000001) 12).2.rows 0x030 = 0 := by
  have h := saferotp_write_data_raw_unsafe_rejects no_hardware zero_shadow 0x030
    (fun i => if i = 2 then 0x80000001 else 0x000001) 12
    (Or.inr (Or.inr ⟨2, by decide, by decide⟩))
  rw [h]
  exact ⟨rfl, by decide⟩

/-- C19: error stickiness.  On an initialized shadow, for a row `r` whose error flag is set:
every raw-facade read and every raw-facade write whose range covers `r` returns failure; no
raw-facade write at all changes the word stored in `r`; and `virt_override_restore` over `r`
succeeds and replaces the word. -/
theorem error_row_is_sticky {H : Type} (rom : Bootrom H) (s : OtpState H)
    (hinit : s.initialized = true) (r : Nat) (herr : is_error (s.rows r) = true) :
    (∀ (start : Nat) (buf : Nat → Nat) (size : Nat), start ≤ r → r < start + size / 4 →
      (read_raw_wrapper rom s start buf size).1 = false ∧
      (write_raw_wrapper rom s start buf size).1 = false) ∧
    (∀ (start : Nat) (buf : Nat → Nat) (size : Nat),
      (write_raw_wrapper rom s start buf size).2.rows r = s.rows r) ∧
    (r < 4096 → ∀ w : Nat,
      (virt_override_restore s r (fun _ => w) 4).1 = true ∧
      (virt_override_restore s r (fun _ => w) 4).2.rows r = w) := by
  refine ⟨?_, ?_, ?_⟩
  · intro start buf size h1 h2
    have hr : r = start + (r - start) := by omega
    constructor
    · cases hres : (read_raw_wrapper rom s start buf size).1
      · rfl
      · exfalso
        by_cases hv : is_valid_otp_range_raw start size = true
        · by_cases h4 : size % 4 ≠ 0
          · simp [read_raw_wrapper, hv, h4] at hres
          · simp only [read_raw_wrapper, virt_read_raw_otp_wrapper, hv, hinit, h4, if_false,
              Bool.not_true, Bool.false_eq_true, if_true] at hres
            have := (virt_read_loop_ok_iff s.rows start (size / 4) 0 buf).1 hres (r - start)
              (Nat.zero_le _) (by omega)
            rw [← hr, herr] at this
            exact Bool.noConfusion this
        · simp [read_raw_wrapper, hv] at hres
    · cases hres : (write_raw_wrapper rom s start buf size).1
      · rfl
      · exfalso
        by_cases hv : is_valid_otp_range_raw start size = true
        · simp only [write_raw_wrapper, virt_write_raw_otp_wrapper, hv, hinit, if_false,
            Bool.not_true, Bool.false_eq_true, if_true] at hres
          have := ((virt_write_loop_ok_iff start buf (size / 4) 0 s.rows).1 hres (r - start)
            (Nat.zero_le _) (by omega)).1
          rw [← hr, herr] at this
          exact Bool.noConfusion this
        · simp [write_raw_wrapper, hv] at hres
  · intro start buf size
    have h := write_raw_wrapper_shadow_row rom s hinit ⟨start, buf, size⟩ r
    simp only at h
    rw [h]
    have hnone : accepted_word s.rows ⟨start, buf, size⟩ r = none := by
      unfold accepted_word
      rw [if_neg]
      rintro ⟨h1, h2⟩
      have h3 := ((accepts_iff _ _ _).1 h2).2.2 (r - start) (Nat.zero_le _) (le_refl _)
      simp only at h3 h1
      have hr : start + (r - start) = r := by omega
      rw [hr, herr] at h3
      exact Bool.noConfusion h3.1
    rw [hnone]
  · intro hr w
    simp [virt_override_restore, is_valid_otp_range_raw_single, hr]

theorem error_row_is_sticky_witness :
    (read_raw_wrapper no_hardware
      (virt_override_restore zero_shadow 0x101 (fun _ => 0xFFFFFFFF) 4).2
      0x100 (fun _ => 0) 12).1 = false ∧
    (write_raw_wrapper no_hardware
      (virt_override_restore zero_shadow 0x101 (fun _ => 0xFFFFFFFF) 4).2
      0x100 (fun _ => 0x0000FF) 12).1 = false ∧
    (write_raw_wrapper no_hardware
      (virt_override_restore zero_shadow 0x101 (fun _ => 0xFFFFFFFF) 4).2
      0x100 (fun _ => 0x0000FF) 12).2.rows 0x101 = 0xFFFFFFFF := by
  have h := error_row_is_sticky no_hardware
    (virt_override_restore zero_shadow 0x101 (fun _ => 0xFFFFFFFF) 4).2 rfl 0x101 (by decide)
  exact ⟨(h.1 0x100 (fun _ => 0) 12 (by decide) (by decide)).1,
    (h.1 0x100 (fun _ => 0x0000FF) 12 (by decide) (by decide)).2,
    (h.2.1 0x100 (fun _ => 0x0000FF) 12).trans (by decide)⟩

/-- C20: partial effect of a failed multi-row shadow write.  On an initialized shadow, if a
valid-range write of the words `buf 0 .. buf (n-1)` starting at row `start` is first refused
at index `k` (every row before it is accepted; row `start + k` is error-flagged or would lose
a bit), then the call returns failure, rows `start .. start + k - 1` hold `buf 0 .. buf (k-1)`,
and every other row, from `start + k` on and outside the range, is unchanged. -/
theorem virt_write_partial_effect {H : Type} (s : OtpState H) (hinit : s.initialized = true)
    (start : Nat) (buf : Nat → Nat) (size k : Nat)
    (hvalid : is_valid_otp_range_raw start size = true) (hk : k < size / 4)
    (hprev : ∀ j, j < k →
      (is_error (s.rows (start + j)) = false ∧ s.rows (start + j) ||| buf j = buf j))
    (hrefused : is_error (s.rows (start + k)) = true ∨ s.rows (start + k) ||| buf k ≠ buf k) :
    (virt_write_raw_otp_wrapper s start buf size).1 = false ∧
    (∀ j, j < k → (virt_write_raw_otp_wrapper s start buf size).2.rows (start + j) = buf j) ∧
    (∀ r, (r < start ∨ start + k ≤ r) →
      (virt_write_raw_otp_wrapper s start buf size).2.rows r = s.rows r) := by
  have hnotk : ¬ (is_error (s.rows (start + k)) = false ∧
      s.rows (start + k) ||| buf k = buf k) := by
    rintro ⟨h1, h2⟩
    rcases hrefused with h | h
    · rw [h] at h1; exact Bool.noConfusion h1
    · exact h h2
  simp only [virt_write_raw_otp_wrapper, hinit, hvalid, Bool.not_true, Bool.false_eq_true,
    if_false]
  refine ⟨?_, ?_, ?_⟩
  · cases hres : (virt_write_loop start buf (size / 4) 0 s.rows).1
    · rfl
    · exact absurd ((virt_write_loop_ok_iff start buf (size / 4) 0 s.rows).1 hres k
        (Nat.zero_le _) (by omega)) hnotk
  · intro j hj
    rw [virt_write_loop_row start buf (size / 4) 0 s.rows j (Nat.zero_le _) (by omega), if_pos]
    intro i _ hi
    exact hprev i (by omega)
  · intro r hr
    by_cases hin : start ≤ r ∧ r < start + size / 4
    · have hreq : r = start + (r - start) := by omega
      rw [hreq, virt_write_loop_row start buf (size / 4) 0 s.rows (r - start) (Nat.zero_le _)
        (by omega), if_neg]
      intro h
      exact hnotk (h k (Nat.zero_le _) (by omega))
    · exact virt_write_loop_frame start buf (size / 4) 0 s.rows r (by omega)

theorem virt_write_partial_effect_witness :
    (virt_write_raw_otp_wrapper
      (virt_override_restore zero_shadow 0x102 (fun _ => 0x000001) 4).2
      0x100 (fun i => 0x10 + 2 * i) 16).1 = false ∧
    (virt_write_raw_otp_wrapper
      (virt_override_restore zero_shadow 0x102 (fun _ => 0x000001) 4).2
      0x100 (fun i => 0x10 + 2 * i) 16).2.rows 0x101 = 0x12 ∧
    (virt_write_raw_otp_wrapper
      (virt_override_restore zero_shadow 0x102 (fun _ => 0x000001) 4).2
      0x100 (fun i => 0x10 + 2 * i) 16).2.rows 0x103 = 0 := by
  have h := virt_write_partial_effect
    (virt_override_restore zero_shadow 0x102 (fun _ => 0x000001) 4).2 rfl
    0x100 (fun i => 0x10 + 2 * i) 16 2 (by decide) (by decide) (by decide)
    (Or.inr (by decide))
  exact ⟨h.1, (h.2.1 1 (by decide)).trans (by decide), (h.2.2 0x103 (Or.inr (by decide))).trans
    (by decide)⟩

/-- C21: restore bypass and save round trip.  For a valid range, whatever the state (rows that
would lose bits, error rows, initialized or not), the restore succeeds, changes no row outside
`[start_row, start_row + n / 4)` and nothing else of the state; a save of the same range then
succeeds and returns the words of `buf`, byte for byte, leaving the rest of `out` alone.  For an
invalid range both return failure and change nothing. -/
theorem virtualization_restore_then_save {H : Type} (s : OtpState H) (start_row n : Nat)
    (buf out : Nat → Nat) :
    (is_valid_otp_range_raw start_row n = true →
      (saferotp_virtualization_restore s start_row buf n).1 = true ∧
      (∀ r, ¬ (start_row ≤ r ∧ r < start_row + n / 4) →
        (saferotp_virtualization_restore s start_row buf n).2.rows r = s.rows r) ∧
      (saferotp_virtualization_restore s start_row buf n).2.initialized = s.initialized ∧
      (saferotp_virtualization_restore s start_row buf n).2.hw = s.hw ∧
      (saferotp_virtualization_restore s start_row buf n).2.raw_writes = s.raw_writes ∧
      (saferotp_virtualization_save (saferotp_virtualization_restore s start_row buf n).2
        start_row out n).1 = true ∧
      (∀ i, i < n / 4 →
        (saferotp_virtualization_save (saferotp_virtualization_restore s start_row buf n).2
          start_row out n).2 i = buf i) ∧
      (∀ j, j < n →
        as_bytes ((saferotp_virtualization_save
          (saferotp_virtualization_restore s start_row buf n).2 start_row out n).2 (j / 4))
          (j % 4) = as_bytes (buf (j / 4)) (j % 4)) ∧
      (∀ i, n / 4 ≤ i →
        (saferotp_virtualization_save (saferotp_virtualization_restore s start_row buf n).2
          start_row out n).2 i = out i)) ∧
    (is_valid_otp_range_raw start_row n = false →
      saferotp_virtualization_restore s start_row buf n = (false, s) ∧
      saferotp_virtualization_save s start_row out n = (false, out)) := by
  constructor
  · intro hv
    have hn : n % 4 = 0 := ((is_valid_otp_range_raw_envelope start_row n).1 hv).1
    simp only [saferotp_virtualization_restore, saferotp_virtualization_save,
      virt_override_restore, virt_override_save, hv, Bool.not_true, Bool.false_eq_true, if_false]
    have hw : ∀ i, i < n / 4 →
        (if i < n / 4 then
          (if start_row ≤ start_row + i ∧ start_row + i < start_row + n / 4 then
            buf (start_row + i - start_row) else s.rows (start_row + i))
        else out i) = buf i := by
      intro i hi
      rw [if_pos hi, if_pos ⟨Nat.le_add_right _ _, by omega⟩, Nat.add_sub_cancel_left]
    refine ⟨trivial, ?_, trivial, trivial, trivial, trivial, hw, ?_, ?_⟩
    · intro r hr
      exact if_neg hr
    · intro j hj
      rw [hw (j / 4) (by omega)]
    · intro i hi
      exact if_neg (by omega)
  · intro hv
    simp [saferotp_virtualization_restore, saferotp_virtualization_save,
      virt_override_restore, virt_override_save, hv]

theorem virtualization_restore_then_save_witness :
    is_valid_otp_range_raw 0x100 8 = true ∧
    (saferotp_virtualization_restore shadow_row_0x101_error 0x100 (fun i => 5 + i) 8).1 = true ∧
    (saferotp_virtualization_save
      (saferotp_virtualization_restore shadow_row_0x101_error 0x100 (fun i => 5 + i) 8).2
      0x100 (fun _ => 0) 8).2 1 = 6 := by
  have h := (virtualization_restore_then_save shadow_row_0x101_error 0x100 8 (fun i => 5 + i)
    (fun _ => 0)).1 (by decide)
  exact ⟨by decide, h.1, h.2.2.2.2.2.2.1 1 (by decide)⟩

/-- C22: shadow initialization.  On an uninitialized shadow, for every mask and every primitive
`rom`, `virt_initialize` returns success and marks the shadow initialized; every row of a page
whose mask bit is set holds 0 with the error flag clear; every other row `r`, read from the
hardware state reached after the rows before it, holds the word the primitive returned when
its read succeeded and `0xFFFFFFFF`, with the error flag set, when it failed; the hardware
state is the one after the last read and the call log is untouched. -/
theorem virt_initialize_primes_shadow {H : Type} (rom : Bootrom H) (s : OtpState H)
    (mask : Nat) (huninit : s.initialized = false) :
    ( virt_initialize rom s mask).1 = true ∧
    (saferotp_virtualization_init_pages rom s mask).2 = ( virt_initialize rom s mask).2 ∧
    ( virt_initialize rom s mask).2.initialized = true ∧
    (∀ r, r < 4096 → mask.testBit (r / 64) = true →
      ( virt_initialize rom s mask).2.rows r = 0 ∧
      is_error (( virt_initialize rom s mask).2.rows r) = false) ∧
    (∀ r, r < 4096 → mask.testBit (r / 64) = false →
      (rom.rom_func_otp_access (init_hw_before rom mask s.hw r) (fun _ => 0) 4 r false).1
        = true →
      ( virt_initialize rom s mask).2.rows r =
        (rom.rom_func_otp_access (init_hw_before rom mask s.hw r) (fun _ => 0) 4 r
          false).2.1 0) ∧
    (∀ r, r < 4096 → mask.testBit (r / 64) = false →
      (rom.rom_func_otp_access (init_hw_before rom mask s.hw r) (fun _ => 0) 4 r false).1
        = false →
      ( virt_initialize rom s mask).2.rows r = 0xFFFFFFFF ∧
      is_error (( virt_initialize rom s mask).2.rows r) = true) ∧
    ( virt_initialize rom s mask).2.hw = init_hw_before rom mask s.hw 4096 ∧
    ( virt_initialize rom s mask).2.raw_writes = s.raw_writes := by
  have hinv := virt_initialize_pages_inv rom mask s.hw 64 0
    { s with rows := fun _ => 0 } rfl (fun q hq => absurd hq (by omega)) (fun _ _ => rfl)
  have h4096 : (0 + 64) * 64 = 4096 := by norm_num
  rw [h4096] at hinv
  have hunf : virt_initialize rom s mask =
      (true, { virt_initialize_pages rom mask 64 0 { s with rows := fun _ => 0 } with
        initialized := true }) := by
    rw [ virt_initialize, huninit]
    rfl
  obtain ⟨hhw, hrows, -, -, hlog⟩ := hinv
  have hpub : (saferotp_virtualization_init_pages rom s mask).2 =
      ( virt_initialize rom s mask).2 := rfl
  have hrow : ∀ r, r < 4096 →
      ( virt_initialize rom s mask).2.rows r = init_expected_row rom mask s.hw r := by
    intro r hr
    rw [hunf]
    exact hrows r hr
  refine ⟨?_, hpub, ?_, ?_, ?_, ?_, ?_, ?_⟩
  · rw [hunf]
  · rw [hunf]
  · intro r hr hm
    rw [hrow r hr, init_expected_row, if_pos hm]
    exact ⟨rfl, rfl⟩
  · intro r hr hm hok
    rw [hrow r hr, init_expected_row, hm, hok]
    simp
  · intro r hr hm hok
    rw [hrow r hr, init_expected_row, hm, hok]
    exact ⟨by simp, by simp; decide⟩
  · rw [hunf]
    exact hhw
  · rw [hunf]
    exact hlog

theorem virt_initialize_primes_shadow_witness :
    blank_state.initialized = false ∧
    ( virt_initialize even_rows_hardware blank_state 1).1 = true ∧
    ( virt_initialize even_rows_hardware blank_state 1).2.initialized = true ∧
    ( virt_initialize even_rows_hardware blank_state 1).2.rows 5 = 0 ∧
    ( virt_initialize even_rows_hardware blank_state 1).2.rows 64 = 0x140 ∧
    ( virt_initialize even_rows_hardware blank_state 1).2.rows 65 = 0xFFFFFFFF := by
  have h := virt_initialize_primes_shadow even_rows_hardware blank_state 1 rfl
  exact ⟨rfl, h.1, h.2.2.1, (h.2.2.2.1 5 (by decide) (by decide)).1,
    (h.2.2.2.2.1 64 (by decide) (by decide) rfl).trans rfl,
    (h.2.2.2.2.2.1 65 (by decide) (by decide) rfl).1⟩

/-- C23: the public `saferotp_virtualization_init_pages` never reports the rejection.  On an
initialized shadow `virt_initialize` returns `false`, yet the public function returns `true`,
as it does for every state and mask. -/
theorem saferotp_virtualization_init_pages_reports_success :
    ( virt_initialize no_hardware zero_shadow 0).1 = false ∧
    (saferotp_virtualization_init_pages no_hardware zero_shadow 0).1 = true ∧
    ∀ (H : Type) (rom : Bootrom H) (s : OtpState H) (mask : Nat),
      (saferotp_virtualization_init_pages rom s mask).1 = true :=
  ⟨rfl, rfl, fun _ _ _ _ => rfl⟩

/-- C24: initializing an already initialized shadow changes nothing.  For every primitive and
mask, `virt_initialize` returns `false` with the very same state, rows, flag, hardware state
and call log, and so does the public function; since this holds for every primitive, none of
its reads took place. -/
theorem virt_initialize_twice_unchanged {H : Type} (rom : Bootrom H) (s : OtpState H)
    (mask : Nat) (hinit : s.initialized = true) :
    virt_initialize rom s mask = (false, s) ∧
    (saferotp_virtualization_init_pages rom s mask).2 = s := by
  simp [saferotp_virtualization_init_pages, virt_initialize, hinit]

theorem virt_initialize_twice_unchanged_witness :
    zero_shadow_counting.initialized = true ∧
    ( virt_initialize counting_hardware zero_shadow_counting 0).2.hw = 0 ∧
    (saferotp_virtualization_init_pages counting_hardware zero_shadow_counting 0).2 =
      zero_shadow_counting := by
  have h := virt_initialize_twice_unchanged counting_hardware zero_shadow_counting 0 rfl
  exact ⟨rfl, by rw [h.1]; rfl, h.2⟩

/-- C25: `saferotp_write_data_ecc` makes the planned single-row ECC writes in order.  For a
16-bit `start_row`, the call is the run, stopping at and reporting the first failure, of the
writes of `data[2i] | data[2i+1] << 8` to row `start_row + i` for `i < n / 2`, followed when `n`
is odd by the write of `data[n-1]` to row `start_row + n / 2`; the rows of the plan are
`start_row, start_row + 1, ...` in ascending order. -/
theorem saferotp_write_data_ecc_runs_plan {H : Type} (rom : Bootrom H) (codec : EccCodec)
    (s : OtpState H) (start_row : Nat) (data : Nat → Nat) (n : Nat)
    (hstart : start_row < 65536) :
    saferotp_write_data_ecc rom codec s start_row data n =
      run_ecc_writes rom codec (ecc_write_plan start_row data n) s ∧
    (ecc_write_plan start_row data n).map Prod.fst =
      (List.range ((n + 1) / 2)).map (fun i => start_row + i) := by
  constructor
  · have hrun := write_data_ecc_loop_eq_run rom codec start_row data
      (if n % 2 = 1 then [(start_row + n / 2, data (n - 1))] else []) (n / 2) 0 s
      (by omega)
    have hrows := write_data_ecc_loop_ok_rows rom codec start_row data (n / 2) 0 s (by omega)
    rw [ecc_write_plan, List.range_eq_range', ← hrun]
    simp only [saferotp_write_data_ecc, saferotp_write_single_value_ecc]
    cases hl : (write_data_ecc_loop rom codec start_row data (n / 2) 0 s).1
    · simp
    · have hlt : start_row + n / 2 < 65536 := by
        rcases hrows hl with h | h
        · rw [h]; omega
        · omega
      by_cases hodd : n % 2 = 1
      · simp [hodd, run_ecc_writes, Nat.mod_eq_of_lt hlt]
      · have : n % 2 = 0 := by omega
        simp [this, run_ecc_writes]
  · rw [ecc_write_plan, List.map_append, List.map_map]
    by_cases hodd : n % 2 = 1
    · have : (n + 1) / 2 = n / 2 + 1 := by omega
      rw [if_pos hodd, this, List.range_succ, List.map_append]
      rfl
    · have : (n + 1) / 2 = n / 2 := by omega
      rw [if_neg hodd, this]
      simp [Function.comp_def]

theorem saferotp_write_data_ecc_runs_plan_witness :
    (0x300 : Nat) < 65536 ∧
    ecc_write_plan 0x300 bytes_AA_BB_CC 3 = [(0x300, 0xBBAA), (0x301, 0x00CC)] ∧
    saferotp_write_data_ecc no_hardware plain_codec zero_shadow 0x300 bytes_AA_BB_CC 3 =
      run_ecc_writes no_hardware plain_codec [(0x300, 0xBBAA), (0x301, 0x00CC)] zero_shadow ∧
    (saferotp_write_data_ecc no_hardware plain_codec zero_shadow 0x300 bytes_AA_BB_CC 3).1 =
      true ∧
    (saferotp_write_data_ecc no_hardware plain_codec zero_shadow 0x300 bytes_AA_BB_CC
      3).2.raw_writes = [(0x301, [0x00CC]), (0x300, [0xBBAA])] := by
  have h := saferotp_write_data_ecc_runs_plan no_hardware plain_codec zero_shadow 0x300
    bytes_AA_BB_CC 3 (by decide)
  have hp : ecc_write_plan 0x300 bytes_AA_BB_CC 3 = [(0x300, 0xBBAA), (0x301, 0x00CC)] := by
    decide
  exact ⟨by decide, hp, hp ▸ h.1, by decide, by decide⟩

/-- C26: the ECC buffer round trip breaks where the single-row write skips its value check.
The scenario `(0x300, [0xAA, 0xBB, 0xCC], 3)` on the all-zero shadow runs as described: the
write succeeds, the read returns the three bytes and leaves `out[3]` alone.  But with row
`0x010` holding raw `0x000003`, the write of the two bytes `[0x02, 0x00]` succeeds, and the
read that follows succeeds with `[0x00, 0x00]`. -/
theorem saferotp_data_ecc_round_trip_breaks :
    (saferotp_write_data_ecc no_hardware plain_codec zero_shadow 0x300 bytes_AA_BB_CC 3).1 =
      true ∧
    (saferotp_read_data_ecc no_hardware plain_codec
      (saferotp_write_data_ecc no_hardware plain_codec zero_shadow 0x300 bytes_AA_BB_CC 3).2
      0x300 bytes_0x55 3).1 = true ∧
    (List.range 4).map (saferotp_read_data_ecc no_hardware plain_codec
      (saferotp_write_data_ecc no_hardware plain_codec zero_shadow 0x300 bytes_AA_BB_CC 3).2
      0x300 bytes_0x55 3).2.1 = [0xAA, 0xBB, 0xCC, 0x55] ∧
    (saferotp_write_data_ecc no_hardware plain_codec shadow_row_0x010_holds_3 0x010
      bytes_02_00 2).1 = true ∧
    (saferotp_read_data_ecc no_hardware plain_codec
      (saferotp_write_data_ecc no_hardware plain_codec shadow_row_0x010_holds_3 0x010
        bytes_02_00 2).2 0x010 bytes_0x55 2).1 = true ∧
    (List.range 2).map (saferotp_read_data_ecc no_hardware plain_codec
      (saferotp_write_data_ecc no_hardware plain_codec shadow_row_0x010_holds_3 0x010
        bytes_02_00 2).2 0x010 bytes_0x55 2).2.1 = [0x00, 0x00] ∧
    (List.range 2).map bytes_02_00 = [0x02, 0x00] := by
  refine ⟨by decide, by decide, by decide, by decide, by decide, by decide, by decide⟩

/-- C27: `saferotp_read_data_raw_unsafe` rejects the maximum count.  The range `(0, 16384)` is
valid, the facade read of it succeeds on the all-zero shadow and returns its rows, and the
write sibling accepts the same count; yet the read function returns failure for a count of
16384 whatever the state, the start row and the buffer. -/
theorem saferotp_read_data_raw_unsafe_rejects_16384 :
    is_valid_otp_range_raw 0 16384 = true ∧
    (read_raw_wrapper no_hardware zero_shadow 0 (fun _ => 0) 16384).1 = true ∧
    ( saferotp_write_data_raw_unsafe no_hardware zero_shadow 0 (fun _ => 0) 16384).1 = true ∧
    ∀ (H : Type) (rom : Bootrom H) (s : OtpState H) (start_row : Nat) (out : Nat → Nat),
      ( saferotp_read_data_raw_unsafe rom s start_row out 16384).1 = false := by
  have hv : is_valid_otp_range_raw 0 16384 = true := by decide
  refine ⟨hv, ?_, ?_, ?_⟩
  · exact (read_raw_wrapper_shadow_all_readable no_hardware zero_shadow rfl 0 (fun _ => 0) 16384
      hv (fun _ _ => by simp [zero_shadow, is_error, as_bytes])).1
  · exact saferotp_write_data_raw_unsafe_zero_rows no_hardware zero_shadow rfl (fun _ => rfl)
      0 16384 hv
  · intro H rom s start_row out
    simp [ saferotp_read_data_raw_unsafe]

/-- C28, as stated, fails: on the all-zero initialized shadow the RBIT-3 read from row `0xFFE`
succeeds although its third row `0x1000` is outside the 4096; the RBIT-3 read from row `0xFFFF`
succeeds, its rows being `0xFFFF`, `0x0000` and `0x0001` after the cut to 16 bits; and the ECC
data write and read of zero bytes from row `0x2000` succeed. -/
theorem public_operations_succeed_out_of_range :
    (saferotp_read_single_value_rbit3 no_hardware zero_shadow 0xFFE zero_votes).1 = true ∧
    ¬ (0xFFE + 2 < 4096) ∧
    (saferotp_read_single_value_rbit3 no_hardware zero_shadow 0xFFFF zero_votes).1 = true ∧
    (saferotp_write_data_ecc no_hardware plain_codec zero_shadow 0x2000 bytes_0x55 0).1 = true ∧
    (saferotp_read_data_ecc no_hardware plain_codec zero_shadow 0x2000 bytes_0x55 0).1 = true := by
  refine ⟨by decide, by decide, by decide, by decide, by decide⟩

/-- C28, amended: what the public operations reject, in every state and with or without the
shadow.  The six single-row operations return failure for a row outside the 4096.  Restore,
save and the two raw data operations return failure for a pair that is not a valid range.
The two ECC data operations, for a 16-bit start row, return failure when at least one byte is
asked for and one of the rows `start + i`, `i < (n + 1) / 2`, is outside the 4096.  The
RBIT-3 and RBIT-8 reads and writes return failure when fewer than `N` of their `M` rows
`(start + i) mod 65536` are among the 4096, as when the whole group lies above them.  Asked
for zero bytes, the two ECC data operations address no row and return success with nothing
changed, whatever the start row. -/
theorem public_operations_reject_out_of_range {H : Type} (rom : Bootrom H) (codec : EccCodec)
    (s : OtpState H) (start n v : Nat) (buf votes0 votes1 : Nat → Nat) :
    (¬ start < 4096 →
      ( saferotp_write_single_value_raw_unsafe rom s start v).1 = false ∧
      ( saferotp_read_single_value_raw_unsafe rom s start buf).1 = false ∧
      (saferotp_write_single_value_ecc rom codec s start v).1 = false ∧
      (saferotp_read_single_value_ecc rom codec s start).1 = false ∧
      (saferotp_write_single_value_byte3x rom s start v).1 = false ∧
      (saferotp_read_single_value_byte3x rom s start).1 = false) ∧
    (is_valid_otp_range_raw start n = false →
      (saferotp_virtualization_restore s start buf n).1 = false ∧
      (saferotp_virtualization_save s start buf n).1 = false ∧
      ( saferotp_write_data_raw_unsafe rom s start buf n).1 = false ∧
      ( saferotp_read_data_raw_unsafe rom s start buf n).1 = false) ∧
    (start < 65536 → 1 ≤ n → 4096 < start + (n + 1) / 2 →
      (saferotp_write_data_ecc rom codec s start buf n).1 = false ∧
      (saferotp_read_data_ecc rom codec s start buf n).1 = false) ∧
    (n_of_m_rows_in_range start 3 < 2 →
      (saferotp_read_single_value_rbit3 rom s start votes0).1 = false ∧
      (saferotp_write_single_value_rbit3 rom s start v votes0 votes1).1 = false) ∧
    (n_of_m_rows_in_range start 8 < 3 →
      (saferotp_read_single_value_rbit8 rom s start votes0).1 = false ∧
      (saferotp_write_single_value_rbit8 rom s start v votes0 votes1).1 = false) ∧
    (∀ M, 4096 ≤ start → start + M ≤ 65536 → n_of_m_rows_in_range start M = 0) ∧
    saferotp_write_data_ecc rom codec s start buf 0 = (true, s) ∧
    saferotp_read_data_ecc rom codec s start buf 0 = (true, buf, s) := by
  refine ⟨?_, ?_, ?_, ?_, ?_, ?_, ?_, ?_⟩
  · intro hrow
    have hrd := fun b => read_raw_wrapper_row_out rom s start b hrow
    refine ⟨?_, ?_, ?_, ?_, ?_, ?_⟩
    · simp [ saferotp_write_single_value_raw_unsafe, write_single_otp_raw_row, hrd]
    · simp [ saferotp_read_single_value_raw_unsafe, hrd]
    · simp [saferotp_write_single_value_ecc, write_single_otp_ecc_row, hrd]
    · simp [saferotp_read_single_value_ecc, read_single_otp_ecc_row, hrd]
    · simp [saferotp_write_single_value_byte3x, write_otp_byte_3x, hrd]
    · simp [saferotp_read_single_value_byte3x, read_otp_byte_3x, hrd]
  · intro hv
    refine ⟨?_, ?_, ?_, ?_⟩
    · simp [saferotp_virtualization_restore, virt_override_restore, hv]
    · simp [saferotp_virtualization_save, virt_override_save, hv]
    · simp only [ saferotp_write_data_raw_unsafe, write_raw_wrapper, hv, Bool.not_false, if_true]
      split_ifs <;> rfl
    · simp only [ saferotp_read_data_raw_unsafe, read_raw_wrapper, hv, Bool.not_false, if_true]
      split_ifs <;> rfl
  · intro hstart hn hout
    constructor
    · cases hres : (saferotp_write_data_ecc rom codec s start buf n).1
      · rfl
      · exfalso
        simp only [saferotp_write_data_ecc, saferotp_write_single_value_ecc] at hres
        cases hl : (write_data_ecc_loop rom codec start buf (n / 2) 0 s).1
        · simp [hl] at hres
        · have hrows := write_data_ecc_loop_ok_rows rom codec start buf (n / 2) 0 s
            (by omega) hl
          by_cases hodd : n % 2 = 1
          · have hlt : start + n / 2 < 65536 := by
              rcases hrows with h | h
              · rw [h]; omega
              · omega
            cases hw : (write_single_otp_ecc_row rom codec
                (write_data_ecc_loop rom codec start buf (n / 2) 0 s).2
                ((start + n / 2) % 65536) (buf (n - 1))).1
            · simp [hl, hodd, hw] at hres
            · have := write_single_otp_ecc_row_ok_row_lt rom codec _ _ _ hw
              rw [Nat.mod_eq_of_lt hlt] at this
              omega
          · rcases hrows with h | h <;> omega
    · cases hres : (saferotp_read_data_ecc rom codec s start buf n).1
      · rfl
      · exfalso
        simp only [saferotp_read_data_ecc, saferotp_read_single_value_ecc] at hres
        by_cases hbig : n ≥ 0x1000 * 2
        · simp [hbig] at hres
        · rw [if_neg hbig] at hres
          cases hl : (read_data_ecc_loop rom codec start (n / 2) 0 s buf).1
          · simp [hl] at hres
          · have hrows := read_data_ecc_loop_ok_rows rom codec start (n / 2) 0 s buf
              (by omega) hl
            by_cases hodd : n % 2 = 1
            · have hlt : start + n / 2 < 65536 := by
                rcases hrows with h | h
                · rw [h]; omega
                · omega
              cases hw : (read_single_otp_ecc_row rom codec
                  (read_data_ecc_loop rom codec start (n / 2) 0 s buf).2.2
                  ((start + n / 2) % 65536)).1
              · simp [hl, hodd, hw] at hres
              · have := read_single_otp_ecc_row_ok_row_lt rom codec _ _ hw
                rw [Nat.mod_eq_of_lt hlt] at this
                omega
            · rcases hrows with h | h <;> omega
  · intro hfew
    exact ⟨read_single_otp_value_N_of_M_few_rows rom s start 2 3 votes0 hfew,
      write_single_otp_value_N_of_M_few_rows rom s start 2 3 v votes0 votes1 hfew⟩
  · intro hfew
    exact ⟨read_single_otp_value_N_of_M_few_rows rom s start 3 8 votes0 hfew,
      write_single_otp_value_N_of_M_few_rows rom s start 3 8 v votes0 votes1 hfew⟩
  · intro M hlo hhi
    rw [n_of_m_rows_in_range, List.countP_eq_zero]
    intro i hi
    have hiM : i < M := List.mem_range.1 hi
    rw [decide_eq_true_eq, Nat.mod_eq_of_lt (by omega)]
    omega
  · simp [saferotp_write_data_ecc, write_data_ecc_loop]
  · simp [saferotp_read_data_ecc, read_data_ecc_loop]

theorem public_operations_reject_out_of_range_witness :
    ( saferotp_read_single_value_raw_unsafe no_hardware zero_shadow 0x1000
      (fun _ => 0)).1 = false ∧
    (saferotp_virtualization_restore zero_shadow 0xFFF (fun _ => 0) 8).1 = false ∧
    (saferotp_write_data_ecc no_hardware plain_codec zero_shadow 0xFFF bytes_AA_BB_CC 3).1 =
      false ∧
    (saferotp_read_single_value_rbit3 no_hardware zero_shadow 0xFFF zero_votes).1 = false ∧
    (saferotp_read_single_value_rbit8 no_hardware zero_shadow 0xFFE zero_votes).1 = false ∧
    n_of_m_rows_in_range 0x1000 8 = 0 := by
  exact ⟨((public_operations_reject_out_of_range no_hardware plain_codec zero_shadow 0x1000 4 0
      (fun _ => 0) zero_votes zero_votes).1 (by decide)).2.1,
    ((public_operations_reject_out_of_range no_hardware plain_codec zero_shadow 0xFFF 8 0
      (fun _ => 0) zero_votes zero_votes).2.1 (by decide)).1,
    ((public_operations_reject_out_of_range no_hardware plain_codec zero_shadow 0xFFF 3 0
      bytes_AA_BB_CC zero_votes zero_votes).2.2.1 (by decide) (by decide) (by decide)).1,
    ((public_operations_reject_out_of_range no_hardware plain_codec zero_shadow 0xFFF 3 0
      (fun _ => 0) zero_votes zero_votes).2.2.2.1 (by decide)).1,
    ((public_operations_reject_out_of_range no_hardware plain_codec zero_shadow 0xFFE 3 0
      (fun _ => 0) zero_votes zero_votes).2.2.2.2.1 (by decide)).1,
    (public_operations_reject_out_of_range no_hardware plain_codec zero_shadow 0x1000 3 0
      (fun _ => 0) zero_votes zero_votes).2.2.2.2.2.1 8 (by decide) (by decide)⟩

/-- C29, as stated, fails: on the initialized shadow whose row `0x030` already holds
`0x01000000`, the single-row raw write of `0x01000000` to that row returns failure: the row is
an error row, so the first read fails before the words are compared. -/
theorem raw_write_of_held_error_word_fails :
    shadow_row_0x030_holds_0x01000000.initialized = true ∧
    shadow_row_0x030_holds_0x01000000.rows 0x030 = 0x01000000 ∧
    ( saferotp_write_single_value_raw_unsafe no_hardware shadow_row_0x030_holds_0x01000000
      0x030 0x01000000).1 = false := by
  refine ⟨rfl, by decide, by decide⟩

/-- C29, as amended: read after write for the single-row raw write.  On an initialized shadow,
if the write of `W` to `row` returns success, the read of `row` in the state it leaves returns
success with the value `W`; when an in-range row already holds `W` and the upper byte of `W`
is zero, the write returns success with the state unchanged, the call log included: no raw
write was issued; and when the row that holds `W` is out of range or the upper byte of `W` is
not zero, the write returns failure, again with the state unchanged. -/
theorem raw_write_then_read {H : Type} (rom : Bootrom H) (s : OtpState H)
    (hinit : s.initialized = true) (row W : Nat) (out : Nat → Nat) :
    (( saferotp_write_single_value_raw_unsafe rom s row W).1 = true →
      ( saferotp_read_single_value_raw_unsafe rom
        ( saferotp_write_single_value_raw_unsafe rom s row W).2 row out).1 = true ∧
      ( saferotp_read_single_value_raw_unsafe rom
        ( saferotp_write_single_value_raw_unsafe rom s row W).2 row out).2.1 0 = W) ∧
    (row < 4096 → is_error W = false → s.rows row = W →
      saferotp_write_single_value_raw_unsafe rom s row W = (true, s)) ∧
    ((¬ row < 4096 ∨ is_error W = true) → s.rows row = W →
      saferotp_write_single_value_raw_unsafe rom s row W = (false, s)) := by
  rw [ saferotp_write_single_value_raw_unsafe, write_single_otp_raw_row_shadow rom s hinit row W]
  refine ⟨?_, ?_, ?_⟩
  · intro hok
    by_cases hr : row < 4096 ∧ is_error (s.rows row) = false
    · rw [if_pos hr] at hok ⊢
      by_cases he : s.rows row = W
      · rw [if_pos he] at hok ⊢
        rw [ saferotp_read_single_value_raw_unsafe, read_raw_wrapper_shadow_single rom s hinit,
          if_pos hr]
        exact ⟨rfl, by simp [he]⟩
      · rw [if_neg he] at hok ⊢
        by_cases hi : s.rows row &&& (0xFFFFFFFF ^^^ W) ≠ 0
        · rw [if_pos hi] at hok
          exact Bool.noConfusion hok
        · rw [if_neg hi] at hok ⊢
          by_cases hu : s.rows row ||| W = W
          · rw [if_pos hu] at hok ⊢
            have hW : is_error W = false := by simpa using hok
            simp only []
            rw [ saferotp_read_single_value_raw_unsafe, read_raw_wrapper_shadow_single rom
                ⟨Function.update s.rows row W, s.initialized, s.hw, (row, [W]) :: s.raw_writes⟩
                hinit, if_pos ⟨hr.1, by simpa using hW⟩]
            exact ⟨rfl, by simp⟩
          · rw [if_neg hu] at hok
            exact Bool.noConfusion hok
    · rw [if_neg hr] at hok
      exact Bool.noConfusion hok
  · intro hrow hW he
    rw [if_pos ⟨hrow, by rw [he]; exact hW⟩, if_pos he]
  · intro hbad he
    rw [if_neg]
    rintro ⟨h1, h2⟩
    rcases hbad with h | h
    · exact h h1
    · rw [he, h] at h2
      exact Bool.noConfusion h2

theorem raw_write_then_read_witness :
    ( saferotp_write_single_value_raw_unsafe no_hardware zero_shadow 0x020 0x00ABCD).1 = true ∧
    ( saferotp_read_single_value_raw_unsafe no_hardware
      ( saferotp_write_single_value_raw_unsafe no_hardware zero_shadow 0x020 0x00ABCD).2 0x020
      (fun _ => 0)).2.1 0 = 0x00ABCD ∧
    saferotp_write_single_value_raw_unsafe no_hardware shadow_row_0x010_holds_3 0x010 3 =
      (true, shadow_row_0x010_holds_3) := by
  have h := raw_write_then_read no_hardware zero_shadow rfl 0x020 0x00ABCD (fun _ => 0)
  have h2 := raw_write_then_read no_hardware shadow_row_0x010_holds_3 rfl 0x010 3 (fun _ => 0)
  exact ⟨by decide, (h.1 (by decide)).2, h2.2.1 (by decide) (by decide) (by decide)⟩

/-- C30: the selection rule of the ECC write.  On an initialized shadow, for a readable row
holding the 32-bit word `E` that does not already decode to `v`, with `C = enc v`,
`C' = C ^^^ 0xFFFFFF`, `W = E ||| C`, `W' = E ||| C'`, `errs = C ^^^ W`, `errs' = C' ^^^ W'`:
the call log grows by exactly one raw write to the row, of `W` if `errs = 0`; else of `W'` if
`errs' = 0`; else of `W'` if `errs'` has at most one bit within `0xC00000` and at most one
within `0x3FFFFF`; else of `W` if `errs` passes that test; otherwise the call returns failure
with the state unchanged, no write issued. -/
theorem write_single_otp_ecc_row_selection {H : Type} (rom : Bootrom H) (codec : EccCodec)
    (s : OtpState H) (hinit : s.initialized = true) (row v : Nat) (hrow : row < 4096)
    (herr : is_error (s.rows row) = false) (hE : s.rows row < 2 ^ 32)
    (hC : codec.saferotp_calculate_ecc v < 2 ^ 32)
    (hnot : ¬ (codec.saferotp_decode_raw (s.rows row) &&& 0xFF000000 = 0 ∧
      codec.saferotp_decode_raw (s.rows row) % 65536 = v))
    (C C' W W' errs errs' : Nat) (hCd : C = codec.saferotp_calculate_ecc v)
    (hC'd : C' = C ^^^ 0xFFFFFF) (hWd : W = s.rows row ||| C) (hW'd : W' = s.rows row ||| C')
    (herrsd : errs = C ^^^ W) (herrs'd : errs' = C' ^^^ W') :
    (errs = 0 →
      (write_single_otp_ecc_row rom codec s row v).2.raw_writes = (row, [W]) :: s.raw_writes) ∧
    (errs ≠ 0 → errs' = 0 →
      (write_single_otp_ecc_row rom codec s row v).2.raw_writes = (row, [W']) :: s.raw_writes) ∧
    (errs ≠ 0 → errs' ≠ 0 →
      (popcount (errs' &&& 0xC00000) ≤ 1 ∧ popcount (errs' &&& 0x3FFFFF) ≤ 1) →
      (write_single_otp_ecc_row rom codec s row v).2.raw_writes = (row, [W']) :: s.raw_writes) ∧
    (errs ≠ 0 → errs' ≠ 0 →
      ¬ (popcount (errs' &&& 0xC00000) ≤ 1 ∧ popcount (errs' &&& 0x3FFFFF) ≤ 1) →
      (popcount (errs &&& 0xC00000) ≤ 1 ∧ popcount (errs &&& 0x3FFFFF) ≤ 1) →
      (write_single_otp_ecc_row rom codec s row v).2.raw_writes = (row, [W]) :: s.raw_writes) ∧
    (errs ≠ 0 → errs' ≠ 0 →
      ¬ (popcount (errs' &&& 0xC00000) ≤ 1 ∧ popcount (errs' &&& 0x3FFFFF) ≤ 1) →
      ¬ (popcount (errs &&& 0xC00000) ≤ 1 ∧ popcount (errs &&& 0x3FFFFF) ≤ 1) →
      write_single_otp_ecc_row rom codec s row v = (false, s)) := by
  have hh := write_single_otp_ecc_row_hands rom codec s hinit row v hrow herr hnot
  have hrule := ecc_data_to_write_rule codec (s.rows row) v hE hC
  subst hCd
  subst hC'd
  subst hWd
  subst hW'd
  subst herrsd
  subst herrs'd
  refine ⟨?_, ?_, ?_, ?_, ?_⟩
  · intro h1
    rw [if_pos h1] at hrule
    exact hh.1 _ hrule
  · intro h1 h2
    rw [if_neg h1, if_pos h2] at hrule
    exact hh.1 _ hrule
  · intro h1 h2 h3
    rw [if_neg h1, if_neg h2, if_pos h3] at hrule
    exact hh.1 _ hrule
  · intro h1 h2 h3 h4
    rw [if_neg h1, if_neg h2, if_neg h3, if_pos h4] at hrule
    exact hh.1 _ hrule
  · intro h1 h2 h3 h4
    rw [if_neg h1, if_neg h2, if_neg h3, if_neg h4] at hrule
    exact hh.2 hrule

theorem write_single_otp_ecc_row_selection_witness :
    (write_single_otp_ecc_row no_hardware plain_codec zero_shadow 0x300 0xBBAA).2.raw_writes =
      [(0x300, [0xBBAA])] ∧
    (write_single_otp_ecc_row no_hardware plain_codec shadow_row_0x010_holds_3 0x010
      0xFFFC).2.raw_writes = [(0x010, [0xFF0003])] := by
  have h := write_single_otp_ecc_row_selection no_hardware plain_codec zero_shadow rfl 0x300
    0xBBAA (by decide) (by decide) (by decide) (by decide) (by decide)
    0xBBAA 0xFF4455 0xBBAA 0xFF4455 0 0 (by decide) (by decide) (by decide) (by decide)
    (by decide) (by decide)
  have h2 := write_single_otp_ecc_row_selection no_hardware plain_codec shadow_row_0x010_holds_3
    rfl 0x010 0xFFFC (by decide) (by decide) (by decide) (by decide) (by decide)
    0xFFFC 0xFF0003 0xFFFF 0xFF0003 3 0 (by decide) (by decide) (by decide) (by decide)
    (by decide) (by decide)
  exact ⟨h.1 rfl, h2.2.1 (by decide) rfl⟩

/-- C31: the decision rule of the voting read does not hold for the counters the code has.
On an initialized shadow, for both supported pairs and leftover counters `votes0` small enough
that no 8-bit counter wraps, the read fails exactly when `S < N` or some bit `i < 24` has
`votes0 i + votes i < N` and `F ≥ N - (votes0 i + votes i)`, where `votes0` is what the
uninitialized array `votes` held on entry and `S + F = M`: the rule of the claim when the
counters start from zero.  With fewer than `N` readable rows the read fails whatever the
counters held, as with six of eight rows error-flagged.  With rows `0x000001`, `0`, error from
`0x100` (`S = 2`, `F = 1`, one vote for bit 0) the RBIT-3 read fails from zeroed counters, as
the rule says, but succeeds from counters left at 2; and with rows `0x000001`, `0x000001`,
error (two votes for bit 0) it fails from counters left at `0xFF`, bit 0 wrapping to 1. -/
theorem n_of_m_read_rule_counts_leftover_votes :
    (∀ (H : Type) (rom : Bootrom H) (s : OtpState H) (start_row N M : Nat) (votes0 : Nat → Nat),
      s.initialized = true → ((N = 2 ∧ M = 3) ∨ (N = 3 ∧ M = 8)) →
      (∀ i, i < 24 → votes0 i + M < 256) →
      (n_of_m_successes s start_row M + n_of_m_failures s start_row M = M ∧
        ((read_single_otp_value_N_of_M rom s start_row N M votes0).1 = false ↔
          (n_of_m_successes s start_row M < N ∨
            ∃ i, i < 24 ∧ votes0 i + n_of_m_votes s start_row M i < N ∧
              N - (votes0 i + n_of_m_votes s start_row M i) ≤
                n_of_m_failures s start_row M)))) ∧
    (∀ (H : Type) (rom : Bootrom H) (s : OtpState H) (start_row N M : Nat) (votes0 : Nat → Nat),
      s.initialized = true → ((N = 2 ∧ M = 3) ∨ (N = 3 ∧ M = 8)) →
      n_of_m_successes s start_row M < N →
      (read_single_otp_value_N_of_M rom s start_row N M votes0).1 = false) ∧
    n_of_m_successes shadow_rbit8_two_readable 0x200 8 = 2 ∧
    (∀ votes0 : Nat → Nat, (saferotp_read_single_value_rbit8 no_hardware
      shadow_rbit8_two_readable 0x200 votes0).1 = false) ∧
    n_of_m_successes shadow_rbit3_one_vote 0x100 3 = 2 ∧
    n_of_m_failures shadow_rbit3_one_vote 0x100 3 = 1 ∧
    n_of_m_votes shadow_rbit3_one_vote 0x100 3 0 = 1 ∧
    (saferotp_read_single_value_rbit3 no_hardware shadow_rbit3_one_vote 0x100
      zero_votes).1 = false ∧
    (saferotp_read_single_value_rbit3 no_hardware shadow_rbit3_one_vote 0x100
      leftover_votes).1 = true ∧
    n_of_m_votes shadow_rbit3_two_votes 0x100 3 0 = 2 ∧
    (saferotp_read_single_value_rbit3 no_hardware shadow_rbit3_two_votes 0x100
      zero_votes).1 = true ∧
    (saferotp_read_single_value_rbit3 no_hardware shadow_rbit3_two_votes 0x100
      votes_0xFF).1 = false := by
  have hS8 : n_of_m_successes shadow_rbit8_two_readable 0x200 8 = 2 := by decide
  have hfew : ∀ (H : Type) (rom : Bootrom H) (s : OtpState H) (start_row N M : Nat)
      (votes0 : Nat → Nat), s.initialized = true → ((N = 2 ∧ M = 3) ∨ (N = 3 ∧ M = 8)) →
      n_of_m_successes s start_row M < N →
      (read_single_otp_value_N_of_M rom s start_row N M votes0).1 = false := by
    intro H rom s start_row N M votes0 hinit hNM hS
    cases hres : (read_single_otp_value_N_of_M rom s start_row N M votes0).1
    · rfl
    · have := ((read_single_otp_value_N_of_M_shadow_ok_iff rom s hinit start_row N M votes0
        hNM).1 hres).1
      omega
  refine ⟨?_, hfew, hS8, ?_, by decide, by decide, by decide, by decide, by decide, by decide,
    by decide, by decide⟩
  · intro H rom s start_row N M votes0 hinit hNM hsmall
    exact ⟨n_of_m_successes_add_failures s start_row M,
      read_single_otp_value_N_of_M_shadow_fails_iff rom s hinit start_row N M votes0 hNM
        hsmall⟩
  · intro votes0
    rw [saferotp_read_single_value_rbit8]
    exact hfew Unit no_hardware shadow_rbit8_two_readable 0x200 3 8 votes0 rfl
      (Or.inr ⟨rfl, rfl⟩) (by rw [hS8]; decide)

/-- C32: on an initialized shadow, for an in-range readable row and a byte `v`, the byte-3x
write succeeds exactly when no bit that is clear in `v` is set in at least two of the three
stored bytes of the row: once the vote-clear check passes, neither the raw write nor the
read-back verification fails. -/
theorem write_otp_byte_3x_succeeds_iff {H : Type} (rom : Bootrom H) (s : OtpState H)
    (hinit : s.initialized = true) (row v : Nat) (hrow : row < 4096)
    (herr : is_error (s.rows row) = false) (hv : v < 256) :
    (saferotp_write_single_value_byte3x rom s row v).1 = true ↔
      ∀ i, i < 8 → v.testBit i = false →
        ¬ (2 ≤ ((as_bytes (s.rows row) 0).testBit i).toNat +
          ((as_bytes (s.rows row) 1).testBit i).toNat +
          ((as_bytes (s.rows row) 2).testBit i).toNat) := by
  have hiff : (saferotp_write_single_value_byte3x rom s row v).1 = true ↔
      byte_3x_clear_check (s.rows row) ((0xFF ^^^ v) % 256) 8 0 = true := by
    rw [saferotp_write_single_value_byte3x, write_otp_byte_3x_shadow rom s hinit row v hv]
    by_cases hc : byte_3x_clear_check (s.rows row) ((0xFF ^^^ v) % 256) 8 0 = true
    · rw [if_pos ⟨hrow, herr, hc⟩]
      simp only [hc, iff_true]
      split_ifs <;> rfl
    · rw [if_neg (fun h => hc h.2.2)]
      simp [hc]
  rw [hiff, byte_3x_clear_check_passes_iff]
  constructor
  · intro h i hi hclear hvote
    have hm : (byte_3x_majority (s.rows row)).testBit i = true := by
      rw [byte_3x_majority_testBit]
      exact (two_le_toNat_sum_iff _ _ _).1 hvote
    rw [h i hi hm] at hclear
    exact Bool.noConfusion hclear
  · intro h j hj hm
    cases hb : v.testBit j
    · exfalso
      refine h j hj hb ((two_le_toNat_sum_iff _ _ _).2 ?_)
      rw [← byte_3x_majority_testBit]
      exact hm
    · rfl

theorem write_otp_byte_3x_succeeds_iff_witness :
    (saferotp_write_single_value_byte3x no_hardware shadow_row_0x010_holds_3 0x010 0x07).1 =
      true ∧
    (saferotp_write_single_value_byte3x no_hardware shadow_rbit3_votes_0xFF 0x100 0xF0).1 =
      true := by
  exact ⟨(write_otp_byte_3x_succeeds_iff no_hardware shadow_row_0x010_holds_3 rfl 0x010 0x07
      (by decide) (by decide) (by decide)).2 (by decide),
    (write_otp_byte_3x_succeeds_iff no_hardware shadow_rbit3_votes_0xFF rfl 0x100 0xF0
      (by decide) (by decide) (by decide)).2 (by decide)⟩

/-- C33: the engines only hand supersets to the raw facade.  On an initialized shadow, the
calls of the raw write made by the ECC write, by the byte-3x write and by the N-of-M write
(and by its row loop from any index) replay as supersets: each hands one word to an in-range
row whose error flag is clear, the word is a bitwise superset of what the row holds at that
moment, and the rows the engine leaves are those after these writes, so none was refused. -/
theorem engine_writes_are_supersets {H : Type} (rom : Bootrom H) (codec : EccCodec)
    (s : OtpState H) (hinit : s.initialized = true) (row v start_row N M new_value n i : Nat)
    (votes0 votes1 : Nat → Nat) :
    (∃ new, (saferotp_write_single_value_ecc rom codec s row v).2.raw_writes =
        new ++ s.raw_writes ∧
      replay_supersets s.rows new.reverse =
        some (saferotp_write_single_value_ecc rom codec s row v).2.rows) ∧
    (∃ new, (saferotp_write_single_value_byte3x rom s row v).2.raw_writes =
        new ++ s.raw_writes ∧
      replay_supersets s.rows new.reverse =
        some (saferotp_write_single_value_byte3x rom s row v).2.rows) ∧
    (∃ new, (write_single_otp_value_N_of_M rom s start_row N M new_value votes0
          votes1).2.raw_writes = new ++ s.raw_writes ∧
      replay_supersets s.rows new.reverse =
        some (write_single_otp_value_N_of_M rom s start_row N M new_value votes0
          votes1).2.rows) ∧
    (∃ new, (n_of_m_write_loop rom start_row new_value n i s).raw_writes =
        new ++ s.raw_writes ∧
      replay_supersets s.rows new.reverse =
        some (n_of_m_write_loop rom start_row new_value n i s).rows) :=
  ⟨write_single_otp_ecc_row_log rom codec s hinit row v,
    write_otp_byte_3x_log rom s hinit row v,
    write_single_otp_value_N_of_M_log rom s hinit start_row N M new_value votes0 votes1,
    (n_of_m_write_loop_log rom start_row new_value n i s hinit).2⟩

theorem engine_writes_are_supersets_witness :
    shadow_rbit3_votes_0xFF.initialized = true ∧
    (∃ new, (n_of_m_write_loop no_hardware 0x100 0xFF 3 0 shadow_rbit3_votes_0xFF).raw_writes =
        new ++ shadow_rbit3_votes_0xFF.raw_writes ∧
      replay_supersets shadow_rbit3_votes_0xFF.rows new.reverse =
        some (n_of_m_write_loop no_hardware 0x100 0xFF 3 0 shadow_rbit3_votes_0xFF).rows) ∧
    (n_of_m_write_loop no_hardware 0x100 0xFF 3 0 shadow_rbit3_votes_0xFF).raw_writes =
      [(0x101, [0xFF])] ∧
    (saferotp_write_single_value_ecc no_hardware plain_codec shadow_row_0x010_holds_3 0x010
      0x0002).2.raw_writes = [(0x010, [0xFFFFFF])] ∧
    (saferotp_write_single_value_byte3x no_hardware shadow_row_0x010_holds_3 0x010
      0x05).2.raw_writes = [(0x010, [0x050507])] := by
  exact ⟨rfl,
    (engine_writes_are_supersets no_hardware plain_codec shadow_rbit3_votes_0xFF rfl 0x010 2
      0x100 2 3 0xFF 3 0 zero_votes zero_votes).2.2.2,
    by decide, by decide, by decide⟩

/-- C34: index safety of the shadow.  For a pair accepted by `is_valid_otp_range_raw`, every
index `start_row + i`, `i < n / 4`, is below 4096, and the row count fits 16 bits.  The shadow
write and the restore leave everything from index 4096 on as it was; and the shadow read, the
save, the write and the restore give the same results, and the same 4096 rows, in two states
that agree on the 4096 rows: nothing outside the array is read or written. -/
theorem shadow_paths_stay_in_bounds {H : Type} (s s' : OtpState H) (start_row n : Nat)
    (buf : Nat → Nat) (hvalid : is_valid_otp_range_raw start_row n = true) :
    (∀ i, i < n / 4 → start_row + i < 4096) ∧
    n / 4 % 65536 = n / 4 ∧ n / 4 ≤ 4096 ∧ start_row + n / 4 < 65536 ∧
    (∀ r, 4096 ≤ r → (virt_write_raw_otp_wrapper s start_row buf n).2.rows r = s.rows r) ∧
    (∀ r, 4096 ≤ r → (virt_override_restore s start_row buf n).2.rows r = s.rows r) ∧
    ((∀ r, r < 4096 → s'.rows r = s.rows r) → s'.initialized = s.initialized →
      virt_read_raw_otp_wrapper s' start_row buf n =
        virt_read_raw_otp_wrapper s start_row buf n ∧
      virt_override_save s' start_row buf n = virt_override_save s start_row buf n ∧
      (virt_write_raw_otp_wrapper s' start_row buf n).1 =
        (virt_write_raw_otp_wrapper s start_row buf n).1 ∧
      (∀ r, r < 4096 → (virt_write_raw_otp_wrapper s' start_row buf n).2.rows r =
        (virt_write_raw_otp_wrapper s start_row buf n).2.rows r) ∧
      (virt_override_restore s' start_row buf n).1 = (virt_override_restore s start_row buf n).1 ∧
      (∀ r, r < 4096 → (virt_override_restore s' start_row buf n).2.rows r =
        (virt_override_restore s start_row buf n).2.rows r)) := by
  have henv := (is_valid_otp_range_raw_envelope start_row n).1 hvalid
  obtain ⟨h4, hlo, hhi, hstart, hend⟩ := henv
  refine ⟨fun i hi => by omega, by omega, by omega, by omega, ?_, ?_, ?_⟩
  · intro r hr
    simp only [virt_write_raw_otp_wrapper]
    split_ifs
    · rfl
    · rfl
    · exact virt_write_loop_frame start_row buf (n / 4) 0 s.rows r (Or.inr (by omega))
  · intro r hr
    simp only [virt_override_restore, hvalid, Bool.not_true, Bool.false_eq_true, if_false]
    exact if_neg (by omega)
  · intro hagree hflag
    have hin : ∀ k, 0 ≤ k → k < 0 + n / 4 → s'.rows (start_row + k) = s.rows (start_row + k) :=
      fun k _ hk => hagree _ (by omega)
    have hwr := virt_write_loop_congr s.rows s'.rows start_row buf (n / 4) 0 hin
    refine ⟨?_, ?_, ?_, ?_, ?_, ?_⟩
    · simp only [virt_read_raw_otp_wrapper, hflag, hvalid]
      rw [virt_read_loop_congr s.rows s'.rows start_row (n / 4) 0 buf hin]
    · simp only [virt_override_save, hvalid, Bool.not_true, Bool.false_eq_true, if_false]
      congr 1
      funext i
      by_cases hi : i < n / 4
      · rw [if_pos hi, if_pos hi]; exact hagree _ (by omega)
      · rw [if_neg hi, if_neg hi]
    · simp only [virt_write_raw_otp_wrapper, hflag, hvalid, Bool.not_true, Bool.false_eq_true,
        if_false]
      split_ifs
      · rfl
      · exact hwr.1
    · intro r hr
      simp only [virt_write_raw_otp_wrapper, hflag, hvalid, Bool.not_true, Bool.false_eq_true,
        if_false]
      split_ifs
      · exact hagree r hr
      · by_cases hrin : start_row ≤ r ∧ r < start_row + n / 4
        · have hreq : r = start_row + (r - start_row) := by omega
          rw [hreq]
          exact hwr.2 (r - start_row) (Nat.zero_le _) (by omega)
        · show (virt_write_loop start_row buf (n / 4) 0 s'.rows).2 r =
            (virt_write_loop start_row buf (n / 4) 0 s.rows).2 r
          rw [virt_write_loop_frame start_row buf (n / 4) 0 s'.rows r (by omega),
            virt_write_loop_frame start_row buf (n / 4) 0 s.rows r (by omega)]
          exact hagree r hr
    · simp only [virt_override_restore, hvalid, Bool.not_true, Bool.false_eq_true, if_false]
    · intro r hr
      simp only [virt_override_restore, hvalid, Bool.not_true, Bool.false_eq_true, if_false]
      by_cases hrin : start_row ≤ r ∧ r < start_row + n / 4
      · rw [if_pos hrin, if_pos hrin]
      · rw [if_neg hrin, if_neg hrin]; exact hagree r hr

theorem shadow_paths_stay_in_bounds_witness :
    is_valid_otp_range_raw 0xFFC 16 = true ∧
    (∀ i, i < 16 / 4 → 0xFFC + i < 4096) ∧
    virt_read_raw_otp_wrapper zero_shadow_beyond 0xFFC (fun _ => 7) 16 =
      virt_read_raw_otp_wrapper zero_shadow 0xFFC (fun _ => 7) 16 ∧
    (virt_write_raw_otp_wrapper zero_shadow_beyond 0xFFC (fun _ => 7) 16).2.rows 4096 =
      0xDEAD := by
  have h := shadow_paths_stay_in_bounds zero_shadow zero_shadow_beyond 0xFFC 16 (fun _ => 7)
    (by decide)
  have h2 := shadow_paths_stay_in_bounds zero_shadow_beyond zero_shadow 0xFFC 16 (fun _ => 7)
    (by decide)
  exact ⟨by decide, h.1,
    (h.2.2.2.2.2.2 (fun r hr => by simp [zero_shadow_beyond, zero_shadow, hr]) rfl).1,
    (h2.2.2.2.2.1 4096 (by decide)).trans (by decide)⟩

end SaferOtp
